import Mathlib

/-!
Verification development for the tour-guide backend's intent-resolution and
agent-orchestration pipeline.  Python source files are shallowly embedded:
pure string processing (keyword classifiers, regex-based extractors) becomes
executable Lean functions over `List Char`; effectful collaborators (the
language model, Redis session store, Firestore lookups) become explicit
oracle inputs; every embedded routine also returns the list of side-effecting
actions it performed, so the theorems can speak about which calls were made.
-/

namespace TourGuide

/-- Characters of a Python string. -/
abbrev Chars := List Char

/-- Python `str.lower()` (ASCII case folding, which is all these strings use). -/
def lowers (s : Chars) : Chars := s.map Char.toLower

/-- Python regex `\s` character class: `[ \t\n\r\f\v]`. -/
def isWsChar (c : Char) : Bool :=
  c = ' ' || c = '\t' || c = '\n' || c = '\x0d' || c = '\x0c' || c = '\x0b'

/-- Exact (case-sensitive) "pat begins the string" test. -/
def startsWithB : Chars → Chars → Bool
  | [], _ => true
  | _ :: _, [] => false
  | p :: ps, c :: cs => p == c && startsWithB ps cs

/-- Exact substring test, Python's `pat in s`. -/
def hasTok (pat : Chars) : Chars → Bool
  | [] => startsWithB pat []
  | s@(_ :: rest) => startsWithB pat s || hasTok pat rest

/-- Case-insensitive "pat begins the string" test (regex `IGNORECASE` matching
of a literal). -/
def startsCI : Chars → Chars → Bool
  | [], _ => true
  | _ :: _, [] => false
  | p :: ps, c :: cs => p.toLower == c.toLower && startsCI ps cs

/-- Case-insensitive substring test. -/
def hasTokCI (pat : Chars) : Chars → Bool
  | [] => startsCI pat []
  | s@(_ :: rest) => startsCI pat s || hasTokCI pat rest

/-- Python `kw in text.lower()` for a lower-case keyword `kw`. -/
def lowerHas (kw : Chars) (text : Chars) : Bool := hasTok kw (lowers text)

/-- Python `any(kw in text_lower for kw in kws)`. -/
def anyKw (kws : List Chars) (text : Chars) : Bool :=
  kws.any (fun k => lowerHas k text)

/-- Leftmost-match driver shared by all the regex embeddings: try the anchored
matcher `step` at every start position of the text, leftmost first, exactly as
`re.search` tries successive start offsets. -/
def scanPos (step : Chars → Option α) : Chars → Option α
  | [] => step []
  | s@(_ :: rest) =>
    match step s with
    | some a => some a
    | none => scanPos step rest

/-- Try each literal alternative in order at the current position
(case-insensitively); on a hit run the continuation on the remainder, and on
continuation failure fall through to the next alternative, exactly as a
backtracking alternation does. -/
def altCont (cont : Chars → Option α) : List Chars → Chars → Option α
  | [], _ => none
  | a :: as, s =>
    match (if startsCI a s then cont (s.drop a.length) else none) with
    | some r => some r
    | none => altCont cont as s

/-- Lazy `.*?` driver: try the continuation before consuming each character,
and never consume a newline (regexes here are compiled without `DOTALL`). -/
def lazyFind (inner : Chars → Option α) : Chars → Option α
  | [] => inner []
  | s@(c :: rest) =>
    match inner s with
    | some a => some a
    | none => if c = '\n' then none else lazyFind inner rest

-- ===== Embedding of api/smart_router.py `_determine_endpoint_from_keywords` =====

/-- Routing decision parameters carried by the classifier
(`parameters` object of the routing JSON). -/
structure RParams where
  touristId : Option String := none
  guideId : Option String := none
  requestId : Option String := none
  applicationId : Option String := none
deriving Repr, DecidableEq

/-- A routing decision: `{endpoint, confidence, parameters, reasoning}`.
Fields are optional because the router reads them with `dict.get` defaults. -/
structure RoutingData where
  ep : Option String
  conf : Option ℚ
  params : RParams := {}
  reasoning : String := ""
deriving Repr, DecidableEq

def createKeywords : List Chars :=
  [("planning".toList), ("plan".toList), ("create".toList), ("book".toList),
   ("new tour".toList), ("request tour".toList), ("want to visit".toList),
   ("going to".toList), ("tour to".toList), ("trip to".toList),
   ("visit".toList), ("cultural tour".toList), ("adventure tour".toList),
   ("budget".toList), ("people".toList), ("destination".toList)]

def listKeywords : List Chars :=
  [("list".toList), ("show".toList), ("my requests".toList),
   ("all requests".toList), ("search".toList)]

def updateKeywords : List Chars :=
  [("update".toList), ("change".toList), ("modify".toList), ("edit".toList)]

def cancelKeywords : List Chars :=
  [("cancel".toList), ("delete".toList), ("remove".toList)]

def bookingKeywords : List Chars :=
  [("bookings".toList), ("my bookings".toList)]

def applicationKeywords : List Chars :=
  [("applications".toList), ("applicants".toList), ("proposals".toList)]

def acceptKeywords : List Chars :=
  [("accept".toList), ("approve".toList), ("select guide".toList)]

def tourishKeywords : List Chars :=
  [("tour".toList), ("trip".toList), ("destination".toList),
   ("visit".toList), ("travel".toList)]

/-- Embedding of `_determine_endpoint_from_keywords` (smart_router.py lines
375-449): the deterministic keyword fallback classifier. -/
def determineEndpointFromKeywords (text : Chars) : RoutingData :=
  if anyKw createKeywords text then
    { ep := some "create_tour_request", conf := some (8/10),
      reasoning := "Keywords suggest tour creation" }
  else if anyKw listKeywords text then
    { ep := some "get_tour_requests", conf := some (7/10),
      reasoning := "Keywords suggest listing requests" }
  else if anyKw updateKeywords text then
    { ep := some "update_tour_request", conf := some (7/10),
      reasoning := "Keywords suggest update operation" }
  else if anyKw cancelKeywords text then
    { ep := some "cancel_tour_request", conf := some (7/10),
      reasoning := "Keywords suggest cancellation" }
  else if anyKw bookingKeywords text then
    { ep := some "get_bookings", conf := some (7/10),
      reasoning := "Keywords suggest booking query" }
  else if anyKw applicationKeywords text then
    { ep := some "get_applications", conf := some (7/10),
      reasoning := "Keywords suggest application query" }
  else if anyKw acceptKeywords text then
    { ep := some "accept_application", conf := some (7/10),
      reasoning := "Keywords suggest accepting application" }
  else if anyKw tourishKeywords text then
    { ep := some "create_tour_request", conf := some (6/10),
      reasoning := "Contains tour-related keywords, defaulting to create" }
  else
    { ep := some "ai_assist", conf := some (5/10),
      reasoning := "No clear endpoint match, using AI assist" }

/-- The endpoint names the tourist-side router knows how to dispatch
(smart_router.py lines 338-357). -/
def knownTouristEndpoints : List String :=
  ["create_tour_request", "get_tour_requests", "get_tour_request",
   "update_tour_request", "cancel_tour_request", "get_bookings",
   "get_applications", "accept_application", "ai_assist"]

-- ===== Decimal digits: values and a reference printer =====

/-- Numeric value of a decimal digit character. -/
def digitVal (c : Char) : ℕ := c.toNat - 48

/-- Value of a digit run, most significant first (what `int`/`float` do to a
digit-only group). -/
def digitsVal (ds : Chars) : ℕ := ds.foldl (fun acc c => 10 * acc + digitVal c) 0

/-- Split a string into its leading digit run and the remainder (`\d+` greedy). -/
def spanDigits (s : Chars) : Chars × Chars :=
  (s.takeWhile Char.isDigit, s.dropWhile Char.isDigit)

/-- Decimal printer for naturals, structurally recursive on a fuel bound so
that it evaluates inside the kernel; `natStr` supplies sufficient fuel. -/
def natStrF : ℕ → ℕ → Chars
  | 0, _ => []
  | fuel + 1, n =>
    if n < 10 then [Char.ofNat (48 + n)]
    else natStrF fuel (n / 10) ++ [Char.ofNat (48 + n % 10)]

/-- Decimal printer for naturals (used by the spec-modelled renderer). -/
def natStr (n : ℕ) : Chars := natStrF (n + 1) n

-- ===== Regex embeddings used by the smart router =====

/-- Alternatives of the price regex
`(?:proposed|price|budget|cost).*?(\d+(?:\.\d+)?)` (smart_router.py lines
230 and 1325). -/
def priceKws : List Chars :=
  [("proposed".toList), ("price".toList), ("budget".toList), ("cost".toList)]

/-- Anchored `\d+(?:\.\d+)?` followed by `float(...)` of the captured group. -/
def matchNumTok (s : Chars) : Option ℚ :=
  match spanDigits s with
  | ([], _) => none
  | (ds, rest) =>
    match rest with
    | '.' :: r2 =>
      match spanDigits r2 with
      | ([], _) => some (digitsVal ds)
      | (fs, _) => some ((digitsVal ds : ℚ) + (digitsVal fs : ℚ) / ((10 : ℚ) ^ fs.length))
    | _ => some ((digitsVal ds : ℚ))

/-- Embedding of the price-extraction regex search: leftmost keyword whose
lazy tail reaches a number (never crossing a newline). -/
def extractPriceTok (text : Chars) : Option ℚ :=
  scanPos (fun s => altCont (lazyFind matchNumTok) priceKws s) text

/-- Whether the price regex matches at all (`has_price`, smart_router.py
line 231). -/
def hasPriceTok (text : Chars) : Bool := (extractPriceTok text).isSome

/-- Embedding of `cover\s+letter|coverletter` (smart_router.py line 232). -/
def coverStep (s : Chars) : Option Unit :=
  if startsCI ("cover".toList) s then
    let r := s.drop 5
    let k := (r.takeWhile isWsChar).length
    if 0 < k && startsCI ("letter".toList) (r.drop k) then some ()
    else if startsCI ("letter".toList) r then some ()
    else none
  else none

def hasCoverLetterMention (text : Chars) : Bool := (scanPos coverStep text).isSome

/-- Regex `[0-9a-f]` under `IGNORECASE`. -/
def isHexChar (c : Char) : Bool :=
  c.isDigit || ('a' ≤ c.toLower && c.toLower ≤ 'f')

/-- Consume exactly `n` hex characters, returning the remainder. -/
def takeHex (n : ℕ) (s : Chars) : Option Chars :=
  if (s.take n).length = n && (s.take n).all isHexChar then some (s.drop n) else none

/-- Anchored UUID pattern `[0-9a-f]{8}-{4}-{4}-{4}-{12}` (with dashes),
returning the remainder after the match. -/
def matchUUIDAt (s : Chars) : Option Chars := do
  let r1 ← takeHex 8 s
  let r2 ← match r1 with | '-' :: t => some t | _ => none
  let r3 ← takeHex 4 r2
  let r4 ← match r3 with | '-' :: t => some t | _ => none
  let r5 ← takeHex 4 r4
  let r6 ← match r5 with | '-' :: t => some t | _ => none
  let r7 ← takeHex 4 r6
  let r8 ← match r7 with | '-' :: t => some t | _ => none
  takeHex 12 r8

/-- `re.search` of the UUID pattern: returns the 36-character match. -/
def findUUID (text : Chars) : Option Chars :=
  scanPos (fun s => (matchUUIDAt s).map (fun _ => s.take 36)) text

/-- `uuid_pattern.match(...)` with the anchored `^...$` pattern of
smart_router.py line 1228: the whole string is one UUID. -/
def isUUIDFull (s : Chars) : Bool :=
  match matchUUIDAt s with
  | some rest => rest.isEmpty
  | none => false

/-- Step of the `"requestId"\s*:\s*"([^"]+)"` search (smart_router.py line
207, case-sensitive). -/
def reqIdStep (s : Chars) : Option Chars :=
  if startsWithB ("\"requestId\"".toList) s then
    let r := (s.drop 11).dropWhile isWsChar
    match r with
    | ':' :: r2 =>
      let r3 := r2.dropWhile isWsChar
      match r3 with
      | '"' :: r4 =>
        let captured := r4.takeWhile (fun c => c ≠ '"')
        match r4.dropWhile (fun c => c ≠ '"') with
        | '"' :: _ => if captured.isEmpty then none else some captured
        | _ => none
      | _ => none
    | _ => none
  else none

def findPendingReqId (content : Chars) : Option Chars := scanPos reqIdStep content

/-- One stored session message.  The repository stores messages under a
`message` key and the router reads `msg.get('content','') or
msg.get('message','')`; `content` here is that effective text. -/
structure HistMsg where
  role : String
  content : String
deriving Repr, DecidableEq

/-- The pending-application marker test of smart_router.py line 204
(`needs_information`/`To complete your application` are case-sensitive,
`proposed price` is checked on the lower-cased content). -/
def isPendingMarker (content : Chars) : Bool :=
  hasTok ("needs_information".toList) content ||
  hasTok ("To complete your application".toList) content ||
  lowerHas ("proposed price".toList) content

/-- Newest-first walk of the apply-session tail (input already reversed). -/
def scanPendingList : List HistMsg → Option String
  | [] => none
  | m :: rest =>
    if m.role = "assistant" then
      let c := m.content.toList
      match (if isPendingMarker c then findPendingReqId c else none) with
      | some rid => some (String.mk rid)
      | none => scanPendingList rest
    else scanPendingList rest

/-- Python `hist[-10:]` (a natural-number window size). -/
def lastN (n : ℕ) (l : List α) : List α := l.drop (l.length - n)

/-- Embedding of smart_router.py lines 200-212: scan the last ten
apply-session messages, newest first, for a pending request id. -/
def findPendingRequestId (hist : List HistMsg) : Option String :=
  scanPendingList (lastN 10 hist).reverse

/-- Embedding of smart_router.py lines 216-227: the regular-session fallback
scan (a UUID anywhere in a marker-bearing assistant message). -/
def scanRegularList : List HistMsg → Option String
  | [] => none
  | m :: rest =>
    if m.role = "assistant" then
      let c := m.content.toList
      match findUUID c with
      | some u => if isPendingMarker c then some (String.mk u) else scanRegularList rest
      | none => scanRegularList rest
    else scanRegularList rest

def findRegularRequestId (hist : List HistMsg) : Option String :=
  scanRegularList (lastN 10 hist).reverse

-- ===== Character-class group matching (the `([A-Za-z][a-zA-Z\s,]+?)` idiom) =====

/-- Lazy growth of a character-class group: test the terminator before
consuming each character; fail on a character outside the class. -/
def growLazy (cls : Char → Bool) (term : Chars → Bool) : Chars → Chars → Option Chars
  | acc, [] => if term [] then some acc.reverse else none
  | acc, s@(c :: rest) =>
    if term s then some acc.reverse
    else if cls c then growLazy cls term (c :: acc) rest
    else none

/-- `first cls+?` with a minimum of two characters before the first
terminator test (`[A-Za-z][a-zA-Z\s,]+?`). -/
def matchGroup2 (first : Char → Bool) (cls : Char → Bool) (term : Chars → Bool) :
    Chars → Option Chars
  | c1 :: c2 :: rest =>
    if first c1 && cls c2 then growLazy cls term [c2, c1] rest else none
  | _ => none

/-- Terminator `(?:\.|,|$|\s+(?:kw|...))`: end of text, a period or comma, or
a whitespace run followed by one of the keywords (all keywords start with a
letter, so the greedy `\s+` is equivalent to skipping the whole run). -/
def wsKwTerm (kws : List Chars) (s : Chars) : Bool :=
  match s with
  | [] => true
  | c :: _ =>
    if c = '.' || c = ',' then true
    else if isWsChar c then kws.any (fun k => startsCI k (s.dropWhile isWsChar))
    else false

def clsLetterWsComma (c : Char) : Bool := c.isAlpha || isWsChar c || c = ','

def clsLetterWs (c : Char) : Bool := c.isAlpha || isWsChar c

/-- Python `str.strip()`. -/
def stripWs (s : Chars) : Chars :=
  ((s.dropWhile isWsChar).reverse.dropWhile isWsChar).reverse

/-- Anchored `\s+([A-Za-z][a-zA-Z\s,]+?)(?:\.|,|$|\s+(?:kws))` continuation
after an `apply ...` keyword. -/
def applyNameCont (termKws : List Chars) (r : Chars) : Option Chars :=
  let k := (r.takeWhile isWsChar).length
  if k = 0 then none
  else matchGroup2 (fun c => c.isAlpha) clsLetterWsComma (wsKwTerm termKws) (r.drop k)

/-- Alternatives of the apply-handler tour-name regex (smart_router.py line
1213, `IGNORECASE`). -/
def applyNameKws : List Chars :=
  [("apply to".toList), ("want to apply".toList), ("apply for".toList),
   ("interested in".toList), ("apply".toList)]

/-- Alternatives of the router-side continuation regex (smart_router.py line
249, `IGNORECASE`). -/
def routerNameKws : List Chars :=
  [("apply to".toList), ("want to apply".toList), ("apply for".toList),
   ("apply".toList)]

/-- Secondary pattern `apply\s+([A-Z][a-zA-Z\s]+?)(?:\.|,|$)` of
smart_router.py line 1216 (case-sensitive, no keyword terminators). -/
def applyNameStep2 (s : Chars) : Option Chars :=
  if startsWithB ("apply".toList) s then
    let r := s.drop 5
    let k := (r.takeWhile isWsChar).length
    if k = 0 then none
    else matchGroup2 (fun c => c.isUpper) clsLetterWs (wsKwTerm []) (r.drop k)
  else none

/-- Tour-name extraction of the apply handler (smart_router.py lines
1213-1217), including `.strip()`. -/
def extractApplyTourName (text : Chars) : Option Chars :=
  match scanPos (fun s =>
      altCont (applyNameCont
        [("tour".toList), ("trip".toList), ("request".toList), ("with".toList)])
        applyNameKws s) text with
  | some g => some (stripWs g)
  | none =>
    match scanPos applyNameStep2 text with
    | some g => some (stripWs g)
    | none => none

/-- Tour-name extraction used by the router continuation scan
(smart_router.py line 249), including `.strip()`. -/
def extractRouterTourName (text : Chars) : Option Chars :=
  (scanPos (fun s =>
      altCont (applyNameCont
        [("tour".toList), ("trip".toList), ("request".toList)])
        routerNameKws s) text).map stripWs

/-- Router continuation over the last five regular-session messages, newest
first (smart_router.py lines 245-252): the first user message with an
`apply ...` tour name. -/
def scanTourNameList : List HistMsg → Option String
  | [] => none
  | m :: rest =>
    if m.role = "user" then
      match extractRouterTourName m.content.toList with
      | some n => some (String.mk n)
      | none => scanTourNameList rest
    else scanTourNameList rest

def findTourNameFromHistory (hist : List HistMsg) : Option String :=
  scanTourNameList (lastN 5 hist).reverse

-- ===== `_extract_id_from_text` (smart_router.py lines 1054-1068) =====

def isIdChar (c : Char) : Bool := c.isAlphanum || c = '-'

/-- Pattern `(?:request|id|ID)[\s:]*([A-Z0-9\-]+)` under `IGNORECASE`. -/
def idStep1 (s : Chars) : Option Chars :=
  altCont (fun r =>
    let r2 := r.dropWhile (fun c => isWsChar c || c = ':')
    let run := r2.takeWhile isIdChar
    if run.isEmpty then none else some run)
    [("request".toList), ("id".toList)] s

/-- Pattern `([A-Z0-9]{8,})` under `IGNORECASE`. -/
def idStep2 (s : Chars) : Option Chars :=
  let run := s.takeWhile Char.isAlphanum
  if run.length ≥ 8 then some run else none

/-- Pattern `#(\d+)`. -/
def idStep3 (s : Chars) : Option Chars :=
  match s with
  | '#' :: r =>
    let run := r.takeWhile Char.isDigit
    if run.isEmpty then none else some run
  | _ => none

def extractIdFromText (text : Chars) : Option String :=
  match scanPos idStep1 text with
  | some r => some (String.mk r)
  | none =>
    match scanPos idStep2 text with
    | some r => some (String.mk r)
    | none => (scanPos idStep3 text).map String.mk

-- ===== Data model: responses, actions, domain records =====

/-- A knowledge-base search result (`text`, rounded `similarity_score`,
optional `filename`); the score arrives from the vector index as an oracle
value, already on the router's comparison scale. -/
structure KBRes where
  text : String
  score : ℚ
  filename : Option String := none
deriving Repr, DecidableEq

/-- A stored tour request (the fields the apply handler reads).  `budget`
models `tour_request.get('budget', 0)`. -/
structure Tour where
  id : String
  title : String
  destination : String
  budget : ℚ
  startDate : Option String := none
  endDate : Option String := none
  tourType : Option String := none
  touristId : Option String := none
  touristName : Option String := none
deriving Repr, DecidableEq

/-- An application document.  An `Option` field being `none` models the
corresponding dictionary key being absent. -/
structure AppDoc where
  requestId : String := ""
  guideId : String := ""
  id : Option String := none
  proposedPrice : Option ℚ := none
  coverLetter : Option String := none
  status : String := ""
deriving Repr, DecidableEq

/-- Structured payloads of the responses the claims inspect; handler payloads
irrelevant to the claims collapse to `otherData`. -/
inductive RData
  | noData
  | kb (query answer : String) (score : ℚ) (filename : Option String)
  | needsInfo (missingFields : List String) (requestId : String)
      (tourTitle : String) (tourBudget : ℚ)
  | needsClarif (tourName : String)
  | appSubmitted (app : AppDoc)
  | assist (query response : String)
  | otherData
deriving Repr, DecidableEq

/-- An embedded HTTP response: `success_response`/`error_response` of
utils/response_utils.py produce `(ok, http, message, error_code, data)`. -/
structure Resp where
  ok : Bool
  http : ℕ
  message : String
  errorCode : Option String := none
  rdata : RData := RData.noData
deriving Repr, DecidableEq

/-- Side-effecting calls an embedded routine performs, in order.  `llm` is a
`bot_service.process_message` invocation tagged by call site. -/
inductive Action
  | llm (purpose : String)
  | kbSearch
  | handler (name : String)
  | applyCreate (requestId guideId : String)
  | applyUpdate (appId requestId : String)
  | sessionClear (sid : String)
deriving Repr, DecidableEq

/-- Python truthiness of an optional string (`None` and `''` are falsy). -/
def truthyS : Option String → Option String
  | some s => if s.isEmpty then none else some s
  | none => none

/-- Python `a or b or ...` over optional strings. -/
def firstTruthy (l : List (Option String)) : Option String :=
  l.foldr (fun o acc => match truthyS o with | some s => some s | none => acc) none

/-- Placeholder decimal rendering of a money amount inside interpolated
messages (Python formats the float; no claim depends on these digits). -/
def moneyStr (q : ℚ) : String := String.mk (natStr q.num.toNat)

-- ===== Embedding of `_route_to_apply_to_request` (smart_router.py 1186-1568) =====

/-- The parsed `pending_application:` session marker (only its `requestId`
is ever read, and the saved payload never contains one). -/
structure PendingApp where
  requestId : Option String := none
deriving Repr, DecidableEq

/-- Oracle inputs of the apply handler: session history, Firestore lookups,
and the language-model parse of the application text.  `aiPrice`/`aiCover`
are the fields of the JSON object extracted from the parse response (the
source substitutes `{None, None}` when extraction fails, so a failed parse is
the pair `(none, none)`). -/
structure ApplyEnv where
  applyHist : List HistMsg := []
  pendingParse : String → Option PendingApp := fun _ => none
  tourLookup : String → Option Tour := fun _ => none
  tourSearch : String → Option (List Tour) := fun _ => none
  existingApp : String → String → Option AppDoc := fun _ _ => none
  aiPrice : Option ℚ := none
  aiCover : Option String := none
  guideEmail : String := ""
  guideName : String := ""

/-- Scan of smart_router.py lines 1203-1209: newest-first walk of the last
five apply-session messages for a parseable `pending_application:` payload
(a failed `json.loads` keeps scanning). -/
def findPendingApp (hist : List HistMsg) (parse : String → Option PendingApp) :
    Option PendingApp :=
  go (lastN 5 hist).reverse
where
  go : List HistMsg → Option PendingApp
    | [] => none
    | m :: rest =>
      if m.role = "assistant" ∧ hasTok ("pending_application".toList) m.content.toList then
        match parse m.content with
        | some p => some p
        | none => go rest
      else go rest

/-- `'no need' in cl.lower() or 'not needed' in ... or 'dont need' in ...`
(smart_router.py line 1367). -/
def coverSaysNoNeed (cl : String) : Bool :=
  lowerHas ("no need".toList) cl.toList ||
  lowerHas ("not needed".toList) cl.toList ||
  lowerHas ("dont need".toList) cl.toList

/-- Text-level cover-letter waiver (smart_router.py line 1371). -/
def textSaysNoCover (text : Chars) : Bool :=
  lowerHas ("cover letter no need".toList) text ||
  lowerHas ("coverletter no need".toList) text ||
  lowerHas ("no cover letter".toList) text

/-- Python truthiness of the parsed cover letter (a non-empty string). -/
def coverTruthy (cl : Option String) : Option String := truthyS cl

/-- The default cover letter created when the guide waives it
(smart_router.py line 1411). -/
def defaultCover (title : String) : String :=
  "I am interested in guiding the " ++ title ++
    " and would like to apply for this opportunity."

/-- Outcome of the request-id resolution phase (smart_router.py 1219-1292):
either a resolved id, a clarification/search response that ends the handler,
or nothing identifiable. -/
inductive ResolveOut
  | resolved (rid : String)
  | respond (r : Resp)
  | unresolved
deriving Repr, DecidableEq

/-- The effective guide id of the apply handler
(`params.get('guideId') or original_data.get('userid')`, then interpolated
into the session key). -/
def applyGid (params : RParams) (userid : Option String) : String :=
  (match truthyS params.guideId with
    | some g => some g
    | none => truthyS userid).getD ""

/-- Embedding of the tour-identification phase of the apply handler.  The
clarification branch (`ResolveOut.respond`) always performs exactly one
`process_message` call to save the pending candidate set; the caller records
it. -/
def resolveRequestId (params : RParams) (text : Chars) (env : ApplyEnv) :
    ResolveOut :=
  let pending := findPendingApp env.applyHist env.pendingParse
  let tourName0 := extractApplyTourName text
  match pending.bind (fun p => truthyS p.requestId) with
  | some rid => ResolveOut.resolved rid
  | none =>
    let potential := match truthyS params.requestId with
      | some r => some r
      | none => extractIdFromText text
    let ridTn : Option String × Option Chars :=
      match potential with
      | some pid =>
        if isUUIDFull pid.toList then (some pid, none)
        else
          (none, match tourName0 with
            | some t => some t
            | none => some (stripWs pid.toList))
      | none => (none, tourName0)
    match ridTn with
    | (some rid, _) => ResolveOut.resolved rid
    | (none, some tn) =>
      match env.tourSearch (String.mk (lowers tn)) with
      | some matching =>
        if matching.isEmpty then ResolveOut.unresolved
        else
          let tnl := lowers tn
          let exact := matching.find? (fun t =>
            hasTok tnl (lowers t.title.toList) || hasTok tnl (lowers t.destination.toList))
          match exact with
          | some t => ResolveOut.resolved t.id
          | none =>
            if h : matching.length = 1 then
              ResolveOut.resolved ((matching.head (by
                intro hnil; rw [hnil] at h; simp at h)).id)
            else
              let question :=
                if matching.length > 1 then
                  "I found " ++ String.mk (natStr matching.length) ++
                    " tours matching \u0027" ++ String.mk tn ++
                    "\u0027. Which one would you like to apply to?" ++
                    " Please specify the tour number or ID."
                else
                  "I couldn\u0027t find an exact match for \u0027" ++ String.mk tn ++
                    "\u0027. Could you provide more details like the destination," ++
                    " dates, or the tour request ID?"
              ResolveOut.respond
                { ok := true, http := 200, message := question,
                  rdata := RData.needsClarif (String.mk tn) }
      | none => ResolveOut.unresolved
    | (none, none) => ResolveOut.unresolved

/-- The existing-application path of the apply handler (smart_router.py
lines 1376-1397 and 1478-1502): the equal-budget guard, the field merge and
the update call. -/
def existingApplicationFlow (rid : String) (tour : Tour) (gid sessionId : String)
    (exApp : AppDoc) (proposedPrice : Option ℚ) (coverL : Option String) :
    Resp × List Action :=
  let tourBudget := tour.budget
  if proposedPrice = some tourBudget then
    ({ ok := true, http := 200,
       message := "The tourist\u0027s budget is $" ++ moneyStr tourBudget ++
         ". Please provide a different proposed price for your application.",
       rdata := RData.needsInfo ["proposedPrice"] rid tour.title tourBudget },
     [Action.llm "apply_parse"])
  else
    let appData := { exApp with
      proposedPrice :=
        match proposedPrice with
        | some p => if p ≠ tourBudget then some p else exApp.proposedPrice
        | none => exApp.proposedPrice,
      coverLetter :=
        match coverTruthy coverL with
        | some cl => some cl
        | none => exApp.coverLetter }
    let appId := (truthyS exApp.id).getD gid
    ({ ok := true, http := 201,
       message := "Application submitted successfully to \"" ++ tour.title ++ "\"!",
       rdata := RData.appSubmitted appData },
     [Action.llm "apply_parse", Action.applyUpdate appId rid,
      Action.sessionClear sessionId])

/-- The new-application path of the apply handler (smart_router.py lines
1398-1475 and 1503-1506): completeness validation, clarification questions,
and the create call. -/
def newApplicationFlow (rid : String) (tour : Tour) (gid sessionId : String)
    (proposedPrice : Option ℚ) (coverL : Option String) (notNeeded : Bool) :
    Resp × List Action :=
  let tourBudget := tour.budget
  let missingPrice : Bool :=
    match proposedPrice with
    | none => true
    | some p => p = 0 || p = tourBudget
  let coverBlank : Bool :=
    match coverL with
    | none => true
    | some cl => (stripWs cl.toList).isEmpty
  let coverFinal :=
    if notNeeded ∧ coverBlank then some (defaultCover tour.title) else coverL
  let missingCover : Bool := if notNeeded ∧ coverBlank then false else coverBlank
  let missingFields :=
    (if missingPrice then ["proposedPrice"] else []) ++
    (if missingCover then ["coverLetter"] else [])
  if missingFields.isEmpty = false then
    let qPrice :=
      if proposedPrice = some tourBudget then
        "The tourist\u0027s budget is $" ++ moneyStr tourBudget ++
          ". Please provide your proposed price (it should be different from the budget)."
      else
        "What is your proposed price for this tour? (Tourist\u0027s budget: $" ++
          moneyStr tourBudget ++ ")"
    let qCover :=
      "Please provide a cover letter explaining why you\u0027re the best guide for this tour."
    let questionText :=
      "To complete your application, I need the following information:" ++
        (if missingPrice then qPrice else "") ++
        (if missingCover then qCover else "") ++
        " You can provide all information at once."
    ({ ok := true, http := 200, message := questionText,
       rdata := RData.needsInfo missingFields rid tour.title tourBudget },
     [Action.llm "apply_parse"])
  else
    let appData : AppDoc :=
      { requestId := rid, guideId := gid, id := some gid,
        proposedPrice := proposedPrice,
        coverLetter := (coverFinal.map (fun cl => String.mk (stripWs cl.toList))),
        status := "pending" }
    ({ ok := true, http := 201,
       message := "Application submitted successfully to \"" ++ tour.title ++ "\"!",
       rdata := RData.appSubmitted appData },
     [Action.llm "apply_parse", Action.applyCreate rid gid,
      Action.sessionClear sessionId])

/-- The cover-letter normalization of smart_router.py lines 1363-1373:
returns the effective cover letter and the `cover_letter_not_needed` flag. -/
def normalizeCover (text : Chars) (cover0 : Option String) :
    Option String × Bool :=
  let cn :=
    match coverTruthy cover0 with
    | some cl => if coverSaysNoNeed cl then (none, true) else (some cl, false)
    | none => (cover0, false)
  if textSaysNoCover text then (none, true) else cn

/-- Full embedding of `_route_to_apply_to_request`.  Serialization helpers
(`clean_for_json`) and user-record formatting are elided; Firestore reads and
the LLM parse arrive through `ApplyEnv`. -/
def applyToRequest (params : RParams) (text : Chars) (userid : Option String)
    (env : ApplyEnv) : Resp × List Action :=
  let gid := applyGid params userid
  let sessionId := "guide_apply_" ++ gid
  match resolveRequestId params text env with
  | ResolveOut.respond r => (r, [Action.llm "save_pending"])
  | ResolveOut.unresolved =>
    ({ ok := false, http := 400,
       message := "Could not identify the tour request. Please provide the" ++
         " tour title, destination, or request ID.",
       errorCode := some "MISSING_REQUEST_ID" }, [])
  | ResolveOut.resolved rid =>
    match env.tourLookup rid with
    | none =>
      ({ ok := false, http := 404, message := "Tour request not found",
         errorCode := some "TOUR_REQUEST_NOT_FOUND" }, [])
    | some tour =>
      let proposedPrice := match extractPriceTok text with
        | some p => some p
        | none => env.aiPrice
      let cn := normalizeCover text env.aiCover
      match env.existingApp rid gid with
      | some exApp =>
        existingApplicationFlow rid tour gid sessionId exApp proposedPrice cn.1
      | none =>
        newApplicationFlow rid tour gid sessionId proposedPrice cn.1 cn.2

-- ===== Embedding of the `smart_router` endpoint (smart_router.py 26-372) =====

/-- The JSON request body keys the router reads.  An `Option` field being
`none` models the key being absent. -/
structure ReqData where
  text : Option String := none
  query : Option String := none
  userid : Option String := none
  userIdKey : Option String := none
  touristIdKey : Option String := none
  guideIdKey : Option String := none
  userRole : Option String := none
  sessionId : Option String := none
deriving Repr

/-- `data.get('text') or data.get('query')` followed by the `if not text`
validation (Python truthiness: absent or empty strings fail). -/
def effectiveText (d : ReqData) : Option String :=
  truthyS (match truthyS d.text with
    | some t => some t
    | none => d.query)

/-- `data.get('userid') or data.get('userId') or data.get('touristId') or
data.get('guideId')`. -/
def effectiveUserid (d : ReqData) : Option String :=
  firstTruthy [d.userid, d.userIdKey, d.touristIdKey, d.guideIdKey]

/-- `data.get('userRole', 'tourist').lower()`. -/
def effectiveRole (d : ReqData) : String :=
  match d.userRole with
  | some r => String.mk (lowers r.toList)
  | none => "tourist"

/-- Embedding of `KnowledgeBaseSearch.search` for `top_k = 1`
(knowledge_base_search.py lines 117-154): walk the index-provided result
list in order, keep those meeting the similarity threshold, return the first
`top_k`.  The raw scored list is the oracle standing for the vector index. -/
def kbSearchList (θ : ℚ) (raw : List KBRes) : List KBRes :=
  (raw.filter (fun r => θ ≤ r.score)).take 1

/-- Embedding of `search_best_match` (knowledge_base_search.py 207-223). -/
def searchBestMatch (θ : ℚ) (raw : List KBRes) : Option KBRes :=
  (kbSearchList θ raw).head?

/-- Oracle inputs of one smart-router request. `classifyParse` is the
outcome of the brace-matching JSON extraction applied to the classification
response (`none` = extraction and whole-text parse both failed);
`oracleHandlers` gives each remaining endpoint handler's outcome, where
`Except.error` models an exception escaping the handler; `assistText` and
`assistGuideText` are the generic-assistance model replies. -/
structure RouterEnv where
  kbRaw : List KBRes := []
  regularHist : List HistMsg := []
  applyEnv : ApplyEnv := {}
  classifyParse : Option RoutingData := none
  oracleHandlers : String → Except Unit Resp := fun _ => Except.error ()
  assistText : String := ""
  assistGuideText : String := ""

/-- Embedding of `_route_to_ai_assist` (smart_router.py 1024-1051):
`bot_service.process_message` never raises (bot_service.py catches every
exception and returns an error payload), so this handler always produces a
success response. -/
def aiAssistHandler (text : Chars) (env : RouterEnv) : Resp × List Action :=
  ({ ok := true, http := 200,
     message := "AI assistance provided successfully via smart router",
     rdata := RData.assist (String.mk text) env.assistText },
   [Action.handler "ai_assist", Action.llm "ai_assist"])

/-- Embedding of `_route_to_ai_assist_guide` (smart_router.py 1801-1842). -/
def aiAssistGuideHandler (text : Chars) (env : RouterEnv) : Resp × List Action :=
  ({ ok := true, http := 200,
     message := "AI assistance provided successfully for guide",
     rdata := RData.assist (String.mk text) env.assistGuideText },
   [Action.handler "ai_assist_guide", Action.llm "ai_assist_guide"])

/-- Endpoints the guide-side dispatch table sends to a plain handler
(everything except the generic-assistance fallback and the embedded apply
handler). -/
def guideOracleEndpoints : List String :=
  ["get_available_requests", "get_my_applications", "get_my_bookings",
   "update_application", "get_application_details"]

/-- Tourist-side endpoints dispatched to a plain handler. -/
def touristOracleEndpoints : List String :=
  ["create_tour_request", "get_tour_requests", "get_tour_request",
   "update_tour_request", "cancel_tour_request", "get_bookings",
   "get_applications", "accept_application"]

/-- The `try` body of smart_router.py lines 315-357: role-specific dispatch.
An `Except.error` is an exception escaping the chosen handler. -/
def dispatchCore (role : String) (endpoint : String) (params : RParams)
    (text : Chars) (userid : Option String) (env : RouterEnv) :
    Except Unit (Resp × List Action) :=
  if role = "guide" then
    if endpoint = "apply_to_request" then
      let (r, a) := applyToRequest params text userid env.applyEnv
      Except.ok (r, Action.handler "apply_to_request" :: a)
    else if endpoint = "ai_assist_guide" then
      Except.ok (aiAssistGuideHandler text env)
    else if guideOracleEndpoints.contains endpoint then
      (env.oracleHandlers endpoint).map (fun r => (r, [Action.handler endpoint]))
    else
      Except.ok (aiAssistGuideHandler text env)
  else
    if endpoint = "ai_assist" then
      Except.ok (aiAssistHandler text env)
    else if touristOracleEndpoints.contains endpoint then
      (env.oracleHandlers endpoint).map (fun r => (r, [Action.handler endpoint]))
    else
      Except.ok (aiAssistHandler text env)

/-- Dispatch with the exception guard of smart_router.py lines 315-364: a
handler exception falls back to the role's generic-assistance handler. -/
def dispatchSafe (role : String) (endpoint : String) (params : RParams)
    (text : Chars) (userid : Option String) (env : RouterEnv) :
    Resp × List Action :=
  match dispatchCore role endpoint params text userid env with
  | Except.ok ra => ra
  | Except.error _ =>
    if role = "guide" then aiAssistGuideHandler text env
    else aiAssistHandler text env

/-- Tour-creation keywords of the safety override (smart_router.py line 286). -/
def overrideKeywords : List Chars :=
  [("planning".toList), ("tour to".toList), ("visit".toList),
   ("destination".toList), ("budget".toList), ("people".toList),
   ("going to".toList)]

/-- The safety-override step of smart_router.py lines 286-289. -/
def overrideStep (e : String) (c : ℚ) (text : Chars) : String × ℚ :=
  if e = "ai_assist" ∧ anyKw overrideKeywords text then
    ("create_tour_request", (7/10 : ℚ))
  else (e, c)

/-- Role-based identity defaulting of smart_router.py lines 302-308. -/
def fillRoleId (role : String) (userid : Option String) (params0 : RParams) :
    RParams :=
  if role = "guide" then
    if (truthyS params0.guideId).isNone then { params0 with guideId := userid }
    else params0
  else
    if (truthyS params0.touristId).isNone then { params0 with touristId := userid }
    else params0

/-- The pipeline applied to a routing decision: defaults, safety override,
identity merge, dispatch (smart_router.py lines 282-364).  The leading
`classify` action is the AI-classification `process_message` call of line
264, which always precedes this pipeline. -/
def routePipeline (rd : RoutingData) (text : Chars) (role : String)
    (userid : Option String) (env : RouterEnv) : Resp × List Action :=
  let endpoint0 := rd.ep.getD "create_tour_request"
  let conf0 := rd.conf.getD (1/2)
  let ec := overrideStep endpoint0 conf0 text
  let params := fillRoleId role userid rd.params
  let ra := dispatchSafe role ec.1 params text userid env
  (ra.1, Action.llm "classify" :: ra.2)

/-- The classification / override / dispatch pipeline after the knowledge
base and the continuation scan have passed (smart_router.py lines 263-364):
a failed JSON extraction falls back to the keyword classifier. -/
def classifyAndDispatch (text : Chars) (role : String) (userid : Option String)
    (env : RouterEnv) : Resp × List Action :=
  routePipeline
    (match env.classifyParse with
     | some rd => rd
     | none => determineEndpointFromKeywords text)
    text role userid env

/-- The guide continuation scan of smart_router.py lines 190-261, returning
the direct dispatch when it fires. -/
def guideContinuation (text : Chars) (userid : Option String)
    (env : RouterEnv) : Option (Resp × List Action) :=
  let pendingReqId := match findPendingRequestId env.applyEnv.applyHist with
    | some rid => some rid
    | none => findRegularRequestId env.regularHist
  let hasPrice := hasPriceTok text
  let hasCover := hasCoverLetterMention text
  if hasPrice || hasCover then
    match pendingReqId with
    | some rid =>
      let params : RParams := { guideId := userid, requestId := some rid }
      let (r, a) := applyToRequest params text userid env.applyEnv
      some (r, Action.handler "apply_to_request" :: a)
    | none =>
      match findTourNameFromHistory env.regularHist with
      | some tn =>
        let params : RParams := { guideId := userid }
        let combined := tn.toList ++ (". ".toList) ++ text
        let (r, a) := applyToRequest params combined userid env.applyEnv
        some (r, Action.handler "apply_to_request" :: a)
      | none => none
  else none

/-- Full embedding of the `smart_router` endpoint body (smart_router.py
lines 48-364; the outermost `except` of lines 366-372 only guards failures
of the embedded-total steps and is therefore unreachable here). -/
def smartRouter (d : ReqData) (env : RouterEnv) : Resp × List Action :=
  match effectiveText d with
  | none =>
    ({ ok := false, http := 400, message := "text or query field is required",
       errorCode := some "MISSING_TEXT" }, [])
  | some textS =>
    let text := textS.toList
    let userid := effectiveUserid d
    let role := effectiveRole d
    let kbHit := match searchBestMatch (6/10) env.kbRaw with
      | some r => if (6/10 : ℚ) ≤ r.score then some r else none
      | none => none
    match kbHit with
    | some r =>
      ({ ok := true, http := 200, message := "Answer found in knowledge base",
         rdata := RData.kb textS r.text r.score r.filename },
       [Action.kbSearch])
    | none =>
      let rest :=
        if role = "guide" then
          match guideContinuation text userid env with
          | some ra => ra
          | none => classifyAndDispatch text role userid env
        else classifyAndDispatch text role userid env
      (rest.1, Action.kbSearch :: rest.2)

-- ===== Embedding of services/agent_workflow.py =====

/-- One requested tool call (`{name, args, id}`). -/
structure ToolCall where
  name : String
  args : List (String × String) := []
  callId : String := ""
deriving Repr, DecidableEq

/-- LangChain messages as the workflow distinguishes them. -/
inductive AMsg
  | human (content : String)
  | ai (content : String) (toolCalls : List ToolCall)
  | tool (content : String) (callId : String)
deriving Repr, DecidableEq

/-- `rag_tool_names` (agent_workflow.py line 104). -/
def ragToolNames : List String := ["knowledge_retriever", "knowledge_retriever_lotogram"]

/-- `next((m for m in messages if isinstance(m, HumanMessage)), None)`. -/
def firstHumanContent (msgs : List AMsg) : Option String :=
  msgs.findSome? (fun m => match m with
    | AMsg.human c => some c
    | _ => none)

/-- Fixed text preceding the quoted context in the grounding instruction. -/
def ragPre : String := "--- CONTEXT RETRIEVED FROM KNOWLEDGE BASE ---\n"

/-- Fixed text between the quoted context and the restated query. -/
def ragMid : String :=
  "\n---\n\nBased **only** on the above retrieved context, answer the" ++
  " user\u0027s query.\nIf the context is insufficient to fully answer the" ++
  " question, clearly state what is known and what cannot be determined" ++
  " from the available information.\n\nOriginal Query: "

/-- The grounding instruction injected by `call_model` (agent_workflow.py
lines 121-131), built from the retrieved context and the original query. -/
def ragInstruction (ctx query : String) : String :=
  ragPre ++ ctx ++ (ragMid ++ query)

/-- Embedding of the RAG-context-injection step of `call_model`
(agent_workflow.py lines 93-136): the message list handed to
`llm_with_tools.invoke`. -/
def callModelMessages (msgs : List AMsg) : List AMsg :=
  match msgs.reverse with
  | AMsg.tool ctx _ :: AMsg.ai _ tcs :: _ =>
    if tcs.isEmpty = false ∧ tcs.any (fun tc => ragToolNames.contains tc.name) then
      msgs ++ [AMsg.human (ragInstruction ctx
        ((firstHumanContent msgs).getD "The user asked a question."))]
    else msgs
  | _ => msgs

/-- A registered tool: a name and an invocation that either returns text or
raises (`Except.error` carries `str(e)`). -/
structure RTool where
  name : String
  invoke : List (String × String) → Except String String

/-- `tool_map` lookup.  The Python dict comprehension keeps the last binding
for a duplicated name, hence the reversed search. -/
def toolMapLookup (tools : List RTool) (n : String) : Option RTool :=
  tools.reverse.find? (fun t => t.name = n)

/-- Execution of one requested call inside `tool_node` (agent_workflow.py
lines 268-301). -/
def execToolCall (tools : List RTool) (tc : ToolCall) : AMsg :=
  match toolMapLookup tools tc.name with
  | some t =>
    match t.invoke tc.args with
    | Except.ok r => AMsg.tool r tc.callId
    | Except.error e =>
      AMsg.tool ("Error executing " ++ tc.name ++ ": " ++ e) tc.callId
  | none => AMsg.tool ("Tool " ++ tc.name ++ " not found") tc.callId

/-- Embedding of `tool_node` (agent_workflow.py lines 254-306). -/
def toolNode (tools : List RTool) (msgs : List AMsg) : List AMsg :=
  match msgs.getLast? with
  | some (AMsg.ai _ tcs) => if tcs.isEmpty then [] else tcs.map (execToolCall tools)
  | _ => []

-- ===== Embedding of services/bot_service.py `_maybe_summarize_and_prune` =====

/-- Redis-held session state: the stored history and the optional rolling
summary. -/
structure SessionState where
  history : List HistMsg
  summary : Option String
deriving Repr, DecidableEq

/-- What the summarizer run did: `unavailable` models a missing
`GEMINI_FLASH_API_KEY` (the summarizer stays `None`), `failure` an exception
from `invoke` (swallowed by the method\u0027s outer `except`), `success s` a
returned summary text. -/
inductive SummarizerOutcome
  | unavailable
  | failure
  | success (s : String)
deriving Repr, DecidableEq

/-- Python `history[-keep_k:]` for a natural `keep_k`: slicing with `-0`
keeps the whole list. -/
def lastSlice (k : ℕ) (l : List α) : List α :=
  if k = 0 then l else l.drop (l.length - k)

/-- Embedding of `_maybe_summarize_and_prune` (bot_service.py lines 307-357).
`keepK` is the configured window size (`MAX_CONVERSATION_HISTORY_MESSAGES`,
default 10); `sessionIdOk` is the truthiness of the session id.  The function
is total: summarizer unavailability or failure leaves the state unchanged
(the source logs and returns). -/
def maybeSummarizeAndPrune (keepK : ℕ) (sessionIdOk : Bool) (st : SessionState)
    (outcome : SummarizerOutcome) : SessionState :=
  if sessionIdOk = false then st
  else if st.history.length ≤ keepK * 2 then st
  else
    match outcome with
    | SummarizerOutcome.unavailable => st
    | SummarizerOutcome.failure => st
    | SummarizerOutcome.success s =>
      let st1 := if s.isEmpty then st else { st with summary := some s }
      { st1 with history := lastSlice keepK st.history }

-- ===== General lemmas about substring containment =====

theorem startsWithB_append {pat xs : Chars} (ys : Chars)
    (h : startsWithB pat xs = true) : startsWithB pat (xs ++ ys) = true := by
  induction pat generalizing xs with
  | nil => rfl
  | cons p ps ih =>
    cases xs with
    | nil => simp [startsWithB] at h
    | cons c cs =>
      simp only [startsWithB, Bool.and_eq_true] at h ⊢
      exact ⟨h.1, ih h.2⟩

theorem hasTok_append_left {pat xs : Chars} (ys : Chars)
    (h : hasTok pat xs = true) : hasTok pat (xs ++ ys) = true := by
  induction xs with
  | nil =>
    simp only [hasTok] at h
    cases pat with
    | nil =>
      cases ys with
      | nil => simpa [hasTok] using h
      | cons y ys' => simp [hasTok, startsWithB]
    | cons p ps => simp [startsWithB] at h
  | cons x rest ih =>
    simp only [hasTok, Bool.or_eq_true] at h
    rcases h with h | h
    · simp only [List.cons_append, hasTok, Bool.or_eq_true]
      exact Or.inl (startsWithB_append ys h)
    · simp only [List.cons_append, hasTok, Bool.or_eq_true]
      exact Or.inr (ih h)

theorem hasTok_append_right {pat : Chars} (xs : Chars) {ys : Chars}
    (h : hasTok pat ys = true) : hasTok pat (xs ++ ys) = true := by
  induction xs with
  | nil => simpa using h
  | cons x rest ih =>
    simp only [List.cons_append, hasTok, Bool.or_eq_true]
    exact Or.inr ih

theorem toList_append (a b : String) :
    (a ++ b).toList = a.toList ++ b.toList := by
  simp [String.toList, String.data_append]

-- ===== Claim C6 =====

/-- C6: for every input text the keyword fallback classifier returns a
routing decision whose endpoint is non-null and drawn from the known
endpoint set, with confidence at most 0.8; and the router pipeline runs
exactly this fallback whenever JSON extraction of the AI routing response
fails. -/
theorem keyword_fallback_total_bounded_and_used :
    (∀ text : Chars,
      (∃ e, (determineEndpointFromKeywords text).ep = some e ∧
        e ∈ knownTouristEndpoints) ∧
      (∃ c, (determineEndpointFromKeywords text).conf = some c ∧ c ≤ 8/10)) ∧
    (∀ (text : Chars) (role : String) (userid : Option String) (env : RouterEnv),
      env.classifyParse = none →
      classifyAndDispatch text role userid env =
        routePipeline (determineEndpointFromKeywords text) text role userid env) := by
  constructor
  · intro text
    unfold determineEndpointFromKeywords
    constructor
    · split_ifs <;> exact ⟨_, rfl, by simp [knownTouristEndpoints]⟩
    · split_ifs <;> exact ⟨_, rfl, by norm_num⟩
  · intro text role userid env h
    unfold classifyAndDispatch
    rw [h]

/-- Witness for C6 at a concrete input. -/
theorem keyword_fallback_witness :
    ((∃ e, (determineEndpointFromKeywords ("hello".toList)).ep = some e ∧
        e ∈ knownTouristEndpoints) ∧
      (∃ c, (determineEndpointFromKeywords ("hello".toList)).conf = some c ∧
        c ≤ 8/10)) ∧
    classifyAndDispatch ("hello".toList) "tourist" none {} =
      routePipeline (determineEndpointFromKeywords ("hello".toList))
        ("hello".toList) "tourist" none {} :=
  ⟨keyword_fallback_total_bounded_and_used.1 ("hello".toList),
   keyword_fallback_total_bounded_and_used.2 ("hello".toList) "tourist" none {} rfl⟩

-- ===== Claim C4 =====

/-- C4: when the dispatched endpoint handler raises, the router catches the
exception and answers with the role\u0027s generic-assistance handler, so the
caller gets a conversational success response instead of the failure. -/
theorem dispatch_exception_falls_back_to_assist
    (role endpoint : String) (params : RParams) (text : Chars)
    (userid : Option String) (env : RouterEnv)
    (hmem : endpoint ∈ (if role = "guide" then guideOracleEndpoints
      else touristOracleEndpoints))
    (hraise : env.oracleHandlers endpoint = Except.error ()) :
    dispatchSafe role endpoint params text userid env =
      (if role = "guide" then aiAssistGuideHandler text env
       else aiAssistHandler text env) ∧
    (dispatchSafe role endpoint params text userid env).1.ok = true ∧
    (dispatchSafe role endpoint params text userid env).1.rdata =
      RData.assist (String.mk text)
        (if role = "guide" then env.assistGuideText else env.assistText) := by
  by_cases hr : role = "guide"
  · rw [if_pos hr] at hmem
    simp only [guideOracleEndpoints, List.mem_cons, List.mem_singleton,
      List.not_mem_nil, or_false] at hmem
    rcases hmem with rfl | rfl | rfl | rfl | rfl <;>
      simp [dispatchSafe, dispatchCore, hr, hraise, aiAssistGuideHandler,
        guideOracleEndpoints, Except.map]
  · rw [if_neg hr] at hmem
    simp only [touristOracleEndpoints, List.mem_cons, List.mem_singleton,
      List.not_mem_nil, or_false] at hmem
    rcases hmem with rfl | rfl | rfl | rfl | rfl | rfl | rfl | rfl <;>
      simp [dispatchSafe, dispatchCore, hr, hraise, aiAssistHandler,
        touristOracleEndpoints, Except.map]

/-- Witness for C4: a raising create-tour-request handler falls back to
ai_assist. -/
theorem dispatch_exception_witness :
    dispatchSafe "tourist" "create_tour_request" {} ("help".toList) none {} =
      (if ("tourist" : String) = "guide"
       then aiAssistGuideHandler ("help".toList) {}
       else aiAssistHandler ("help".toList) {}) ∧
    (dispatchSafe "tourist" "create_tour_request" {} ("help".toList) none {}).1.ok = true ∧
    (dispatchSafe "tourist" "create_tour_request" {} ("help".toList) none {}).1.rdata =
      RData.assist (String.mk ("help".toList))
        (if ("tourist" : String) = "guide"
         then ({} : RouterEnv).assistGuideText else ({} : RouterEnv).assistText) :=
  dispatch_exception_falls_back_to_assist "tourist" "create_tour_request" {}
    ("help".toList) none {} (by simp [touristOracleEndpoints]) rfl

-- ===== Claim C7 =====

/-- C7 counterexample: with the window size configured to 0 the trigger
condition (history longer than 2K) holds for any non-empty history, yet the
compaction leaves the stored history untouched (`history[-0:]` is the whole
list), so its length is not at most K. -/
theorem compaction_keepk_zero_counterexample :
    (⟨[⟨"user", "hi"⟩], none⟩ : SessionState).history.length > 2 * 0 ∧
    ¬ ((maybeSummarizeAndPrune 0 true ⟨[⟨"user", "hi"⟩], none⟩
        (SummarizerOutcome.success "sum")).history.length ≤ 0) := by
  decide

/-- C7 as amended: for a positive configured window size K, one compaction
call on a history longer than 2K (with the summarizer available and
returning a non-empty summary) leaves the stored history at the last K
messages and stores that summary; an unavailable or failing summarizer
leaves the state unchanged (the call is total, so the turn is never
aborted). -/
theorem compaction_prunes_and_summarizes
    (k : ℕ) (st : SessionState) (s : String)
    (hk : 1 ≤ k) (hlen : st.history.length > k * 2) (hs : s ≠ "") :
    ((maybeSummarizeAndPrune k true st (SummarizerOutcome.success s)).history.length ≤ k ∧
     (maybeSummarizeAndPrune k true st (SummarizerOutcome.success s)).history =
       lastSlice k st.history ∧
     (maybeSummarizeAndPrune k true st (SummarizerOutcome.success s)).summary = some s) ∧
    (maybeSummarizeAndPrune k true st SummarizerOutcome.unavailable = st ∧
     maybeSummarizeAndPrune k true st SummarizerOutcome.failure = st) := by
  have hnot : ¬ (st.history.length ≤ k * 2) := by omega
  have hne : s.isEmpty = false := by
    rw [Bool.eq_false_iff]
    intro h
    exact hs ((String.isEmpty_iff s).mp h)
  have hrun : maybeSummarizeAndPrune k true st (SummarizerOutcome.success s) =
      { history := lastSlice k st.history, summary := some s } := by
    simp [maybeSummarizeAndPrune, hnot, hne]
  have hk0 : k ≠ 0 := by omega
  refine ⟨⟨?_, ?_, ?_⟩, ?_, ?_⟩
  · rw [hrun]
    simp only [lastSlice, hk0, if_false, ite_false, List.length_drop]
    omega
  · rw [hrun]
  · rw [hrun]
  · simp [maybeSummarizeAndPrune, hnot]
  · simp [maybeSummarizeAndPrune, hnot]

/-- Witness for the amended C7 at a concrete session. -/
theorem compaction_witness :
    ((maybeSummarizeAndPrune 1 true
        ⟨[⟨"user", "a"⟩, ⟨"assistant", "b"⟩, ⟨"user", "c"⟩], none⟩
        (SummarizerOutcome.success "sum")).history.length ≤ 1 ∧
     (maybeSummarizeAndPrune 1 true
        ⟨[⟨"user", "a"⟩, ⟨"assistant", "b"⟩, ⟨"user", "c"⟩], none⟩
        (SummarizerOutcome.success "sum")).history =
       lastSlice 1 [⟨"user", "a"⟩, ⟨"assistant", "b"⟩, ⟨"user", "c"⟩] ∧
     (maybeSummarizeAndPrune 1 true
        ⟨[⟨"user", "a"⟩, ⟨"assistant", "b"⟩, ⟨"user", "c"⟩], none⟩
        (SummarizerOutcome.success "sum")).summary = some "sum") ∧
    (maybeSummarizeAndPrune 1 true
        ⟨[⟨"user", "a"⟩, ⟨"assistant", "b"⟩, ⟨"user", "c"⟩], none⟩
        SummarizerOutcome.unavailable =
      ⟨[⟨"user", "a"⟩, ⟨"assistant", "b"⟩, ⟨"user", "c"⟩], none⟩ ∧
     maybeSummarizeAndPrune 1 true
        ⟨[⟨"user", "a"⟩, ⟨"assistant", "b"⟩, ⟨"user", "c"⟩], none⟩
        SummarizerOutcome.failure =
      ⟨[⟨"user", "a"⟩, ⟨"assistant", "b"⟩, ⟨"user", "c"⟩], none⟩) :=
  compaction_prunes_and_summarizes 1
    ⟨[⟨"user", "a"⟩, ⟨"assistant", "b"⟩, ⟨"user", "c"⟩], none⟩ "sum"
    (by norm_num) (by decide) (by decide)

-- ===== Claim C8 =====

/-- C8: when the last message is a tool result and the preceding AI message
requested a knowledge-retrieval tool, the reasoning step invokes the model on
the original list extended by exactly one instruction message; that message
quotes the retrieved text verbatim, restates the first user message of the
transcript as the original query, and carries the answer-only-from-context
and say-when-insufficient instructions. -/
theorem rag_injection_grounds_reply
    (msgs : List AMsg) (ctx cid acontent : String) (tcs : List ToolCall)
    (rest : List AMsg) (q : String)
    (hrev : msgs.reverse = AMsg.tool ctx cid :: AMsg.ai acontent tcs :: rest)
    (hrag : tcs.any (fun tc => ragToolNames.contains tc.name) = true)
    (hq : firstHumanContent msgs = some q) :
    callModelMessages msgs = msgs ++ [AMsg.human (ragInstruction ctx q)] ∧
    (∃ pre post, ragInstruction ctx q = pre ++ ctx ++ post) ∧
    (∃ pre, ragInstruction ctx q = pre ++ q) ∧
    hasTok ("Based **only** on the above retrieved context".toList)
      (ragInstruction ctx q).toList = true ∧
    hasTok ("If the context is insufficient".toList)
      (ragInstruction ctx q).toList = true := by
  have hne : tcs.isEmpty = false := by
    cases tcs with
    | nil => simp at hrag
    | cons t ts => rfl
  refine ⟨?_, ⟨ragPre, ragMid ++ q, rfl⟩, ⟨ragPre ++ ctx ++ ragMid, ?_⟩, ?_, ?_⟩
  · unfold callModelMessages
    rw [hrev]
    show (if tcs.isEmpty = false ∧
        (tcs.any fun tc => ragToolNames.contains tc.name) = true then
        msgs ++ [AMsg.human (ragInstruction ctx
          ((firstHumanContent msgs).getD "The user asked a question."))]
      else msgs) = msgs ++ [AMsg.human (ragInstruction ctx q)]
    rw [if_pos (⟨hne, hrag⟩ :
      tcs.isEmpty = false ∧
        (tcs.any fun tc => ragToolNames.contains tc.name) = true)]
    rw [hq]
    rfl
  · simp [ragInstruction, String.append_assoc]
  · have hmid : hasTok ("Based **only** on the above retrieved context".toList)
        ragMid.toList = true := by decide
    have h1 : hasTok ("Based **only** on the above retrieved context".toList)
        (ragMid.toList ++ q.toList) = true := hasTok_append_left _ hmid
    have h2 := @hasTok_append_right
      ("Based **only** on the above retrieved context".toList)
      (ragPre.toList ++ ctx.toList) _ h1
    simpa [ragInstruction, toList_append, List.append_assoc] using h2
  · have hmid : hasTok ("If the context is insufficient".toList)
        ragMid.toList = true := by decide
    have h1 : hasTok ("If the context is insufficient".toList)
        (ragMid.toList ++ q.toList) = true := hasTok_append_left _ hmid
    have h2 := @hasTok_append_right
      ("If the context is insufficient".toList)
      (ragPre.toList ++ ctx.toList) _ h1
    simpa [ragInstruction, toList_append, List.append_assoc] using h2

/-- Concrete transcript for the C8 witness. -/
def ragDemoMsgs : List AMsg :=
  [AMsg.human "What is X?",
   AMsg.ai "" [{ name := "knowledge_retriever", callId := "1" }],
   AMsg.tool "X is Y." "1"]

/-- Witness for C8 at a concrete transcript. -/
theorem rag_injection_witness :
    callModelMessages ragDemoMsgs =
      ragDemoMsgs ++ [AMsg.human (ragInstruction "X is Y." "What is X?")] ∧
    (∃ pre post, ragInstruction "X is Y." "What is X?" = pre ++ "X is Y." ++ post) ∧
    (∃ pre, ragInstruction "X is Y." "What is X?" = pre ++ "What is X?") ∧
    hasTok ("Based **only** on the above retrieved context".toList)
      (ragInstruction "X is Y." "What is X?").toList = true ∧
    hasTok ("If the context is insufficient".toList)
      (ragInstruction "X is Y." "What is X?").toList = true :=
  rag_injection_grounds_reply ragDemoMsgs "X is Y." "1" ""
    [{ name := "knowledge_retriever", callId := "1" }]
    [AMsg.human "What is X?"] "What is X?" (by rfl) (by decide) (by rfl)

-- ===== Claim C9 =====

/-- C9: the tool-execution node returns exactly one tool-result message per
requested call and is total (no exception escapes it): an unregistered tool
name yields the explicit not-found result and a raising tool yields an error
result labeled with that tool\u0027s name. -/
theorem tool_node_one_result_per_call
    (tools : List RTool) (msgs : List AMsg) (c : String) (tcs : List ToolCall)
    (hlast : msgs.getLast? = some (AMsg.ai c tcs)) :
    (toolNode tools msgs).length = tcs.length ∧
    toolNode tools msgs = tcs.map (execToolCall tools) ∧
    (∀ tc ∈ tcs, toolMapLookup tools tc.name = none →
      execToolCall tools tc =
        AMsg.tool ("Tool " ++ tc.name ++ " not found") tc.callId) ∧
    (∀ tc ∈ tcs, ∀ t, toolMapLookup tools tc.name = some t →
      ∀ e, t.invoke tc.args = Except.error e →
        execToolCall tools tc =
          AMsg.tool ("Error executing " ++ tc.name ++ ": " ++ e) tc.callId) := by
  have hnode : toolNode tools msgs = tcs.map (execToolCall tools) := by
    unfold toolNode
    rw [hlast]
    cases tcs with
    | nil => rfl
    | cons t ts => rfl
  refine ⟨by rw [hnode]; simp, hnode, ?_, ?_⟩
  · intro tc _ hnone
    unfold execToolCall
    rw [hnone]
  · intro tc _ t hsome e herr
    simp [execToolCall, hsome, herr]

/-- Concrete registry and transcript for the C9 witness: one unknown tool
name and one raising tool. -/
def demoTools : List RTool :=
  [{ name := "boom", invoke := fun _ => Except.error "kaput" }]

def demoToolMsgs : List AMsg :=
  [AMsg.ai "" [{ name := "missing", callId := "a" }, { name := "boom", callId := "b" }]]

/-- Witness for C9 at a concrete transcript. -/
theorem tool_node_witness :
    (toolNode demoTools demoToolMsgs).length =
      ([{ name := "missing", callId := "a" },
        { name := "boom", callId := "b" }] : List ToolCall).length ∧
    toolNode demoTools demoToolMsgs =
      ([{ name := "missing", callId := "a" },
        { name := "boom", callId := "b" }] : List ToolCall).map
        (execToolCall demoTools) ∧
    (∀ tc ∈ ([{ name := "missing", callId := "a" },
        { name := "boom", callId := "b" }] : List ToolCall),
      toolMapLookup demoTools tc.name = none →
      execToolCall demoTools tc =
        AMsg.tool ("Tool " ++ tc.name ++ " not found") tc.callId) ∧
    (∀ tc ∈ ([{ name := "missing", callId := "a" },
        { name := "boom", callId := "b" }] : List ToolCall),
      ∀ t, toolMapLookup demoTools tc.name = some t →
      ∀ e, t.invoke tc.args = Except.error e →
        execToolCall demoTools tc =
          AMsg.tool ("Error executing " ++ tc.name ++ ": " ++ e) tc.callId) :=
  tool_node_one_result_per_call demoTools demoToolMsgs ""
    [{ name := "missing", callId := "a" }, { name := "boom", callId := "b" }]
    (by rfl)

-- ===== Claim C1 =====

/-- C1: when the best knowledge-base match scores at least 0.6, the router
answers directly from the knowledge base — a success response carrying that
document\u0027s text, similarity score and filename — and performs no
`bot_service.process_message` call while handling the request. -/
theorem kb_hit_returns_document_without_llm
    (d : ReqData) (env : RouterEnv) (t : String) (r : KBRes) (rest : List KBRes)
    (htext : effectiveText d = some t)
    (hraw : env.kbRaw = r :: rest)
    (hscore : (6/10 : ℚ) ≤ r.score) :
    smartRouter d env =
      ({ ok := true, http := 200, message := "Answer found in knowledge base",
         rdata := RData.kb t r.text r.score r.filename }, [Action.kbSearch]) ∧
    (∀ p, Action.llm p ∉ (smartRouter d env).2) := by
  have hsb : searchBestMatch (6/10) env.kbRaw = some r := by
    rw [hraw]
    simp [searchBestMatch, kbSearchList, List.filter_cons, hscore]
  have h1 : smartRouter d env =
      ({ ok := true, http := 200, message := "Answer found in knowledge base",
         rdata := RData.kb t r.text r.score r.filename }, [Action.kbSearch]) := by
    unfold smartRouter
    rw [htext]
    simp only [hsb, hscore, if_true]
  exact ⟨h1, by rw [h1]; simp⟩

/-- Witness for C1 at a concrete request. -/
theorem kb_hit_witness :
    smartRouter { text := some "what is the refund policy" }
        { kbRaw := [{ text := "Refunds are processed in 5 days.",
                      score := 7/10, filename := some "faq.md" }] } =
      ({ ok := true, http := 200, message := "Answer found in knowledge base",
         rdata := RData.kb "what is the refund policy"
           "Refunds are processed in 5 days." (7/10) (some "faq.md") },
       [Action.kbSearch]) ∧
    (∀ p, Action.llm p ∉
      (smartRouter { text := some "what is the refund policy" }
        { kbRaw := [{ text := "Refunds are processed in 5 days.",
                      score := 7/10, filename := some "faq.md" }] }).2) :=
  kb_hit_returns_document_without_llm
    { text := some "what is the refund policy" }
    { kbRaw := [{ text := "Refunds are processed in 5 days.",
                  score := 7/10, filename := some "faq.md" }] }
    "what is the refund policy"
    { text := "Refunds are processed in 5 days.", score := 7/10,
      filename := some "faq.md" } []
    (by decide) rfl (by norm_num)

-- ===== Claim C2 =====

/-- Substring helper: a pattern inside the left part of a string append. -/
theorem hasTok_str_left {pat : Chars} {x : String} (y : String)
    (h : hasTok pat x.toList = true) : hasTok pat (x ++ y).toList = true := by
  rw [toList_append]
  exact hasTok_append_left _ h

/-- Substring helper: a pattern inside the right part of a string append. -/
theorem hasTok_str_right {pat : Chars} (x : String) {y : String}
    (h : hasTok pat y.toList = true) : hasTok pat (x ++ y).toList = true := by
  rw [toList_append]
  exact hasTok_append_right _ h

/-- On the existing-application path, a proposed price equal to the budget
short-circuits into the needs-information response with no update call. -/
theorem existingFlow_equal_budget (rid : String) (tour : Tour)
    (gid sessionId : String) (exApp : AppDoc) (coverL : Option String) :
    existingApplicationFlow rid tour gid sessionId exApp (some tour.budget) coverL =
      ({ ok := true, http := 200,
         message := "The tourist\u0027s budget is $" ++ moneyStr tour.budget ++
           ". Please provide a different proposed price for your application.",
         rdata := RData.needsInfo ["proposedPrice"] rid tour.title tour.budget },
       [Action.llm "apply_parse"]) := by
  unfold existingApplicationFlow
  rw [if_pos rfl]

/-- On the new-application path, a proposed price equal to the budget lands
in the needs-information response, with proposedPrice among the missing
fields and a question asking for a different price, and no create call. -/
theorem newFlow_equal_budget (rid : String) (tour : Tour)
    (gid sessionId : String) (coverL : Option String) (notNeeded : Bool) :
    ∃ mf qtext,
      newApplicationFlow rid tour gid sessionId (some tour.budget) coverL notNeeded =
        ({ ok := true, http := 200, message := qtext,
           rdata := RData.needsInfo mf rid tour.title tour.budget },
         [Action.llm "apply_parse"]) ∧
      "proposedPrice" ∈ mf ∧
      hasTok ("different".toList) qtext.toList = true := by
  unfold newApplicationFlow
  simp only [eq_self_iff_true, decide_True, Bool.or_true, List.singleton_append,
    List.cons_append, List.isEmpty_cons, Bool.false_eq_true, not_false_iff,
    if_true, ite_true]
  refine ⟨_, _, rfl, List.mem_cons_self _ _, ?_⟩
  refine hasTok_str_left _ (hasTok_str_left _ (hasTok_str_right _ ?_))
  refine hasTok_str_right _ ?_
  exact (by decide :
    hasTok ("different".toList)
      (". Please provide your proposed price (it should be different from the budget).").toList = true)

/-- C2: whenever the proposed price extracted for the apply handler equals
the tour request\u0027s stated budget, the handler returns a
needs-information clarification asking for a different price, and performs
no application create or update — on both the new-application and the
existing-application paths, for every tour request and every such price. -/
theorem price_equal_budget_yields_clarification
    (params : RParams) (text : Chars) (userid : Option String) (env : ApplyEnv)
    (rid : String) (tour : Tour) (p : ℚ)
    (hres : resolveRequestId params text env = ResolveOut.resolved rid)
    (htour : env.tourLookup rid = some tour)
    (hprice : (match extractPriceTok text with
               | some q => some q
               | none => env.aiPrice) = some p)
    (heq : p = tour.budget) :
    (applyToRequest params text userid env).1.ok = true ∧
    (applyToRequest params text userid env).1.http = 200 ∧
    (∃ mf, (applyToRequest params text userid env).1.rdata =
        RData.needsInfo mf rid tour.title tour.budget ∧ "proposedPrice" ∈ mf) ∧
    hasTok ("different".toList)
      (applyToRequest params text userid env).1.message.toList = true ∧
    (∀ a b, Action.applyCreate a b ∉ (applyToRequest params text userid env).2) ∧
    (∀ a b, Action.applyUpdate a b ∉ (applyToRequest params text userid env).2) := by
  subst heq
  have happ : applyToRequest params text userid env =
      (match env.existingApp rid (applyGid params userid) with
      | some exApp =>
        existingApplicationFlow rid tour (applyGid params userid)
          ("guide_apply_" ++ applyGid params userid) exApp
          (some tour.budget) (normalizeCover text env.aiCover).1
      | none =>
        newApplicationFlow rid tour (applyGid params userid)
          ("guide_apply_" ++ applyGid params userid)
          (some tour.budget) (normalizeCover text env.aiCover).1
          (normalizeCover text env.aiCover).2) := by
    unfold applyToRequest
    simp only [hres, htour, hprice]
  rw [happ]
  cases hex : env.existingApp rid (applyGid params userid) with
  | some exApp =>
    simp only [hex]
    rw [existingFlow_equal_budget]
    refine ⟨rfl, rfl, ⟨["proposedPrice"], rfl, by simp⟩, ?_, by simp, by simp⟩
    refine hasTok_str_right _ ?_
    exact (by decide :
      hasTok ("different".toList)
        (". Please provide a different proposed price for your application.").toList = true)
  | none =>
    simp only [hex]
    obtain ⟨mf, qtext, heqn, hmem, hdiff⟩ :=
      newFlow_equal_budget rid tour (applyGid params userid)
        ("guide_apply_" ++ applyGid params userid)
        (normalizeCover text env.aiCover).1 (normalizeCover text env.aiCover).2
    rw [heqn]
    exact ⟨rfl, rfl, ⟨mf, rfl, hmem⟩, hdiff, by simp, by simp⟩

/-- Concrete environment for the C2 witness. -/
def c2Tour : Tour :=
  { id := "11111111-1111-1111-1111-111111111111", title := "Kandy Trip",
    destination := "Kandy", budget := 500 }

def c2Env : ApplyEnv :=
  { tourLookup := fun r =>
      if r = "11111111-1111-1111-1111-111111111111" then some c2Tour else none }

def c2Params : RParams :=
  { guideId := some "g1",
    requestId := some "11111111-1111-1111-1111-111111111111" }

/-- Witness for C2 at a concrete request whose extracted price equals the
budget. -/
theorem price_equal_budget_witness :
    (applyToRequest c2Params ("my price is 500".toList) (some "g1") c2Env).1.ok = true ∧
    (applyToRequest c2Params ("my price is 500".toList) (some "g1") c2Env).1.http = 200 ∧
    (∃ mf, (applyToRequest c2Params ("my price is 500".toList) (some "g1") c2Env).1.rdata =
        RData.needsInfo mf "11111111-1111-1111-1111-111111111111" c2Tour.title
          c2Tour.budget ∧ "proposedPrice" ∈ mf) ∧
    hasTok ("different".toList)
      (applyToRequest c2Params ("my price is 500".toList) (some "g1") c2Env).1.message.toList
      = true ∧
    (∀ a b, Action.applyCreate a b ∉
      (applyToRequest c2Params ("my price is 500".toList) (some "g1") c2Env).2) ∧
    (∀ a b, Action.applyUpdate a b ∉
      (applyToRequest c2Params ("my price is 500".toList) (some "g1") c2Env).2) :=
  price_equal_budget_yields_clarification c2Params ("my price is 500".toList)
    (some "g1") c2Env "11111111-1111-1111-1111-111111111111" c2Tour 500
    (by decide) (by decide) (by decide) (by decide)

-- ===== Claim C3 =====

theorem existingFlow_no_classify (rid : String) (tour : Tour)
    (gid sessionId : String) (exApp : AppDoc) (pp : Option ℚ)
    (coverL : Option String) :
    Action.llm "classify" ∉
      (existingApplicationFlow rid tour gid sessionId exApp pp coverL).2 := by
  unfold existingApplicationFlow
  dsimp only
  split_ifs <;> simp

theorem newFlow_no_classify (rid : String) (tour : Tour)
    (gid sessionId : String) (pp : Option ℚ) (coverL : Option String)
    (notNeeded : Bool) :
    Action.llm "classify" ∉
      (newApplicationFlow rid tour gid sessionId pp coverL notNeeded).2 := by
  unfold newApplicationFlow
  dsimp only
  split_ifs <;> simp

/-- The apply handler never performs the router\u0027s AI-classification
call: its only model calls are the pending-save and the application parse. -/
theorem applyToRequest_no_classify (params : RParams) (text : Chars)
    (userid : Option String) (env : ApplyEnv) :
    Action.llm "classify" ∉ (applyToRequest params text userid env).2 := by
  unfold applyToRequest
  cases hr : resolveRequestId params text env with
  | respond r => simp only [hr]; simp
  | unresolved => simp only [hr]; simp
  | resolved rid2 =>
    simp only [hr]
    cases ht : env.tourLookup rid2 with
    | none => simp only [ht]; simp
    | some tour =>
      simp only [ht]
      cases he : env.existingApp rid2 (applyGid params userid) with
      | some exApp =>
        simp only [he]
        exact existingFlow_no_classify _ _ _ _ _ _ _
      | none =>
        simp only [he]
        exact newFlow_no_classify _ _ _ _ _ _ _

/-- On the existing-application path, a price different from the budget
completes the application (HTTP 201 with the update call). -/
theorem existingFlow_completes (rid : String) (tour : Tour)
    (gid sessionId : String) (exApp : AppDoc) (p : ℚ) (coverL : Option String)
    (hne : p ≠ tour.budget) :
    (existingApplicationFlow rid tour gid sessionId exApp (some p) coverL).1.http = 201 ∧
    (existingApplicationFlow rid tour gid sessionId exApp (some p) coverL).1.ok = true ∧
    (∃ appId, (existingApplicationFlow rid tour gid sessionId exApp (some p) coverL).2 =
      [Action.llm "apply_parse", Action.applyUpdate appId rid,
       Action.sessionClear sessionId]) := by
  unfold existingApplicationFlow
  rw [if_neg (by simpa using hne)]
  exact ⟨rfl, rfl, ⟨_, rfl⟩⟩

/-- On the new-application path, a nonzero price different from the budget
together with a non-blank cover letter passes the completeness validation:
the handler completes the application (HTTP 201 with the create call). -/
theorem newFlow_completes (rid : String) (tour : Tour)
    (gid sessionId : String) (p : ℚ) (cl : String) (notNeeded : Bool)
    (hp0 : p ≠ 0) (hpb : p ≠ tour.budget)
    (hcl : (stripWs cl.toList).isEmpty = false) :
    (newApplicationFlow rid tour gid sessionId (some p) (some cl)
      notNeeded).1.http = 201 ∧
    (newApplicationFlow rid tour gid sessionId (some p) (some cl)
      notNeeded).1.ok = true ∧
    (newApplicationFlow rid tour gid sessionId (some p) (some cl)
      notNeeded).2 =
      [Action.llm "apply_parse", Action.applyCreate rid gid,
       Action.sessionClear sessionId] := by
  have hmp : (decide (p = 0) || decide (p = tour.budget)) = false := by
    simp [hp0, hpb]
  unfold newApplicationFlow
  simp only [hmp, hcl, Bool.false_eq_true, if_false, and_false,
    List.nil_append, List.isEmpty_nil]
  rw [if_neg (by simp)]
  exact ⟨rfl, rfl, rfl⟩

/-- C3 as amended: a guide request whose apply-session tail carries a
pending needs-information marker with a request id, and whose text carries a
price token, is dispatched straight to the apply handler with that id and
the AI-classification call never runs; when additionally the tour is found
and the extracted price differs from the stated budget, the outcome is the
completed application (HTTP 201), not a clarification, in either of two
cases: an application already exists for that request and guide, or — for a
brand-new application — a non-blank cover letter is supplied and the price
is nonzero.  (For a brand-new application with no cover letter the code
still demands one, so the original unconditional completion claim fails; see
the counterexample.) -/
theorem continuation_skips_classification
    (d : ReqData) (env : RouterEnv) (ts : String) (rid : String)
    (htext : effectiveText d = some ts)
    (hrole : effectiveRole d = "guide")
    (hkb : searchBestMatch (6/10) env.kbRaw = none)
    (hpend : findPendingRequestId env.applyEnv.applyHist = some rid)
    (hprice : hasPriceTok ts.toList = true) :
    (smartRouter d env =
      ((applyToRequest { guideId := effectiveUserid d, requestId := some rid }
          ts.toList (effectiveUserid d) env.applyEnv).1,
       Action.kbSearch :: Action.handler "apply_to_request" ::
        (applyToRequest { guideId := effectiveUserid d, requestId := some rid }
          ts.toList (effectiveUserid d) env.applyEnv).2)) ∧
    Action.llm "classify" ∉ (smartRouter d env).2 ∧
    (∀ (tour : Tour) (exApp : AppDoc) (p : ℚ),
      resolveRequestId { guideId := effectiveUserid d, requestId := some rid }
        ts.toList env.applyEnv = ResolveOut.resolved rid →
      env.applyEnv.tourLookup rid = some tour →
      env.applyEnv.existingApp rid
        (applyGid { guideId := effectiveUserid d, requestId := some rid }
          (effectiveUserid d)) = some exApp →
      extractPriceTok ts.toList = some p →
      p ≠ tour.budget →
      (smartRouter d env).1.http = 201 ∧ (smartRouter d env).1.ok = true) ∧
    (∀ (tour : Tour) (p : ℚ) (cl : String),
      resolveRequestId { guideId := effectiveUserid d, requestId := some rid }
        ts.toList env.applyEnv = ResolveOut.resolved rid →
      env.applyEnv.tourLookup rid = some tour →
      env.applyEnv.existingApp rid
        (applyGid { guideId := effectiveUserid d, requestId := some rid }
          (effectiveUserid d)) = none →
      extractPriceTok ts.toList = some p →
      (normalizeCover ts.toList env.applyEnv.aiCover).1 = some cl →
      (stripWs cl.toList).isEmpty = false →
      p ≠ 0 → p ≠ tour.budget →
      (smartRouter d env).1.http = 201 ∧ (smartRouter d env).1.ok = true) := by
  have h1 : smartRouter d env =
      ((applyToRequest { guideId := effectiveUserid d, requestId := some rid }
          ts.toList (effectiveUserid d) env.applyEnv).1,
       Action.kbSearch :: Action.handler "apply_to_request" ::
        (applyToRequest { guideId := effectiveUserid d, requestId := some rid }
          ts.toList (effectiveUserid d) env.applyEnv).2) := by
    unfold smartRouter
    rw [htext]
    simp only [hkb, hrole, if_pos rfl]
    unfold guideContinuation
    simp only [hpend, hprice, Bool.true_or, if_true]
  refine ⟨h1, ?_, ?_, ?_⟩
  · rw [h1]
    intro hmem
    simp only [List.mem_cons] at hmem
    rcases hmem with h | h | h
    · exact absurd h (by simp)
    · exact absurd h (by simp)
    · exact applyToRequest_no_classify _ _ _ _ h
  · intro tour exApp p hres htour hex hp hne
    rw [h1]
    have happ : applyToRequest { guideId := effectiveUserid d, requestId := some rid }
        ts.toList (effectiveUserid d) env.applyEnv =
        existingApplicationFlow rid tour
          (applyGid { guideId := effectiveUserid d, requestId := some rid }
            (effectiveUserid d))
          ("guide_apply_" ++ applyGid { guideId := effectiveUserid d, requestId := some rid }
            (effectiveUserid d)) exApp (some p)
          (normalizeCover ts.toList env.applyEnv.aiCover).1 := by
      unfold applyToRequest
      simp only [hres, htour, hex, hp]
    rw [happ]
    have hc := existingFlow_completes rid tour
      (applyGid { guideId := effectiveUserid d, requestId := some rid }
        (effectiveUserid d))
      ("guide_apply_" ++ applyGid { guideId := effectiveUserid d, requestId := some rid }
        (effectiveUserid d)) exApp p
      (normalizeCover ts.toList env.applyEnv.aiCover).1 hne
    exact ⟨hc.1, hc.2.1⟩
  · intro tour p cl hres htour hex hp hcov hclne hp0 hne
    rw [h1]
    have happ : applyToRequest { guideId := effectiveUserid d, requestId := some rid }
        ts.toList (effectiveUserid d) env.applyEnv =
        newApplicationFlow rid tour
          (applyGid { guideId := effectiveUserid d, requestId := some rid }
            (effectiveUserid d))
          ("guide_apply_" ++ applyGid { guideId := effectiveUserid d, requestId := some rid }
            (effectiveUserid d)) (some p)
          (normalizeCover ts.toList env.applyEnv.aiCover).1
          (normalizeCover ts.toList env.applyEnv.aiCover).2 := by
      unfold applyToRequest
      simp only [hres, htour, hex, hp]
    rw [happ, hcov]
    have hc := newFlow_completes rid tour
      (applyGid { guideId := effectiveUserid d, requestId := some rid }
        (effectiveUserid d))
      ("guide_apply_" ++ applyGid { guideId := effectiveUserid d, requestId := some rid }
        (effectiveUserid d)) p cl
      (normalizeCover ts.toList env.applyEnv.aiCover).2 hp0 hne hclne
    exact ⟨hc.1, hc.2.1⟩

/-- Concrete data for the C3 counterexample and witness. -/
def c3Rid : String := "22222222-2222-2222-2222-222222222222"

def c3Marker : String :=
  "needs_information \"requestId\": \"22222222-2222-2222-2222-222222222222\""

def c3Tour : Tour :=
  { id := c3Rid, title := "Ella Hike", destination := "Ella", budget := 1000 }

def c3ApplyEnv : ApplyEnv :=
  { applyHist := [{ role := "assistant", content := c3Marker }],
    tourLookup := fun r => if r = c3Rid then some c3Tour else none }

def c3Env : RouterEnv := { applyEnv := c3ApplyEnv }

def c3Req : ReqData :=
  { text := some "my price is 1200", userid := some "g1",
    userRole := some "guide" }

/-- C3 counterexample: with the pending marker present and the new turn
"my price is 1200" (price 1200, stated budget 1000, so the prices differ),
the router does reach the application-completion handler, but because no
application exists yet and no cover letter was supplied the outcome is a
needs-information clarification (HTTP 200 asking for the cover letter), not
a completed application — refuting the claim\u0027s completion clause. -/
theorem continuation_counterexample :
    extractPriceTok ("my price is 1200".toList) = some 1200 ∧
    (1200 : ℚ) ≠ c3Tour.budget ∧
    (smartRouter c3Req c3Env).1.http = 200 ∧
    (smartRouter c3Req c3Env).1.rdata =
      RData.needsInfo ["coverLetter"] c3Rid "Ella Hike" 1000 ∧
    ¬ ((smartRouter c3Req c3Env).1.http = 201) := by
  refine ⟨by decide, by decide, ?_, ?_, ?_⟩ <;> decide

/-- Existing application on file for the C3 witness. -/
def c3bExApp : AppDoc :=
  { requestId := c3Rid, guideId := "g1", id := some "g1",
    proposedPrice := some 900, coverLetter := some "cv", status := "pending" }

def c3bApplyEnv : ApplyEnv :=
  { applyHist := [{ role := "assistant", content := c3Marker }],
    tourLookup := fun r => if r = c3Rid then some c3Tour else none,
    existingApp := fun r g =>
      if r = c3Rid ∧ g = "g1" then some c3bExApp else none }

def c3bEnv : RouterEnv := { applyEnv := c3bApplyEnv }

/-- No application on file, but the language-model parse supplies a cover
letter: the brand-new-application completion case of the C3 witness. -/
def c3cApplyEnv : ApplyEnv :=
  { applyHist := [{ role := "assistant", content := c3Marker }],
    tourLookup := fun r => if r = c3Rid then some c3Tour else none,
    aiCover := some "I am a great guide" }

def c3cEnv : RouterEnv := { applyEnv := c3cApplyEnv }

/-- Witness for the amended C3: the continuation turn completes the
application without classification, both with an existing application on
file and for a brand-new application with a supplied cover letter. -/
theorem continuation_witness :
    ((smartRouter c3Req c3bEnv).1.http = 201 ∧
     (smartRouter c3Req c3bEnv).1.ok = true ∧
     Action.llm "classify" ∉ (smartRouter c3Req c3bEnv).2) ∧
    ((smartRouter c3Req c3cEnv).1.http = 201 ∧
     (smartRouter c3Req c3cEnv).1.ok = true) :=
  have h := continuation_skips_classification c3Req c3bEnv "my price is 1200"
    c3Rid (by decide) (by decide) (by decide) (by decide) (by decide)
  have hc := h.2.2.1 c3Tour c3bExApp 1200 (by decide) (by decide) (by decide)
    (by decide) (by decide)
  have h2 := continuation_skips_classification c3Req c3cEnv "my price is 1200"
    c3Rid (by decide) (by decide) (by decide) (by decide) (by decide)
  have hc2 := h2.2.2.2 c3Tour 1200 "I am a great guide" (by decide)
    (by decide) (by decide) (by decide) (by decide) (by decide) (by decide)
    (by decide)
  ⟨⟨hc.1, hc.2, h.2.1⟩, ⟨hc2.1, hc2.2⟩⟩

-- ===== Claim C5 =====

/-- The safety-override scenario text of spec.md. -/
def kandyText : String :=
  "I am planning a trip to Kandy next June with a budget of $1000 for 2 people"

def c5Env : RouterEnv :=
  { classifyParse := some { ep := some "general_chat", conf := some (9/10) } }

def c5Req : ReqData :=
  { text := some kandyText, userid := some "t1", userRole := some "tourist" }

/-- C5 counterexample: the Kandy text contains the override keywords, yet
when the classifier returns an endpoint name outside the known set (here
`general_chat`, which is not `ai_assist`, so the override does not fire) the
dispatch table\u0027s default branch routes the request to the
generic-assistance handler — refuting "is never routed to the
generic-assistance handler". -/
theorem kandy_unknown_endpoint_reaches_assist :
    anyKw overrideKeywords kandyText.toList = true ∧
    Action.handler "ai_assist" ∈ (smartRouter c5Req c5Env).2 ∧
    (smartRouter c5Req c5Env).1.rdata = RData.assist kandyText "" := by
  refine ⟨by decide, ?_, ?_⟩ <;> decide

/-- C5 as amended: (a) whenever the classifier chose `ai_assist` but the
text contains a tour-creation keyword, the override step forces
`create_tour_request` with confidence 0.7; (b) the Kandy text is never
dispatched to the generic-assistance handler provided the classified
endpoint is drawn from the known endpoint set (or JSON extraction failed
altogether) and the chosen handler does not raise.  (An unknown endpoint
name or a raising handler still reaches generic assistance; see the
counterexample.) -/
theorem override_forces_create_and_kandy_avoids_assist :
    (∀ (c : ℚ) (text : Chars), anyKw overrideKeywords text = true →
      overrideStep "ai_assist" c text = ("create_tour_request", 7/10)) ∧
    (∀ (env : RouterEnv) (userid : Option String) (rd : RoutingData),
      (env.classifyParse = none ∨
        (env.classifyParse = some rd ∧
          rd.ep.getD "create_tour_request" ∈ knownTouristEndpoints)) →
      (∀ e2, ∃ r, env.oracleHandlers e2 = Except.ok r) →
      Action.handler "ai_assist" ∉
        (classifyAndDispatch kandyText.toList "tourist" userid env).2) := by
  have hkw : anyKw overrideKeywords kandyText.toList = true := by decide
  constructor
  · intro c text hkw2
    unfold overrideStep
    rw [if_pos ⟨rfl, hkw2⟩]
  · intro env userid rd hparse hok
    have hkwd : anyKw overrideKeywords kandyText.data = true := by decide
    rcases hparse with hnone | ⟨hsome, hmem⟩
    · have hep : (determineEndpointFromKeywords kandyText.data).ep =
          some "create_tour_request" := by decide
      obtain ⟨r, hr⟩ := hok "create_tour_request"
      simp [classifyAndDispatch, hnone, routePipeline, hep, overrideStep,
        dispatchSafe, dispatchCore, hr, touristOracleEndpoints, Except.map]
    · simp only [knownTouristEndpoints, List.mem_cons, List.not_mem_nil,
        or_false] at hmem
      rcases hmem with h | h | h | h | h | h | h | h | h <;>
      · obtain ⟨r2, hr2⟩ := hok (rd.ep.getD "create_tour_request")
        obtain ⟨r3, hr3⟩ := hok "create_tour_request"
        rw [h] at hr2
        simp [classifyAndDispatch, hsome, routePipeline, h, overrideStep, hkwd,
          dispatchSafe, dispatchCore, hr2, hr3, touristOracleEndpoints,
          Except.map]

/-- Concrete environment for the C5 witness: the classifier chose
`ai_assist` and every plain handler succeeds. -/
def c5bResp : Resp := { ok := true, http := 200, message := "done" }

def c5bEnv : RouterEnv :=
  { classifyParse := some { ep := some "ai_assist", conf := some (9/10) },
    oracleHandlers := fun _ => Except.ok c5bResp }

/-- Witness for the amended C5: the override fires on the Kandy text, and a
classifier that chose `ai_assist` there gets dispatched away from generic
assistance. -/
theorem override_witness :
    overrideStep "ai_assist" (9/10) kandyText.toList =
      ("create_tour_request", 7/10) ∧
    Action.handler "ai_assist" ∉
      (classifyAndDispatch kandyText.toList "tourist" (some "t1") c5bEnv).2 :=
  ⟨override_forces_create_and_kandy_avoids_assist.1 (9/10) kandyText.toList
    (by decide),
   override_forces_create_and_kandy_avoids_assist.2 c5bEnv (some "t1")
    { ep := some "ai_assist", conf := some (9/10) }
    (Or.inr ⟨rfl, by simp [knownTouristEndpoints]⟩)
    (fun e2 => ⟨c5bResp, rfl⟩)⟩

-- ===== Embedding of services/guide_query_parser.py `parse_browse_query` =====
-- (the fragment covering the supported filter fields destination / tourType /
-- minBudget / maxBudget, plus the derived `search` key; the date, language,
-- people, requirements, urgency and application-status extractions write
-- other keys only and cannot affect these fields)

/-- The `(?:tours?|find|search|show|browse|looking for)` trigger of location
pattern 1 (guide_query_parser.py line 30); returns the remainder after the
greedy `tours?`. -/
def trigMatch (s : Chars) : Option Chars :=
  if startsCI ("tour".toList) s then
    match s.drop 4 with
    | c :: rest => if c.toLower = 's' then some rest else some (c :: rest)
    | [] => some []
  else if startsCI ("find".toList) s then some (s.drop 4)
  else if startsCI ("search".toList) s then some (s.drop 6)
  else if startsCI ("show".toList) s then some (s.drop 4)
  else if startsCI ("browse".toList) s then some (s.drop 6)
  else if startsCI ("looking for".toList) s then some (s.drop 11)
  else none

/-- `(?:in|to|at|near|for)` alternatives shared by patterns 1 and 2. -/
def prepKws : List Chars :=
  [("in".toList), ("to".toList), ("at".toList), ("near".toList), ("for".toList)]

def locPat1TermKws : List Chars :=
  [("for".toList), ("with".toList), ("starting".toList), ("from".toList),
   ("tour".toList), ("tours".toList), ("that".toList), ("with".toList),
   ("please".toList)]

def locPat2TermKws : List Chars :=
  [("for".toList), ("with".toList), ("starting".toList), ("from".toList),
   ("tour".toList), ("tours".toList)]

/-- Location pattern 1 (trigger, lazy gap, preposition, group). -/
def locPat1 (text : Chars) : Option Chars :=
  scanPos (fun s =>
    match trigMatch s with
    | some r => lazyFind (fun r2 => altCont (applyNameCont locPat1TermKws) prepKws r2) r
    | none => none) text

/-- Location pattern 2 (preposition at any position, then the group). -/
def locPat2 (text : Chars) : Option Chars :=
  scanPos (fun s => altCont (applyNameCont locPat2TermKws) prepKws s) text

/-- Python regex `\w` (ASCII fragment, all these strings are ASCII). -/
def isWordChar (c : Char) : Bool := c.isAlphanum || c = '_'

/-- One `(name|...)` attempt at the current position. -/
def tryNames (names : List Chars) (s : Chars) : Option Chars :=
  names.findSome? (fun n =>
    if startsCI n s then
      let after := s.drop n.length
      let endOK := match after with
        | [] => true
        | c :: _ => isWordChar c = false
      if endOK then some (s.take n.length) else none
    else none)

def nameScanAux (names : List Chars) : Option Char → Chars → Option Chars
  | _, [] => none
  | prev, s@(c :: rest) =>
    let bOK := match prev with
      | none => true
      | some pc => isWordChar pc = false
    match (if bOK then tryNames names s else none) with
    | some m => some m
    | none => nameScanAux names (some c) rest

/-- Word-boundary name-list search of location patterns 3 and 4. -/
def namePat (names : List Chars) (text : Chars) : Option Chars :=
  nameScanAux names none text

def countryNames : List Chars :=
  [("japan".toList), ("sri lanka".toList), ("india".toList),
   ("thailand".toList), ("france".toList), ("paris".toList),
   ("london".toList), ("tokyo".toList), ("bangkok".toList),
   ("singapore".toList), ("malaysia".toList), ("indonesia".toList),
   ("vietnam".toList), ("china".toList), ("korea".toList),
   ("australia".toList), ("new zealand".toList), ("usa".toList),
   ("united states".toList), ("canada".toList), ("mexico".toList),
   ("brazil".toList), ("argentina".toList), ("chile".toList),
   ("peru".toList), ("egypt".toList), ("morocco".toList),
   ("south africa".toList), ("kenya".toList), ("tanzania".toList),
   ("zimbabwe".toList), ("botswana".toList), ("namibia".toList),
   ("madagascar".toList), ("mauritius".toList), ("seychelles".toList),
   ("maldives".toList), ("dubai".toList), ("uae".toList),
   ("qatar".toList), ("oman".toList), ("jordan".toList),
   ("israel".toList), ("turkey".toList), ("greece".toList),
   ("italy".toList), ("spain".toList), ("portugal".toList),
   ("germany".toList), ("austria".toList), ("switzerland".toList),
   ("netherlands".toList), ("belgium".toList), ("denmark".toList),
   ("sweden".toList), ("norway".toList), ("finland".toList),
   ("iceland".toList), ("ireland".toList), ("scotland".toList),
   ("england".toList), ("wales".toList), ("russia".toList),
   ("poland".toList)]

def slCityNames : List Chars :=
  [("kandy".toList), ("nuwara eliya".toList), ("colombo".toList),
   ("galle".toList), ("anuradhapura".toList), ("sigiriya".toList),
   ("ella".toList), ("mirissa".toList), ("polonnaruwa".toList),
   ("negombo".toList), ("trincomalee".toList), ("jaffna".toList),
   ("bentota".toList), ("dambulla".toList), ("hikkaduwa".toList),
   ("unawatuna".toList), ("matara".toList), ("ratnapura".toList)]

/-- Cleanup keywords of guide_query_parser.py line 44 (`tour` before
`tours`, as in the alternation). -/
def cleanupKws : List Chars :=
  [("for".toList), ("with".toList), ("starting".toList), ("from".toList),
   ("tour".toList), ("tours".toList)]

/-- Fueled core of the keyword cleanup; the fuel (the string length, always
sufficient since every step strictly shrinks the string) keeps the
recursion structural so it evaluates inside the kernel. -/
def cleanupSubF : ℕ → Chars → Chars
  | 0, _ => []
  | _ + 1, [] => []
  | fuel + 1, c :: rest =>
    if isWsChar c then
      let r := rest.dropWhile isWsChar
      match cleanupKws.findSome? (fun kw =>
        if startsCI kw r then some (kw.length) else none) with
      | some klen => cleanupSubF fuel (r.drop klen)
      | none => c :: cleanupSubF fuel rest
    else c :: cleanupSubF fuel rest

/-- `re.sub(r'\s+(for|with|starting|from|tour|tours)', '', s, flags=I)`:
left-to-right non-overlapping removal of a whitespace run followed by one of
the keywords. -/
def cleanupSub (s : Chars) : Chars := cleanupSubF s.length s

/-- Python `str.capitalize()`. -/
def capWord : Chars → Chars
  | [] => []
  | c :: cs => c.toUpper :: cs.map Char.toLower

/-- Python `str.split()` (split on whitespace runs, no empty words);
`acc` holds the reversed current word. -/
def splitWsAux (acc : Chars) : Chars → List Chars
  | [] => if acc.isEmpty then [] else [acc.reverse]
  | c :: rest =>
    if isWsChar c then
      if acc.isEmpty then splitWsAux [] rest
      else acc.reverse :: splitWsAux [] rest
    else splitWsAux (c :: acc) rest

def splitWs (s : Chars) : List Chars := splitWsAux [] s

/-- `' '.join(words)`. -/
def joinSpace : List Chars → Chars
  | [] => []
  | [w] => w
  | w :: ws => w ++ ' ' :: joinSpace ws

/-- `' '.join(word.capitalize() for word in s.split())`. -/
def capitalizeWords (s : Chars) : Chars := joinSpace ((splitWs s).map capWord)

/-- The destination post-processing of guide_query_parser.py lines 42-53
applied to a captured group: strip, keyword cleanup, per-word
capitalization, the length-over-2 acceptance test, and the at-most-3-words
search flag. -/
def destFromCapture (cap : Chars) : Option (Chars × Bool) :=
  let d1 := stripWs (cleanupSub (stripWs cap))
  let d2 := capitalizeWords d1
  if d2.length > 2 then some (d2, decide ((splitWs d2).length ≤ 3)) else none

/-- The location-pattern loop of guide_query_parser.py lines 39-53: first
pattern whose cleaned capture survives the length test wins. -/
def extractDestination (text : Chars) : Option (Chars × Bool) :=
  match (locPat1 text).bind destFromCapture with
  | some r => some r
  | none =>
    match (locPat2 text).bind destFromCapture with
    | some r => some r
    | none =>
      match (namePat countryNames text).bind destFromCapture with
      | some r => some r
      | none => (namePat slCityNames text).bind destFromCapture

-- ===== Budget extraction =====

def budgetKws : List Chars :=
  [("budget".toList), ("price".toList), ("cost".toList)]

def minKws : List Chars :=
  [("above".toList), ("over".toList), ("more than".toList),
   ("minimum".toList), ("min".toList)]

def maxKws : List Chars :=
  [("below".toList), ("under".toList), ("less than".toList),
   ("maximum".toList), ("max".toList)]

/-- Greedy `(?:,\d{3})*`: the consumed digit triples and the remainder. -/
def commaGroups (acc : Chars) (s : Chars) : Chars × Chars :=
  match s with
  | ',' :: d1 :: d2 :: d3 :: rest =>
    if d1.isDigit && d2.isDigit && d3.isDigit then
      commaGroups (acc ++ [d1, d2, d3]) rest
    else (acc, s)
  | _ => (acc, s)

/-- Anchored `(\d+(?:,\d{3})*)` followed by the
`float(group.replace(',',''))` conversion. -/
def moneyTok (s : Chars) : Option ℚ :=
  match spanDigits s with
  | ([], _) => none
  | (ds, rest) =>
    let cg := commaGroups [] rest
    some ((digitsVal (ds ++ cg.1) : ℚ))

/-- Anchored `\s*\$?(\d+(?:,\d{3})*)`. -/
def moneyCont (r : Chars) : Option ℚ :=
  let r2 := r.dropWhile isWsChar
  let r3 := match r2 with
    | '$' :: t => t
    | _ => r2
  moneyTok r3

/-- The min/max budget regex shape
`(?:budget|price|cost).*?(?:KW|...)\s*\$?(\d+(?:,\d{3})*)`
(guide_query_parser.py lines 57 and 65). -/
def budgetScan (kws : List Chars) (text : Chars) : Option ℚ :=
  scanPos (fun s =>
    altCont (fun r => lazyFind (fun r2 => altCont moneyCont kws r2) r) budgetKws s)
    text

def minScan (text : Chars) : Option ℚ := budgetScan minKws text

def maxScan (text : Chars) : Option ℚ := budgetScan maxKws text

/-- Continuation of the budget-range regex (guide_query_parser.py line 73):
`\$?(\d+..)\s*(?:to|-)\s*\$?(\d+..)`. -/
def rangeCont (r : Chars) : Option (ℚ × ℚ) :=
  let r1 := match r with
    | '$' :: t => t
    | _ => r
  match spanDigits r1 with
  | ([], _) => none
  | (ds, rest) =>
    let cg := commaGroups [] rest
    let r3 := cg.2.dropWhile isWsChar
    let r4 : Option Chars :=
      if startsCI ("to".toList) r3 then some (r3.drop 2)
      else match r3 with
        | '-' :: t => some t
        | _ => none
    match r4 with
    | none => none
    | some r5 =>
      let r6 := r5.dropWhile isWsChar
      let r7 := match r6 with
        | '$' :: t => t
        | _ => r6
      match spanDigits r7 with
      | ([], _) => none
      | (ds2, rest3) =>
        let cg2 := commaGroups [] rest3
        some ((digitsVal (ds ++ cg.1) : ℚ), (digitsVal (ds2 ++ cg2.1) : ℚ))

def rangeScan (text : Chars) : Option (ℚ × ℚ) :=
  scanPos (fun s => altCont (fun r => lazyFind rangeCont r) budgetKws s) text

/-- The supported tour types, in source order (guide_query_parser.py
lines 82-83). -/
def tourTypesList : List Chars :=
  [("cultural".toList), ("adventure".toList), ("beach".toList),
   ("mountain".toList), ("city".toList), ("historical".toList),
   ("religious".toList), ("food".toList), ("wine".toList),
   ("nature".toList), ("safari".toList), ("heritage".toList),
   ("family".toList)]

/-- The extracted-filter fields covered by the round-trip claim (plus the
derived `search`).  An `Option` being `none` models the key being absent. -/
structure Filters where
  destination : Option Chars := none
  search : Option Chars := none
  tourType : Option Chars := none
  minBudget : Option ℚ := none
  maxBudget : Option ℚ := none
deriving Repr, DecidableEq

/-- Embedding of `parse_browse_query` restricted to the supported fields
(guide_query_parser.py lines 13-87: destination/search, min/max budget, the
budget range fallback, and the tour-type loop, in source order). -/
def parse_browse_query (text : Chars) : Filters :=
  let dst := extractDestination text
  let tl := lowers text
  let minB := minScan tl
  let maxB := maxScan tl
  let mm : Option ℚ × Option ℚ :=
    if minB.isNone ∧ maxB.isNone then
      match rangeScan tl with
      | some ab => (some ab.1, some ab.2)
      | none => (none, none)
    else (minB, maxB)
  let tt := tourTypesList.find? (fun t => hasTok t tl)
  { destination := dst.map Prod.fst,
    search := match dst with
      | some (d, true) => some d
      | _ => none,
    tourType := tt,
    minBudget := mm.1,
    maxBudget := mm.2 }

-- ===== The spec-modelled renderer and the round-trip relation =====

/-- Modelled from the spec: `render_filters_as_text` does not exist in the
repository; spec.md only posits "rendering f as natural-language text".
This renderer writes each present supported field as a plain English
fragment ("in {destination}, ", "{type} type, ", "budget above ${m} ",
"budget below ${M}"), printing money amounts as whole dollars. -/
def renderMoney (q : ℚ) : Chars := natStr q.num.toNat

def render_filters_as_text (f : Filters) : Chars :=
  (match f.destination with
    | some d => ("in ".toList) ++ d ++ (", ".toList)
    | none => []) ++
  (match f.tourType with
    | some t => t ++ (" type, ".toList)
    | none => []) ++
  (match f.minBudget with
    | some m => ("budget above $".toList) ++ renderMoney m ++ [' ']
    | none => []) ++
  (match f.maxBudget with
    | some m => ("budget below $".toList) ++ renderMoney m
    | none => [])

/-- `a ⊆ b` on one optional field: a present value must reappear exactly. -/
def optLeB [DecidableEq α] (a b : Option α) : Bool :=
  match a with
  | none => true
  | some x => b = some x

/-- `g ⊇ f` on the supported fields (destination, tourType, minBudget,
maxBudget). -/
def subsumesB (g f : Filters) : Bool :=
  optLeB f.destination g.destination && optLeB f.tourType g.tourType &&
  optLeB f.minBudget g.minBudget && optLeB f.maxBudget g.maxBudget

/-- C10 counterexample: the filter set `{destination := "KANDY"}` cannot
round-trip: the parser title-cases every extracted destination
(`word.capitalize()`), so re-extraction yields "Kandy" and the containment
fails.  (Likewise any non-integer budget is unextractable, since the digit
groups produce whole numbers.) -/
theorem roundtrip_counterexample :
    parse_browse_query (render_filters_as_text
        { destination := some ("KANDY".toList) }) =
      { destination := some ("Kandy".toList), search := some ("Kandy".toList) } ∧
    subsumesB
      (parse_browse_query (render_filters_as_text
        { destination := some ("KANDY".toList) }))
      { destination := some ("KANDY".toList) } = false := by
  constructor <;> decide

-- ===== Canonical filter values for the amended round-trip =====

/-- ASCII uppercase letters. -/
def ucChars : Chars := "ABCDEFGHIJKLMNOPQRSTUVWXYZ".toList

/-- ASCII lowercase letters. -/
def lcChars : Chars := "abcdefghijklmnopqrstuvwxyz".toList

/-- Decimal digit characters. -/
def digitChars : Chars := "0123456789".toList

/-- The non-letter characters occurring in rendered filter text: space,
comma, dollar sign and digits. -/
def sepChars : Chars := " ,$0123456789".toList

/-- A capitalized destination word: an uppercase letter followed by
lowercase letters. -/
structure DWord where
  hd : Char
  tl : Chars
deriving Repr, DecidableEq

def DWord.chars (w : DWord) : Chars := w.hd :: w.tl

/-- Keywords that must not occur case-insensitively inside a canonical
destination word: the location-trigger literals, the group-terminator and
cleanup keywords, the budget keywords, and the tour types. -/
def hazardKws : List Chars :=
  [("tour".toList), ("tours".toList), ("find".toList), ("search".toList),
   ("show".toList), ("browse".toList), ("looking".toList),
   ("for".toList), ("with".toList), ("starting".toList), ("from".toList),
   ("budget".toList), ("price".toList), ("cost".toList)] ++ tourTypesList

/-- A canonical destination word: capitalized, alphabetic, and free of the
parser keywords. -/
def wordOKB (w : DWord) : Bool :=
  ucChars.contains w.hd && w.tl.all (fun c => lcChars.contains c) &&
  hazardKws.all (fun kw => !(hasTokCI kw (DWord.chars w)))

/-- The destination string written by a list of words. -/
def destChars (ws : List DWord) : Chars := joinSpace (ws.map DWord.chars)

/-- A list of (word, separator) pairs flattened into a string with a final
tail: the generic shape of rendered filter text. -/
def wsflat (l : List (Chars × Char)) (tail : Chars) : Chars :=
  l.foldr (fun p acc => p.1 ++ p.2 :: acc) tail

-- ===== Character-class facts (all finite, settled by evaluation) =====

theorem uc_facts : ∀ c ∈ ucChars, isWsChar c = false ∧ c.isAlpha = true ∧
    clsLetterWsComma c = true ∧ c.toUpper = c ∧ c.toLower ∈ lcChars ∧
    c ≠ '.' ∧ c ≠ ',' ∧ c ≠ '\n' := by decide

theorem lc_facts : ∀ c ∈ lcChars, isWsChar c = false ∧ c.isAlpha = true ∧
    clsLetterWsComma c = true ∧ c.toLower = c ∧
    c ≠ '.' ∧ c ≠ ',' ∧ c ≠ '\n' := by decide

theorem lc_sep_ne : ∀ p ∈ lcChars, ∀ q ∈ sepChars, (p == q) = false := by
  decide

theorem digit_facts : ∀ c ∈ digitChars, c.isDigit = true ∧ c.toLower = c ∧
    (c == '\n') = false ∧ c ∈ sepChars := by decide

theorem ofNat_digit_facts : ∀ k < 10, Char.ofNat (48 + k) ∈ digitChars ∧
    digitVal (Char.ofNat (48 + k)) = k := by decide

-- ===== ASCII case folding =====

theorem char_ofNat_toNat (n : ℕ) (hval : n.isValidChar) :
    (Char.ofNat n).toNat = n := by
  rw [Char.ofNat, dif_pos hval]; rfl

theorem toLower_eq_self (c : Char) (h : ¬(65 ≤ c.toNat ∧ c.toNat ≤ 90)) :
    c.toLower = c := by
  unfold Char.toLower; exact if_neg h

theorem toLower_of_upper (c : Char) (h : 65 ≤ c.toNat ∧ c.toNat ≤ 90) :
    c.toLower = Char.ofNat (c.toNat + 32) := by
  unfold Char.toLower; exact if_pos h

theorem toLower_toLower (c : Char) : c.toLower.toLower = c.toLower := by
  by_cases h : 65 ≤ c.toNat ∧ c.toNat ≤ 90
  · rw [toLower_of_upper c h]
    have hv : (c.toNat + 32).isValidChar := by left; omega
    have ht := char_ofNat_toNat (c.toNat + 32) hv
    exact toLower_eq_self _ (by omega)
  · rw [toLower_eq_self c h, toLower_eq_self c h]

theorem lowers_lowers (s : Chars) : lowers (lowers s) = lowers s := by
  induction s with
  | nil => rfl
  | cons c cs ih =>
    show (c.toLower.toLower :: lowers (lowers cs)) = c.toLower :: lowers cs
    rw [toLower_toLower, ih]

theorem lowers_drop (s : Chars) (i : ℕ) :
    lowers (s.drop i) = (lowers s).drop i := List.map_drop Char.toLower s i

/-- Case-insensitive matching is exact matching of the case-folded strings. -/
theorem startsCI_lowers (pat s : Chars) :
    startsCI pat s = startsWithB (lowers pat) (lowers s) := by
  induction pat generalizing s with
  | nil => rfl
  | cons p ps ih =>
    cases s with
    | nil => rfl
    | cons c cs =>
      show (p.toLower == c.toLower && startsCI ps cs) = _
      rw [ih]
      rfl

theorem hasTokCI_lowers (pat s : Chars) :
    hasTokCI pat s = hasTok (lowers pat) (lowers s) := by
  induction s with
  | nil =>
    cases pat with
    | nil => rfl
    | cons p ps => rfl
  | cons c cs ih =>
    show (startsCI pat (c :: cs) || hasTokCI pat cs) = _
    rw [startsCI_lowers, ih]
    rfl

-- ===== Occurrence bookkeeping for exact matching =====

theorem hasTok_nil_pat (s : Chars) : hasTok [] s = true := by
  cases s with
  | nil => rfl
  | cons c cs => rfl

theorem startsWithB_self (pat : Chars) : startsWithB pat pat = true := by
  induction pat with
  | nil => rfl
  | cons p ps ih =>
    show (p == p && startsWithB ps ps) = true
    rw [ih, beq_self_eq_true]
    rfl

theorem startsWithB_of_append {a b s : Chars}
    (h : startsWithB (a ++ b) s = true) : startsWithB a s = true := by
  induction a generalizing s with
  | nil => rfl
  | cons x xs ih =>
    cases s with
    | nil => exact absurd h (by simp [startsWithB])
    | cons c cs =>
      simp only [List.cons_append, startsWithB, Bool.and_eq_true] at h ⊢
      exact ⟨h.1, ih h.2⟩

/-- No occurrence anywhere means no occurrence starting at any offset. -/
theorem noStart_of_noTok {pat s : Chars} (h : hasTok pat s = false) :
    ∀ i, startsWithB pat (s.drop i) = false := by
  induction s with
  | nil =>
    intro i
    simp only [List.drop_nil]
    exact h
  | cons c cs ih =>
    have h2 : startsWithB pat (c :: cs) = false ∧ hasTok pat cs = false := by
      simp only [hasTok, Bool.or_eq_false_iff] at h
      exact h
    intro i
    cases i with
    | zero => exact h2.1
    | succ j => exact ih h2.2 j

theorem hasTok_sandwich (pat A B : Chars) :
    hasTok pat (A ++ (pat ++ B)) = true := by
  induction A with
  | nil =>
    cases pat with
    | nil => exact hasTok_nil_pat _
    | cons p ps =>
      show (startsWithB (p :: ps) ((p :: ps) ++ B) || _) = true
      rw [startsWithB_append B (startsWithB_self (p :: ps))]
      rfl
  | cons a as ih =>
    show (_ || hasTok pat (as ++ (pat ++ B))) = true
    rw [ih]
    exact Bool.or_true _

-- ===== Decomposition across non-letter separators =====

/-- An all-lowercase-letter pattern cannot match across a separator: an
anchored match on `A ++ sep :: B` is an anchored match on `A` alone. -/
theorem startsWithB_sep_frontier {pat : Chars}
    (hpat : ∀ c ∈ pat, c ∈ lcChars) {sep : Char} (hsep : sep ∈ sepChars)
    (A B : Chars) : startsWithB pat (A ++ sep :: B) = startsWithB pat A := by
  induction pat generalizing A with
  | nil => rfl
  | cons p ps ih =>
    cases A with
    | nil =>
      show (p == sep && _) = startsWithB (p :: ps) []
      rw [lc_sep_ne p (hpat p (by simp)) sep hsep]
      rfl
    | cons a as =>
      show (p == a && startsWithB ps (as ++ sep :: B)) =
        (p == a && startsWithB ps as)
      rw [ih (fun c hc => hpat c (by simp [hc]))]

/-- Occurrences of an all-letter pattern in `A ++ sep :: B` lie entirely in
`A` or entirely in `B`. -/
theorem hasTok_sep_split {pat : Chars} (hpat : ∀ c ∈ pat, c ∈ lcChars)
    {sep : Char} (hsep : sep ∈ sepChars) (A B : Chars) :
    hasTok pat (A ++ sep :: B) = (hasTok pat A || hasTok pat B) := by
  induction A with
  | nil =>
    show (startsWithB pat (sep :: B) || hasTok pat B) = _
    rw [show startsWithB pat (sep :: B) =
      startsWithB pat (([] : Chars) ++ sep :: B) from rfl]
    rw [startsWithB_sep_frontier hpat hsep [] B]
    rfl
  | cons a as ih =>
    show (startsWithB pat ((a :: as) ++ sep :: B) ||
      hasTok pat (as ++ sep :: B)) = _
    rw [ih, startsWithB_sep_frontier hpat hsep (a :: as) B]
    show _ = ((startsWithB pat (a :: as) || hasTok pat as) || hasTok pat B)
    rw [Bool.or_assoc]

/-- An all-letter pattern never occurs in a string of separators. -/
theorem hasTok_sep_chunk {pat : Chars} (hne : pat ≠ [])
    (hpat : ∀ c ∈ pat, c ∈ lcChars) {ds : Chars}
    (hds : ∀ c ∈ ds, c ∈ sepChars) : hasTok pat ds = false := by
  induction ds with
  | nil =>
    cases pat with
    | nil => exact absurd rfl hne
    | cons p ps => rfl
  | cons d rest ih =>
    show (startsWithB pat (d :: rest) || hasTok pat rest) = false
    have h1 : startsWithB pat (d :: rest) = false := by
      cases pat with
      | nil => exact absurd rfl hne
      | cons p ps =>
        show (p == d && _) = false
        rw [lc_sep_ne p (hpat p (by simp)) d (hds d (by simp))]
        rfl
    rw [h1, ih (fun c hc => hds c (by simp [hc]))]
    rfl

theorem wsflat_cons (w : Chars) (sep : Char) (l : List (Chars × Char))
    (tail : Chars) : wsflat ((w, sep) :: l) tail = w ++ sep :: wsflat l tail :=
  rfl

theorem wsflat_append (l1 l2 : List (Chars × Char)) (tail : Chars) :
    wsflat (l1 ++ l2) tail = wsflat l1 (wsflat l2 tail) :=
  List.foldr_append _ _ l1 l2

theorem wsflat_tail_shift (l : List (Chars × Char)) (X : Chars) :
    wsflat l X = wsflat l [] ++ X := by
  induction l with
  | nil => rfl
  | cons p r ih =>
    cases p with
    | mk w sep =>
      rw [wsflat_cons, wsflat_cons, ih]
      simp [List.append_assoc]

/-- Occurrences of an all-letter pattern in a separator-joined string are
occurrences in one of the chunks or in the tail. -/
theorem hasTok_wsflat {pat : Chars} (hpat : ∀ c ∈ pat, c ∈ lcChars)
    (l : List (Chars × Char)) (hsep : ∀ p ∈ l, p.2 ∈ sepChars) (X : Chars) :
    hasTok pat (wsflat l X) =
      ((l.any fun p => hasTok pat p.1) || hasTok pat X) := by
  induction l with
  | nil => rfl
  | cons p r ih =>
    cases p with
    | mk w sep =>
      rw [wsflat_cons, hasTok_sep_split hpat (hsep (w, sep) (by simp)),
        ih (fun q hq => hsep q (by simp [hq]))]
      simp [Bool.or_assoc]

-- ===== Scanner-driver skipping lemmas =====

theorem scanPos_none_of {α : Type} (step : Chars → Option α) (s : Chars)
    (h : ∀ i, step (s.drop i) = none) : scanPos step s = none := by
  induction s with
  | nil => exact h 0
  | cons c rest ih =>
    have h0 : step (c :: rest) = none := h 0
    simp only [scanPos, h0]
    exact ih (fun i => h (i + 1))

theorem scanPos_skip {α : Type} (step : Chars → Option α) (A X : Chars)
    (h : ∀ i, i < A.length → step ((A ++ X).drop i) = none) :
    scanPos step (A ++ X) = scanPos step X := by
  induction A with
  | nil => rfl
  | cons a as ih =>
    have h0 : step (a :: (as ++ X)) = none := h 0 (by simp)
    show (match step (a :: (as ++ X)) with
      | some v => some v
      | none => scanPos step (as ++ X)) = scanPos step X
    rw [h0]
    exact ih (fun i hi => h (i + 1) (by simpa using Nat.succ_lt_succ hi))

theorem scanPos_cons_some {α : Type} (step : Chars → Option α) (c : Char)
    (rest : Chars) {v : α} (h : step (c :: rest) = some v) :
    scanPos step (c :: rest) = some v := by
  simp only [scanPos, h]

theorem lazyFind_skip {α : Type} (inner : Chars → Option α) (A X : Chars)
    (h : ∀ i, i < A.length → inner ((A ++ X).drop i) = none)
    (hnl : ∀ c ∈ A, c ≠ '\n') :
    lazyFind inner (A ++ X) = lazyFind inner X := by
  induction A with
  | nil => rfl
  | cons a as ih =>
    have h0 : inner (a :: (as ++ X)) = none := h 0 (by simp)
    show (match inner (a :: (as ++ X)) with
      | some v => some v
      | none => if a = '\n' then none else lazyFind inner (as ++ X)) =
      lazyFind inner X
    rw [h0, if_neg (hnl a (by simp))]
    exact ih (fun i hi => h (i + 1) (by simpa using Nat.succ_lt_succ hi))
      (fun c hc => hnl c (by simp [hc]))

theorem altCont_none_of_all {α : Type} (cont : Chars → Option α)
    (kws : List Chars) (s : Chars)
    (h : ∀ kw ∈ kws, startsCI kw s = false) : altCont cont kws s = none := by
  induction kws with
  | nil => rfl
  | cons k ks ih =>
    have hk := h k (by simp)
    simp only [altCont, hk, Bool.false_eq_true, if_false]
    exact ih (fun kw hkw => h kw (by simp [hkw]))

/-- An alternation of keywords that all begin with a lowercase letter fails
on a string beginning with a separator character. -/
theorem altCont_none_sep_head {α : Type} (cont : Chars → Option α)
    (kws : List Chars)
    (hkws : ∀ kw ∈ kws, ∃ c0 r, kw = c0 :: r ∧ c0 ∈ lcChars)
    {d : Char} (hd : d ∈ sepChars) (hdl : d.toLower = d) (X : Chars) :
    altCont cont kws (d :: X) = none := by
  apply altCont_none_of_all
  intro kw hkw
  obtain ⟨c0, r, rfl, hc0⟩ := hkws kw hkw
  show (c0.toLower == d.toLower && _) = false
  rw [hdl, (lc_facts c0 hc0).2.2.2.1, lc_sep_ne c0 hc0 d hd]
  rfl

-- ===== takeWhile / dropWhile helpers =====

theorem takeWhile_all {p : Char → Bool} {l : Chars}
    (h : ∀ c ∈ l, p c = true) : l.takeWhile p = l := by
  induction l with
  | nil => rfl
  | cons c cs ih =>
    rw [List.takeWhile_cons_of_pos (h c (by simp))]
    rw [ih (fun x hx => h x (by simp [hx]))]

theorem dropWhile_all {p : Char → Bool} {l : Chars}
    (h : ∀ c ∈ l, p c = true) : l.dropWhile p = [] := by
  induction l with
  | nil => rfl
  | cons c cs ih =>
    rw [List.dropWhile_cons_of_pos (h c (by simp))]
    exact ih (fun x hx => h x (by simp [hx]))

theorem dropWhile_eq_drop (p : Char → Bool) (l : Chars) :
    l.dropWhile p = l.drop (l.takeWhile p).length := by
  induction l with
  | nil => rfl
  | cons c cs ih =>
    by_cases h : p c = true
    · rw [List.dropWhile_cons_of_pos h, List.takeWhile_cons_of_pos h, ih]
      rfl
    · rw [List.dropWhile_cons_of_neg h, List.takeWhile_cons_of_neg h]
      rfl

theorem map_id_of_mem {f : Char → Char} {l : Chars}
    (h : ∀ c ∈ l, f c = c) : l.map f = l := by
  induction l with
  | nil => rfl
  | cons c cs ih =>
    rw [List.map_cons, h c (by simp), ih (fun x hx => h x (by simp [hx]))]

-- ===== Facts about the decimal printer =====

theorem natStrF_mem (fuel n : ℕ) (h : n < fuel) :
    ∀ c ∈ natStrF fuel n, c ∈ digitChars := by
  induction fuel generalizing n with
  | zero => omega
  | succ fuel ih =>
    by_cases h10 : n < 10
    · simp only [natStrF, h10, if_true]
      intro c hc
      rw [List.mem_singleton] at hc
      subst hc
      exact (ofNat_digit_facts n h10).1
    · simp only [natStrF, h10, if_false]
      intro c hc
      rcases List.mem_append.mp hc with hc | hc
      · exact ih (n / 10) (by omega) c hc
      · rw [List.mem_singleton] at hc
        subst hc
        exact (ofNat_digit_facts (n % 10) (Nat.mod_lt n (by omega))).1

theorem natStrF_ne_nil (fuel n : ℕ) (h : n < fuel) : natStrF fuel n ≠ [] := by
  cases fuel with
  | zero => omega
  | succ fuel =>
    by_cases h10 : n < 10
    · simp [natStrF, h10]
    · simp [natStrF, h10]

theorem digitsVal_append_one (xs : Chars) (c : Char) :
    digitsVal (xs ++ [c]) = 10 * digitsVal xs + digitVal c := by
  simp [digitsVal, List.foldl_append]

theorem natStrF_val (fuel n : ℕ) (h : n < fuel) :
    digitsVal (natStrF fuel n) = n := by
  induction fuel generalizing n with
  | zero => omega
  | succ fuel ih =>
    by_cases h10 : n < 10
    · simp only [natStrF, h10, if_true]
      show digitsVal [Char.ofNat (48 + n)] = n
      show 10 * 0 + digitVal (Char.ofNat (48 + n)) = n
      rw [(ofNat_digit_facts n h10).2]
      omega
    · simp only [natStrF, h10, if_false]
      rw [digitsVal_append_one, ih (n / 10) (by omega),
        (ofNat_digit_facts (n % 10) (Nat.mod_lt n (by omega))).2]
      omega

theorem natStr_mem (n : ℕ) : ∀ c ∈ natStr n, c ∈ digitChars :=
  natStrF_mem (n + 1) n (by omega)

theorem natStr_ne_nil (n : ℕ) : natStr n ≠ [] :=
  natStrF_ne_nil (n + 1) n (by omega)

theorem natStr_val (n : ℕ) : digitsVal (natStr n) = n :=
  natStrF_val (n + 1) n (by omega)

theorem lowers_natStr (n : ℕ) : lowers (natStr n) = natStr n :=
  map_id_of_mem (fun c hc => (digit_facts c (natStr_mem n c hc)).2.1)

-- ===== Keyword-list facts (finite, settled by evaluation) =====

theorem hazard_kw_facts : ∀ kw ∈ hazardKws, kw ≠ [] ∧
    (∀ c ∈ kw, c ∈ lcChars) ∧ lowers kw = kw := by decide

theorem cleanup_sub_hazard : ∀ kw ∈ cleanupKws, kw ∈ hazardKws := by decide

theorem locPat2Term_sub_hazard : ∀ kw ∈ locPat2TermKws, kw ∈ hazardKws := by
  decide

theorem budget_sub_hazard : ∀ kw ∈ budgetKws, kw ∈ hazardKws := by decide

theorem ttype_sub_hazard : ∀ t ∈ tourTypesList, t ∈ hazardKws := by decide

/-- The declared location-trigger literals (`looking for` is covered by its
first word, since any match of the longer literal begins with a match of
`looking`). -/
def trigLits : List Chars :=
  [("tour".toList), ("find".toList), ("search".toList), ("show".toList),
   ("browse".toList), ("looking".toList)]

theorem trig_sub_hazard : ∀ lit ∈ trigLits, lit ∈ hazardKws := by decide

theorem minKws_heads : ∀ kw ∈ minKws, kw ≠ [] ∧ kw.headD 'a' ∈ lcChars := by
  decide

theorem maxKws_heads : ∀ kw ∈ maxKws, kw ≠ [] ∧ kw.headD 'a' ∈ lcChars := by
  decide

theorem head_shape_of_facts {kw : Chars} (h1 : kw ≠ [])
    (h2 : kw.headD 'a' ∈ lcChars) :
    ∃ c0 r, kw = c0 :: r ∧ c0 ∈ lcChars := by
  cases kw with
  | nil => exact absurd rfl h1
  | cons c r => exact ⟨c, r, rfl, h2⟩

-- ===== Canonical-word helpers =====

theorem wordOK_parts {w : DWord} (h : wordOKB w = true) :
    w.hd ∈ ucChars ∧ (∀ c ∈ w.tl, c ∈ lcChars) ∧
    (∀ kw ∈ hazardKws, hasTokCI kw w.chars = false) := by
  simp only [wordOKB, Bool.and_eq_true, List.all_eq_true,
    Bool.not_eq_true'] at h
  refine ⟨?_, ?_, ?_⟩
  · have := h.1.1
    simpa using this
  · intro c hc
    have := h.1.2 c hc
    simpa using this
  · intro kw hkw
    exact h.2 kw hkw

theorem word_chars_mem {w : DWord} (h : wordOKB w = true) :
    ∀ c ∈ w.chars, c ∈ ucChars ∨ c ∈ lcChars := by
  intro c hc
  rcases List.mem_cons.mp hc with rfl | hc
  · exact Or.inl (wordOK_parts h).1
  · exact Or.inr ((wordOK_parts h).2.1 c hc)

/-- Case-folding a canonical word yields lowercase letters only. -/
theorem word_low_lc {w : DWord} (h : wordOKB w = true) :
    ∀ c ∈ lowers w.chars, c ∈ lcChars := by
  intro c hc
  simp only [lowers, List.mem_map] at hc
  obtain ⟨c0, hc0, rfl⟩ := hc
  rcases word_chars_mem h c0 hc0 with hu | hl
  · exact (uc_facts c0 hu).2.2.2.2.1
  · rw [(lc_facts c0 hl).2.2.2.1]
    exact hl

/-- No hazard keyword occurs in the case-folded canonical word. -/
theorem word_low_noTok {w : DWord} (h : wordOKB w = true) :
    ∀ kw ∈ hazardKws, hasTok kw (lowers w.chars) = false := by
  intro kw hkw
  have hci := (wordOK_parts h).2.2 kw hkw
  rw [hasTokCI_lowers, (hazard_kw_facts kw hkw).2.2] at hci
  exact hci

theorem sw_false_of_noTok {pat s : Chars} (h : hasTok pat s = false) :
    startsWithB pat s = false := by
  cases s with
  | nil => exact h
  | cons c cs =>
    simp only [hasTok, Bool.or_eq_false_iff] at h
    exact h.1

-- ===== Destination-string structure =====

/-- The space-prefixed flattening of the words after the first. -/
def wordsTailChars (ws : List DWord) : Chars :=
  (ws.map (fun w => ' ' :: DWord.chars w)).join

theorem wordsTailChars_nil : wordsTailChars [] = [] := rfl

theorem wordsTailChars_cons (w : DWord) (ws : List DWord) :
    wordsTailChars (w :: ws) = ' ' :: (w.chars ++ wordsTailChars ws) := rfl

theorem destChars_eq_tail (w : DWord) (ws : List DWord) :
    destChars (w :: ws) = w.chars ++ wordsTailChars ws := by
  induction ws generalizing w with
  | nil => simp [destChars, joinSpace, wordsTailChars]
  | cons w2 r ih =>
    show joinSpace (w.chars :: w2.chars :: r.map DWord.chars) = _
    show w.chars ++ ' ' :: joinSpace (w2.chars :: r.map DWord.chars) = _
    rw [show joinSpace (w2.chars :: r.map DWord.chars) =
      destChars (w2 :: r) from rfl, ih w2, wordsTailChars_cons]

theorem lowers_append (a b : Chars) :
    lowers (a ++ b) = lowers a ++ lowers b := List.map_append _ a b

theorem lowers_cons (c : Char) (s : Chars) :
    lowers (c :: s) = c.toLower :: lowers s := rfl

theorem toLower_space : (' ' : Char).toLower = ' ' := by decide

theorem lowD_noTok {ws : List DWord} (hws : ∀ w ∈ ws, wordOKB w = true) :
    ∀ kw ∈ hazardKws, hasTok kw (lowers (destChars ws)) = false := by
  induction ws with
  | nil =>
    intro kw hkw
    show hasTok kw [] = false
    cases hne : kw with
    | nil => exact absurd hne (hazard_kw_facts kw hkw).1
    | cons c r => rfl
  | cons w r ih =>
    intro kw hkw
    cases r with
    | nil => exact word_low_noTok (hws w (by simp)) kw hkw
    | cons w2 r2 =>
      rw [destChars_eq_tail, wordsTailChars_cons, lowers_append, lowers_cons,
        toLower_space,
        hasTok_sep_split (hazard_kw_facts kw hkw).2.1 (by decide) _ _,
        word_low_noTok (hws w (by simp)) kw hkw]
      have hih := ih (fun x hx => hws x (by simp [hx])) kw hkw
      rw [destChars_eq_tail] at hih
      simpa using hih

-- ===== The capture group of location pattern 2 on a canonical destination =====

theorem canon_char_facts {c : Char} (h : c ∈ ucChars ∨ c ∈ lcChars) :
    isWsChar c = false ∧ clsLetterWsComma c = true ∧ c ≠ '.' ∧ c ≠ ',' := by
  rcases h with h | h
  · obtain ⟨h1, _, h3, _, _, h6, h7, _⟩ := uc_facts c h
    exact ⟨h1, h3, h6, h7⟩
  · obtain ⟨h1, _, h3, _, h5, h6, _⟩ := lc_facts c h
    exact ⟨h1, h3, h5, h6⟩

theorem wsKwTerm_letter (kws : List Chars) {c : Char}
    (h : c ∈ ucChars ∨ c ∈ lcChars) (X : Chars) :
    wsKwTerm kws (c :: X) = false := by
  obtain ⟨hws, _, hdot, hcomma⟩ := canon_char_facts h
  simp [wsKwTerm, hdot, hcomma, hws]

theorem growLazy_step (cls : Char → Bool) (term : Chars → Bool) {c : Char}
    (rest acc : Chars) (hterm : term (c :: rest) = false)
    (hcls : cls c = true) :
    growLazy cls term acc (c :: rest) = growLazy cls term (c :: acc) rest := by
  simp [growLazy, hterm, hcls]

theorem growLazy_term (cls : Char → Bool) (term : Chars → Bool)
    (s acc : Chars) (hterm : term s = true) :
    growLazy cls term acc s = some acc.reverse := by
  cases s with
  | nil => simp [growLazy, hterm]
  | cons c rest => simp [growLazy, hterm]

/-- No terminator keyword matches at a word boundary inside a canonical
destination. -/
theorem termAny_false {kws : List Chars} (hkws : ∀ kw ∈ kws, kw ∈ hazardKws)
    {w : DWord} (hw : wordOKB w = true) {Z : Chars}
    (hz : ∃ sep Y, lowers Z = sep :: Y ∧ sep ∈ sepChars) :
    ∀ kw ∈ kws, startsCI kw (w.chars ++ Z) = false := by
  intro kw hkw
  have hh := hkws kw hkw
  rw [startsCI_lowers, (hazard_kw_facts kw hh).2.2, lowers_append]
  obtain ⟨sep, Y, hZ, hsep⟩ := hz
  rw [hZ, startsWithB_sep_frontier (hazard_kw_facts kw hh).2.1 hsep]
  exact sw_false_of_noTok (word_low_noTok hw kw hh)

theorem wsKwTerm_boundary {kws : List Chars}
    (hkws : ∀ kw ∈ kws, kw ∈ hazardKws) {w : DWord} (hw : wordOKB w = true)
    {Z : Chars} (hz : ∃ sep Y, lowers Z = sep :: Y ∧ sep ∈ sepChars) :
    wsKwTerm kws (' ' :: (w.chars ++ Z)) = false := by
  have hdw : (' ' :: (w.chars ++ Z)).dropWhile isWsChar = w.chars ++ Z := by
    rw [List.dropWhile_cons_of_pos (by decide)]
    show (w.hd :: (w.tl ++ Z)).dropWhile isWsChar = _
    rw [List.dropWhile_cons_of_neg (by
      rw [(uc_facts w.hd (wordOK_parts hw).1).1]; exact Bool.false_ne_true)]
    rfl
  show wsKwTerm kws (' ' :: (w.chars ++ Z)) = false
  simp only [wsKwTerm, hdw]
  rw [if_neg (by decide), if_pos (by decide)]
  rw [List.any_eq_false]
  intro kw hkw
  rw [termAny_false hkws hw hz kw hkw]
  exact Bool.false_ne_true

/-- Head shape of the case-folded remainder at a word boundary. -/
theorem tail_sep_shape (r2 : List DWord) (rest0 : Chars) :
    ∃ sep Y, lowers (wordsTailChars r2 ++ ',' :: rest0) = sep :: Y ∧
      sep ∈ sepChars := by
  cases r2 with
  | nil =>
    refine ⟨',', lowers rest0, ?_, by decide⟩
    rw [wordsTailChars_nil]
    rfl
  | cons w2 rr =>
    refine ⟨' ', lowers (w2.chars ++ wordsTailChars rr ++ ',' :: rest0), ?_,
      by decide⟩
    rw [wordsTailChars_cons]
    show lowers (' ' :: ((w2.chars ++ wordsTailChars rr) ++ ',' :: rest0)) = _
    rw [lowers_cons, toLower_space, List.append_assoc]

/-- Lazy growth of the destination group consumes exactly the canonical
destination and stops at the following comma. -/
theorem growDest (rest0 : Chars) (kws : List Chars)
    (hkws : ∀ kw ∈ kws, kw ∈ hazardKws) :
    ∀ (ws' : List DWord), (∀ w ∈ ws', wordOKB w = true) →
    ∀ (tlcur : Chars), (∀ c ∈ tlcur, c ∈ ucChars ∨ c ∈ lcChars) →
    ∀ (acc : Chars),
      growLazy clsLetterWsComma (wsKwTerm kws) acc
        (tlcur ++ (wordsTailChars ws' ++ ',' :: rest0)) =
      some (acc.reverse ++ (tlcur ++ wordsTailChars ws')) := by
  intro ws'
  induction ws' with
  | nil =>
    intro _ tlcur
    induction tlcur with
    | nil =>
      intro _ acc
      show growLazy clsLetterWsComma (wsKwTerm kws) acc (',' :: rest0) = _
      rw [growLazy_term _ _ _ _ (by simp [wsKwTerm])]
      simp [wsflat_cons, wordsTailChars_nil]
    | cons c ct ihtl =>
      intro hct acc
      have hc := hct c (by simp)
      show growLazy clsLetterWsComma (wsKwTerm kws) acc
        (c :: (ct ++ (wordsTailChars [] ++ ',' :: rest0))) = _
      rw [growLazy_step _ _ _ _ (wsKwTerm_letter kws hc _)
        ((canon_char_facts hc).2.1)]
      rw [ihtl (fun x hx => hct x (by simp [hx])) (c :: acc)]
      simp [List.append_assoc]
  | cons w2 r2 ihws =>
    intro hws tlcur
    induction tlcur with
    | nil =>
      intro _ acc
      have hterm : wsKwTerm kws
          (' ' :: (w2.chars ++ (wordsTailChars r2 ++ ',' :: rest0))) = false :=
        wsKwTerm_boundary hkws (hws w2 (by simp)) (tail_sep_shape r2 rest0)
      show growLazy clsLetterWsComma (wsKwTerm kws) acc
        ((' ' :: (w2.chars ++ wordsTailChars r2)) ++ ',' :: rest0) = _
      simp only [List.cons_append, List.append_assoc]
      rw [growLazy_step _ _ _ _ hterm (by decide)]
      rw [ihws (fun x hx => hws x (by simp [hx])) w2.chars
        (word_chars_mem (hws w2 (by simp))) (' ' :: acc)]
      rw [wordsTailChars_cons]
      simp [List.append_assoc]
    | cons c ct ihtl =>
      intro hct acc
      have hc := hct c (by simp)
      show growLazy clsLetterWsComma (wsKwTerm kws) acc
        (c :: (ct ++ (wordsTailChars (w2 :: r2) ++ ',' :: rest0))) = _
      rw [growLazy_step _ _ _ _ (wsKwTerm_letter kws hc _)
        ((canon_char_facts hc).2.1)]
      rw [ihtl (fun x hx => hct x (by simp [hx])) (c :: acc)]
      simp [List.append_assoc]

/-- The two-character minimum of the group regex is met and the group
captures the whole canonical destination. -/
theorem matchGroup2_dest {kws : List Chars}
    (hkws : ∀ kw ∈ kws, kw ∈ hazardKws) {ws : List DWord}
    (hws : ∀ w ∈ ws, wordOKB w = true) (hne : ws ≠ [])
    (h2 : 2 ≤ (destChars ws).length) (rest0 : Chars) :
    matchGroup2 (fun c => c.isAlpha) clsLetterWsComma (wsKwTerm kws)
      (destChars ws ++ ',' :: rest0) = some (destChars ws) := by
  cases ws with
  | nil => exact absurd rfl hne
  | cons w r =>
    obtain ⟨whd, wtl⟩ := w
    have hw := hws ⟨whd, wtl⟩ (by simp)
    have hhd : whd ∈ ucChars := (wordOK_parts hw).1
    rw [destChars_eq_tail]
    cases wtl with
    | cons t0 ts =>
      have htlmem : ∀ c ∈ t0 :: ts, c ∈ lcChars := (wordOK_parts hw).2.1
      show matchGroup2 (fun c => c.isAlpha) clsLetterWsComma (wsKwTerm kws)
        (whd :: t0 :: (ts ++ wordsTailChars r ++ ',' :: rest0)) =
        some (whd :: t0 :: (ts ++ wordsTailChars r))
      rw [show matchGroup2 (fun c => c.isAlpha) clsLetterWsComma
          (wsKwTerm kws)
          (whd :: t0 :: (ts ++ wordsTailChars r ++ ',' :: rest0)) =
        (if (fun c => c.isAlpha) whd && clsLetterWsComma t0 then
          growLazy clsLetterWsComma (wsKwTerm kws) [t0, whd]
            (ts ++ wordsTailChars r ++ ',' :: rest0)
        else none) from rfl]
      rw [if_pos (by
        show (whd.isAlpha && clsLetterWsComma t0) = true
        rw [(uc_facts whd hhd).2.1,
          (lc_facts t0 (htlmem t0 (by simp))).2.2.1]
        rfl)]
      rw [List.append_assoc]
      rw [growDest rest0 kws hkws r (fun x hx => hws x (by simp [hx])) ts
        (fun c hc => Or.inr (htlmem c (by simp [hc]))) [t0, whd]]
      rfl
    | nil =>
      cases r with
      | nil => simp [destChars, joinSpace, DWord.chars] at h2
      | cons w2 r2 =>
        have hw2 := hws w2 (by simp)
        have hhd2 := (wordOK_parts hw2).1
        rw [wordsTailChars_cons]
        show matchGroup2 (fun c => c.isAlpha) clsLetterWsComma (wsKwTerm kws)
          (whd :: ' ' :: ((w2.chars ++ wordsTailChars r2) ++ ',' :: rest0))
          = some (whd :: ' ' :: (w2.chars ++ wordsTailChars r2))
        rw [show matchGroup2 (fun c => c.isAlpha) clsLetterWsComma
            (wsKwTerm kws)
            (whd :: ' ' ::
              ((w2.chars ++ wordsTailChars r2) ++ ',' :: rest0)) =
          (if (fun c => c.isAlpha) whd && clsLetterWsComma ' ' then
            growLazy clsLetterWsComma (wsKwTerm kws) [' ', whd]
              ((w2.chars ++ wordsTailChars r2) ++ ',' :: rest0)
          else none) from rfl]
        rw [if_pos (by
          show (whd.isAlpha && clsLetterWsComma ' ') = true
          rw [(uc_facts whd hhd).2.1]
          rfl)]
        rw [List.append_assoc]
        rw [growDest rest0 kws hkws r2 (fun x hx => hws x (by simp [hx]))
          w2.chars (word_chars_mem hw2) [' ', whd]]
        rfl

/-- A single leading whitespace before a non-whitespace character: the
`\s+` of the continuation consumes exactly it. -/
theorem applyNameCont_ws1 (kws : List Chars) {X : Chars} {d : Char}
    {dr : Chars} (hX : X = d :: dr) (hd : isWsChar d = false) :
    applyNameCont kws (' ' :: X) =
      matchGroup2 (fun c => c.isAlpha) clsLetterWsComma (wsKwTerm kws) X := by
  subst hX
  have htw : ((' ' :: (d :: dr)).takeWhile isWsChar) = [' '] := by
    rw [List.takeWhile_cons_of_pos (by decide),
      List.takeWhile_cons_of_neg (by simp [hd])]
  show (let k := ((' ' :: (d :: dr)).takeWhile isWsChar).length;
    if k = 0 then none else
      matchGroup2 (fun c => c.isAlpha) clsLetterWsComma (wsKwTerm kws)
        ((' ' :: (d :: dr)).drop k)) = _
  rw [htw]
  show (if (1 : ℕ) = 0 then none else
    matchGroup2 (fun c => c.isAlpha) clsLetterWsComma (wsKwTerm kws)
      ((' ' :: (d :: dr)).drop 1)) = _
  rw [if_neg (by omega)]
  rfl

theorem dest_head_shape {ws : List DWord}
    (hws : ∀ w ∈ ws, wordOKB w = true) (hne : ws ≠ []) (rest0 : Chars) :
    ∃ d drest, destChars ws ++ ',' :: rest0 = d :: drest ∧
      isWsChar d = false := by
  cases ws with
  | nil => exact absurd rfl hne
  | cons w r =>
    rw [destChars_eq_tail]
    refine ⟨w.hd, w.tl ++ (wordsTailChars r ++ ',' :: rest0), ?_, ?_⟩
    · show (w.hd :: w.tl) ++ wordsTailChars r ++ ',' :: rest0 = _
      simp [List.append_assoc]
    · exact (uc_facts w.hd (wordOK_parts (hws w (by simp))).1).1

/-- The whitespace-then-group continuation after a preposition captures the
canonical destination. -/
theorem applyNameCont_dest {kws : List Chars}
    (hkws : ∀ kw ∈ kws, kw ∈ hazardKws) {ws : List DWord}
    (hws : ∀ w ∈ ws, wordOKB w = true) (hne : ws ≠ [])
    (h2 : 2 ≤ (destChars ws).length) (rest0 : Chars) :
    applyNameCont kws (' ' :: (destChars ws ++ ',' :: rest0)) =
      some (destChars ws) := by
  obtain ⟨d, drest, hX, hd⟩ := dest_head_shape hws hne rest0
  rw [applyNameCont_ws1 kws hX hd]
  exact matchGroup2_dest hkws hws hne h2 rest0

/-- Location pattern 2 matches at position 0 of `in D, ...` and captures the
canonical destination. -/
theorem locPat2_dest {ws : List DWord}
    (hws : ∀ w ∈ ws, wordOKB w = true) (hne : ws ≠ [])
    (h2 : 2 ≤ (destChars ws).length) (rest0 : Chars) :
    locPat2 ("in ".toList ++ (destChars ws ++ ',' :: rest0)) =
      some (destChars ws) := by
  have hin : "in ".toList = ['i', 'n', ' '] := rfl
  rw [hin]
  have hci : startsCI ("in".toList)
      ('i' :: 'n' :: ' ' :: (destChars ws ++ ',' :: rest0)) = true := rfl
  have happ : applyNameCont locPat2TermKws
      (('i' :: 'n' :: ' ' :: (destChars ws ++ ',' :: rest0)).drop
        ("in".toList).length) = some (destChars ws) := by
    rw [show (('i' :: 'n' :: ' ' :: (destChars ws ++ ',' :: rest0)).drop
        ("in".toList).length) = ' ' :: (destChars ws ++ ',' :: rest0)
      from rfl]
    exact applyNameCont_dest locPat2Term_sub_hazard hws hne h2 rest0
  have hstep : altCont (applyNameCont locPat2TermKws) prepKws
      ('i' :: 'n' :: ' ' :: (destChars ws ++ ',' :: rest0)) =
      some (destChars ws) := by
    simp only [prepKws, altCont, hci, if_true, happ]
  show scanPos (fun s => altCont (applyNameCont locPat2TermKws) prepKws s)
    ('i' :: 'n' :: ' ' :: (destChars ws ++ ',' :: rest0)) = _
  exact scanPos_cons_some _ _ _ hstep

/-- The trigger alternation of location pattern 1 fails where none of its
literals matches. -/
theorem trigMatch_none (s : Chars)
    (h : ∀ lit ∈ trigLits, startsWithB lit (lowers s) = false) :
    trigMatch s = none := by
  have hb : ∀ lit ∈ trigLits, startsCI lit s = false := by
    intro lit hlit
    rw [startsCI_lowers,
      show lowers lit = lit from (hazard_kw_facts lit (trig_sub_hazard lit hlit)).2.2]
    exact h lit hlit
  have hlook : startsCI ("looking for".toList) s = false := by
    cases hlf : startsCI ("looking for".toList) s with
    | false => rfl
    | true =>
      rw [startsCI_lowers] at hlf
      have hsp : startsWithB (lowers ("looking".toList) ++
          lowers (" for".toList)) (lowers s) = true := by
        rw [← lowers_append]
        exact hlf
      have h2 := startsWithB_of_append hsp
      rw [show lowers ("looking".toList) = "looking".toList from by decide]
        at h2
      rw [h ("looking".toList) (by decide)] at h2
      exact absurd h2 (by simp)
  have h1 : startsCI ['t', 'o', 'u', 'r'] s = false :=
    hb ("tour".toList) (by decide)
  have h2 : startsCI ['f', 'i', 'n', 'd'] s = false :=
    hb ("find".toList) (by decide)
  have h3 : startsCI ['s', 'e', 'a', 'r', 'c', 'h'] s = false :=
    hb ("search".toList) (by decide)
  have h4 : startsCI ['s', 'h', 'o', 'w'] s = false :=
    hb ("show".toList) (by decide)
  have h5 : startsCI ['b', 'r', 'o', 'w', 's', 'e'] s = false :=
    hb ("browse".toList) (by decide)
  have h6 : startsCI ['l', 'o', 'o', 'k', 'i', 'n', 'g', ' ', 'f', 'o', 'r']
      s = false := hlook
  simp [trigMatch, h1, h2, h3, h4, h5, h6]

/-- Location pattern 1 finds no match anywhere when no trigger literal
occurs in the text. -/
theorem locPat1_none (text : Chars)
    (h : ∀ lit ∈ trigLits, hasTok lit (lowers text) = false) :
    locPat1 text = none := by
  apply scanPos_none_of
  intro i
  have ht : trigMatch (text.drop i) = none := by
    apply trigMatch_none
    intro lit hlit
    rw [lowers_drop]
    exact noStart_of_noTok (h lit hlit) i
  simp [ht]

-- ===== Post-processing of the captured destination =====

theorem rev_nonempty {l : Chars} (hl : l ≠ []) :
    ∃ c r, l.reverse = c :: r := by
  cases hrev : l.reverse with
  | nil =>
    have : l = [] := by
      have := congrArg List.reverse hrev
      simpa using this
    exact absurd this hl
  | cons c r => exact ⟨c, r, rfl⟩

/-- The last character of a canonical destination is a letter. -/
theorem destChars_rev_head {ws : List DWord}
    (hws : ∀ w ∈ ws, wordOKB w = true) (hne : ws ≠ []) :
    ∃ c r, (destChars ws).reverse = c :: r ∧
      (c ∈ ucChars ∨ c ∈ lcChars) := by
  induction ws with
  | nil => exact absurd rfl hne
  | cons w rest ih =>
    cases rest with
    | nil =>
      obtain ⟨whd, wtl⟩ := w
      have hw := hws ⟨whd, wtl⟩ (by simp)
      show ∃ c r, (DWord.chars ⟨whd, wtl⟩).reverse = c :: r ∧ _
      cases htl : wtl.reverse with
      | nil =>
        have : wtl = [] := by
          have := congrArg List.reverse htl
          simpa using this
        refine ⟨whd, [], ?_, Or.inl (wordOK_parts hw).1⟩
        rw [show DWord.chars ⟨whd, wtl⟩ = whd :: wtl from rfl, this]
        rfl
      | cons c r =>
        refine ⟨c, r ++ [whd], ?_, Or.inr ((wordOK_parts hw).2.1 c (by
          rw [← List.mem_reverse, htl]
          simp))⟩
        rw [show DWord.chars ⟨whd, wtl⟩ = whd :: wtl from rfl,
          List.reverse_cons, htl]
        rfl
    | cons w2 r2 =>
      have hne2 : (w2 :: r2 : List DWord) ≠ [] := by simp
      obtain ⟨c, r, hrev, hc⟩ := ih (fun x hx => hws x (by simp [hx])) hne2
      refine ⟨c, r ++ (' ' :: w.chars.reverse), ?_, hc⟩
      rw [show destChars (w :: w2 :: r2) =
        w.chars ++ ' ' :: destChars (w2 :: r2) from by
          rw [destChars_eq_tail, wordsTailChars_cons, ← destChars_eq_tail]]
      rw [show (w.chars ++ ' ' :: destChars (w2 :: r2) : Chars) =
        (w.chars ++ [' ']) ++ destChars (w2 :: r2) from by
          simp [List.append_assoc]]
      rw [List.reverse_append, hrev]
      simp

/-- `strip()` leaves a canonical destination unchanged. -/
theorem stripWs_dest {ws : List DWord}
    (hws : ∀ w ∈ ws, wordOKB w = true) (hne : ws ≠ []) :
    stripWs (destChars ws) = destChars ws := by
  have h1 : (destChars ws).dropWhile isWsChar = destChars ws := by
    cases ws with
    | nil => exact absurd rfl hne
    | cons w r =>
      obtain ⟨whd, wtl⟩ := w
      have hw := hws ⟨whd, wtl⟩ (by simp)
      rw [destChars_eq_tail]
      show ((whd :: wtl) ++ wordsTailChars r).dropWhile isWsChar =
        (whd :: wtl) ++ wordsTailChars r
      rw [show ((whd :: wtl) ++ wordsTailChars r : Chars) =
        whd :: (wtl ++ wordsTailChars r) from rfl]
      rw [List.dropWhile_cons_of_neg (by
        rw [(uc_facts whd (wordOK_parts hw).1).1]
        exact Bool.false_ne_true)]
  have h2 : (destChars ws).reverse.dropWhile isWsChar =
      (destChars ws).reverse := by
    obtain ⟨c, r, hrev, hc⟩ := destChars_rev_head hws hne
    rw [hrev]
    rw [List.dropWhile_cons_of_neg (by
      rw [(canon_char_facts hc).1]
      exact Bool.false_ne_true)]
  unfold stripWs
  rw [h1, h2, List.reverse_reverse]

/-- With no whitespace-keyword occurrence anywhere, the cleanup rewrite is
the identity. -/
theorem cleanupSubF_id (fuel : ℕ) (s : Chars) (hf : s.length ≤ fuel)
    (H : ∀ j, ∀ kw ∈ cleanupKws, startsCI kw (s.drop j) = false) :
    cleanupSubF fuel s = s := by
  induction fuel generalizing s with
  | zero =>
    have : s = [] := List.length_eq_zero.mp (by omega)
    rw [this]
    rfl
  | succ fuel ih =>
    cases s with
    | nil => rfl
    | cons c rest =>
      have hfind : cleanupKws.findSome? (fun kw =>
          if startsCI kw (rest.dropWhile isWsChar) then some kw.length
          else none) = none := by
        rw [List.findSome?_eq_none_iff]
        intro kw hkw
        rw [if_neg (by
          rw [dropWhile_eq_drop]
          have := H (1 + (rest.takeWhile isWsChar).length) kw hkw
          rw [show ((c :: rest).drop
            (1 + (rest.takeWhile isWsChar).length)) =
            rest.drop (rest.takeWhile isWsChar).length from by
              rw [Nat.add_comm]
              rfl] at this
          rw [this]
          exact Bool.false_ne_true)]
      have hlen : rest.length ≤ fuel := by
        simp only [List.length_cons] at hf
        omega
      have hrest := ih rest hlen (fun j kw hkw => H (j + 1) kw hkw)
      by_cases hc : isWsChar c = true
      · simp only [cleanupSubF, hc, if_true, hfind, hrest]
      · simp only [cleanupSubF, hc, Bool.false_eq_true, if_false, hrest]

theorem cleanupSub_dest {ws : List DWord}
    (hws : ∀ w ∈ ws, wordOKB w = true) :
    cleanupSub (destChars ws) = destChars ws := by
  apply cleanupSubF_id _ _ (le_refl _)
  intro j kw hkw
  have hh := cleanup_sub_hazard kw hkw
  rw [startsCI_lowers, (hazard_kw_facts kw hh).2.2, lowers_drop]
  exact noStart_of_noTok (lowD_noTok hws kw hh) j

/-- `str.split()` of a canonical destination recovers the word list. -/
theorem splitWsAux_words :
    ∀ (ws' : List DWord), (∀ w ∈ ws', wordOKB w = true) →
    ∀ (wtl : Chars), (∀ c ∈ wtl, c ∈ ucChars ∨ c ∈ lcChars) →
    ∀ (acc : Chars), acc ≠ [] →
      splitWsAux acc (wtl ++ wordsTailChars ws') =
        (acc.reverse ++ wtl) :: ws'.map DWord.chars := by
  intro ws'
  induction ws' with
  | nil =>
    intro _ wtl
    induction wtl with
    | nil =>
      intro _ acc hacc
      show splitWsAux acc [] = _
      simp only [splitWsAux]
      rw [if_neg (by simpa [List.isEmpty_iff] using hacc)]
      simp [wordsTailChars_nil]
    | cons c ct ihtl =>
      intro hct acc hacc
      show splitWsAux acc (c :: (ct ++ wordsTailChars [])) = _
      simp only [splitWsAux]
      rw [if_neg (by
        rw [(canon_char_facts (hct c (by simp))).1]
        exact Bool.false_ne_true)]
      rw [ihtl (fun x hx => hct x (by simp [hx])) (c :: acc) (by simp)]
      simp [List.append_assoc]
  | cons w2 r2 ihws =>
    intro hws wtl
    induction wtl with
    | nil =>
      intro _ acc hacc
      show splitWsAux acc (' ' :: (w2.chars ++ wordsTailChars r2)) = _
      simp only [splitWsAux]
      rw [if_pos (by decide)]
      rw [if_neg (by simpa [List.isEmpty_iff] using hacc)]
      obtain ⟨whd, wtl2⟩ := w2
      have hw2 := hws ⟨whd, wtl2⟩ (by simp)
      show acc.reverse ::
        splitWsAux [] (whd :: (wtl2 ++ wordsTailChars r2)) = _
      rw [show splitWsAux [] (whd :: (wtl2 ++ wordsTailChars r2)) =
        splitWsAux [whd] (wtl2 ++ wordsTailChars r2) from by
          simp only [splitWsAux]
          rw [if_neg (by
            rw [(uc_facts whd (wordOK_parts hw2).1).1]
            exact Bool.false_ne_true)]]
      rw [ihws (fun x hx => hws x (by simp [hx])) wtl2
        (fun c hc => Or.inr ((wordOK_parts hw2).2.1 c hc)) [whd] (by simp)]
      simp [wordsTailChars_cons, DWord.chars]
    | cons c ct ihtl =>
      intro hct acc hacc
      show splitWsAux acc (c :: (ct ++ wordsTailChars (w2 :: r2))) = _
      simp only [splitWsAux]
      rw [if_neg (by
        rw [(canon_char_facts (hct c (by simp))).1]
        exact Bool.false_ne_true)]
      rw [ihtl (fun x hx => hct x (by simp [hx])) (c :: acc) (by simp)]
      simp [List.append_assoc]

theorem splitWs_dest {ws : List DWord}
    (hws : ∀ w ∈ ws, wordOKB w = true) (hne : ws ≠ []) :
    splitWs (destChars ws) = ws.map DWord.chars := by
  cases ws with
  | nil => exact absurd rfl hne
  | cons w r =>
    obtain ⟨whd, wtl⟩ := w
    have hw := hws ⟨whd, wtl⟩ (by simp)
    rw [destChars_eq_tail]
    show splitWsAux [] (whd :: (wtl ++ wordsTailChars r)) = _
    rw [show splitWsAux [] (whd :: (wtl ++ wordsTailChars r)) =
      splitWsAux [whd] (wtl ++ wordsTailChars r) from by
        simp only [splitWsAux]
        rw [if_neg (by
          rw [(uc_facts whd (wordOK_parts hw).1).1]
          exact Bool.false_ne_true)]]
    rw [splitWsAux_words r (fun x hx => hws x (by simp [hx])) wtl
      (fun c hc => Or.inr ((wordOK_parts hw).2.1 c hc)) [whd] (by simp)]
    rfl

theorem capWord_canon {w : DWord} (h : wordOKB w = true) :
    capWord w.chars = w.chars := by
  show capWord (w.hd :: w.tl) = w.hd :: w.tl
  show w.hd.toUpper :: w.tl.map Char.toLower = w.hd :: w.tl
  rw [(uc_facts w.hd (wordOK_parts h).1).2.2.2.1]
  rw [map_id_of_mem (fun c hc =>
    (lc_facts c ((wordOK_parts h).2.1 c hc)).2.2.2.1)]

theorem capitalizeWords_dest {ws : List DWord}
    (hws : ∀ w ∈ ws, wordOKB w = true) (hne : ws ≠ []) :
    capitalizeWords (destChars ws) = destChars ws := by
  unfold capitalizeWords
  rw [splitWs_dest hws hne, List.map_map]
  rw [show ws.map (capWord ∘ DWord.chars) = ws.map DWord.chars from
    List.map_congr_left (fun w hw => capWord_canon (hws w hw))]
  rfl

/-- The captured canonical destination survives cleanup and acceptance. -/
theorem destFromCapture_dest {ws : List DWord}
    (hws : ∀ w ∈ ws, wordOKB w = true) (hne : ws ≠ [])
    (h3 : 3 ≤ (destChars ws).length) :
    destFromCapture (destChars ws) =
      some (destChars ws, decide (ws.length ≤ 3)) := by
  have e1 := stripWs_dest hws hne
  have e2 := cleanupSub_dest hws
  have e3 := capitalizeWords_dest hws hne
  simp only [destFromCapture, e1, e2, e3]
  rw [if_pos (by omega)]
  rw [splitWs_dest hws hne, List.length_map]

/-- On `in D, ...` text with no trigger literal anywhere, extraction returns
the canonical destination. -/
theorem extractDestination_dest {ws : List DWord}
    (hws : ∀ w ∈ ws, wordOKB w = true) (hne : ws ≠ [])
    (h3 : 3 ≤ (destChars ws).length) (rest0 : Chars)
    (htrig : ∀ lit ∈ trigLits, hasTok lit
      (lowers ("in ".toList ++ (destChars ws ++ ',' :: rest0))) = false) :
    extractDestination ("in ".toList ++ (destChars ws ++ ',' :: rest0)) =
      some (destChars ws, decide (ws.length ≤ 3)) := by
  simp only [extractDestination, locPat1_none _ htrig,
    locPat2_dest hws hne (by omega) rest0, Option.none_bind,
    Option.some_bind, destFromCapture_dest hws hne h3]

-- ===== The rendered text, segment by segment =====

/-- Renderer output for the four optional canonical fields, in explicit
segment form. -/
def renderText (d : Option (List DWord)) (t : Option Chars)
    (m M : Option ℕ) : Chars :=
  (match d with
    | some ws => ("in ".toList) ++ (destChars ws ++ (", ".toList))
    | none => []) ++
  ((match t with
    | some T => T ++ (" type, ".toList)
    | none => []) ++
  ((match m with
    | some x => ("budget above $".toList) ++ (natStr x ++ [' '])
    | none => []) ++
  (match M with
    | some y => ("budget below $".toList) ++ natStr y
    | none => [])))

def lowWordPairs : List DWord → List (Chars × Char)
  | [] => []
  | [w] => [(lowers w.chars, ',')]
  | w :: r => (lowers w.chars, ' ') :: lowWordPairs r

def destSegPairs (d : Option (List DWord)) : List (Chars × Char) :=
  match d with
  | none => []
  | some ws => (("in".toList, ' ')) :: (lowWordPairs ws ++ [(([] : Chars), ' ')])

def typeSegPairs (t : Option Chars) : List (Chars × Char) :=
  match t with
  | none => []
  | some T => [(T, ' '), ("type".toList, ','), (([] : Chars), ' ')]

def minSegPairs (m : Option ℕ) : List (Chars × Char) :=
  match m with
  | none => []
  | some x => [("budget".toList, ' '), ("above".toList, ' '),
      (([] : Chars), '$'), (natStr x, ' ')]

def maxSegPairs (M : Option ℕ) : List (Chars × Char) :=
  match M with
  | none => []
  | some _ => [("budget".toList, ' '), ("below".toList, ' '),
      (([] : Chars), '$')]

def maxTail (M : Option ℕ) : Chars :=
  match M with
  | none => []
  | some y => natStr y

def renderPairs (d : Option (List DWord)) (t : Option Chars)
    (m M : Option ℕ) : List (Chars × Char) :=
  destSegPairs d ++ (typeSegPairs t ++ (minSegPairs m ++ maxSegPairs M))

theorem destChars_cons2 (w w2 : DWord) (r2 : List DWord) :
    destChars (w :: w2 :: r2) = w.chars ++ ' ' :: destChars (w2 :: r2) := by
  rw [destChars_eq_tail, wordsTailChars_cons, ← destChars_eq_tail]

theorem wsflat_lowWords (ws : List DWord) (hne : ws ≠ []) (X : Chars) :
    wsflat (lowWordPairs ws) X = lowers (destChars ws) ++ ',' :: X := by
  induction ws with
  | nil => exact absurd rfl hne
  | cons w r ih =>
    cases r with
    | nil => rfl
    | cons w2 r2 =>
      show wsflat ((lowers w.chars, ' ') :: lowWordPairs (w2 :: r2)) X = _
      rw [wsflat_cons, ih (by simp)]
      rw [destChars_cons2, lowers_append, lowers_cons, toLower_space]
      simp [List.append_assoc]

theorem lowers_literal_inSeg : lowers ("in ".toList) = "in ".toList := by
  decide

theorem lowers_literal_typeSeg :
    lowers (" type, ".toList) = " type, ".toList := by decide

theorem lowers_literal_minSeg :
    lowers ("budget above $".toList) = "budget above $".toList := by decide

theorem lowers_literal_maxSeg :
    lowers ("budget below $".toList) = "budget below $".toList := by decide

theorem destSeg_eq (ws : List DWord) (hne : ws ≠ []) (X : Chars) :
    lowers (("in ".toList) ++ (destChars ws ++ (", ".toList))) ++ X =
      wsflat (destSegPairs (some ws)) X := by
  show _ = wsflat ((("in".toList, ' ')) ::
    (lowWordPairs ws ++ [(([] : Chars), ' ')])) X
  rw [wsflat_cons, wsflat_append, wsflat_lowWords ws hne]
  show _ = "in".toList ++ ' ' :: (lowers (destChars ws) ++
    ',' :: (([] : Chars) ++ ' ' :: X))
  rw [lowers_append, lowers_append, lowers_literal_inSeg]
  rw [show lowers (", ".toList) = [',', ' '] from by decide]
  simp [List.append_assoc]

theorem typeSeg_eq (T : Chars) (hlow : lowers T = T) (X : Chars) :
    lowers (T ++ (" type, ".toList)) ++ X =
      wsflat (typeSegPairs (some T)) X := by
  show _ = wsflat [(T, ' '), ("type".toList, ','), (([] : Chars), ' ')] X
  rw [wsflat_cons, wsflat_cons, wsflat_cons]
  rw [lowers_append, hlow, lowers_literal_typeSeg]
  show T ++ (" type, ".toList) ++ X =
    T ++ ' ' :: ("type".toList ++ ',' :: (([] : Chars) ++ ' ' :: X))
  simp [List.append_assoc]

theorem minSeg_eq (x : ℕ) (X : Chars) :
    lowers (("budget above $".toList) ++ (natStr x ++ [' '])) ++ X =
      wsflat (minSegPairs (some x)) X := by
  show _ = wsflat [("budget".toList, ' '), ("above".toList, ' '),
    (([] : Chars), '$'), (natStr x, ' ')] X
  rw [wsflat_cons, wsflat_cons, wsflat_cons, wsflat_cons]
  rw [lowers_append, lowers_append, lowers_literal_minSeg, lowers_natStr]
  show ("budget above $".toList) ++ (natStr x ++ lowers [' ']) ++ X =
    "budget".toList ++ ' ' :: ("above".toList ++
      ' ' :: (([] : Chars) ++ '$' :: (natStr x ++ ' ' :: X)))
  rw [show lowers [' '] = [' '] from by decide]
  simp [List.append_assoc]

theorem maxSeg_eq (y : ℕ) :
    lowers (("budget below $".toList) ++ natStr y) =
      wsflat (maxSegPairs (some y)) (maxTail (some y)) := by
  show _ = wsflat [("budget".toList, ' '), ("below".toList, ' '),
    (([] : Chars), '$')] (natStr y)
  rw [wsflat_cons, wsflat_cons, wsflat_cons]
  rw [lowers_append, lowers_literal_maxSeg, lowers_natStr]
  show ("budget below $".toList) ++ natStr y =
    "budget".toList ++ ' ' :: ("below".toList ++
      ' ' :: (([] : Chars) ++ '$' :: natStr y))
  simp [List.append_assoc]

/-- The case-folded rendered text in separator-joined form. -/
theorem lowersRenderText (d : Option (List DWord)) (t : Option Chars)
    (m M : Option ℕ) (hdne : ∀ ws, d = some ws → ws ≠ [])
    (htl : ∀ T, t = some T → lowers T = T) :
    lowers (renderText d t m M) =
      wsflat (renderPairs d t m M) (maxTail M) := by
  have hmax : lowers (match M with
      | some y => ("budget below $".toList) ++ natStr y
      | none => []) = wsflat (maxSegPairs M) (maxTail M) := by
    cases M with
    | none => rfl
    | some y => exact maxSeg_eq y
  have hmin : ∀ X, lowers (match m with
      | some x => ("budget above $".toList) ++ (natStr x ++ [' '])
      | none => []) ++ X = wsflat (minSegPairs m) X := by
    intro X
    cases m with
    | none => rfl
    | some x => exact minSeg_eq x X
  have htyp : ∀ X, lowers (match t with
      | some T => T ++ (" type, ".toList)
      | none => []) ++ X = wsflat (typeSegPairs t) X := by
    intro X
    cases t with
    | none => rfl
    | some T => exact typeSeg_eq T (htl T rfl) X
  have hdst : ∀ X, lowers (match d with
      | some ws => ("in ".toList) ++ (destChars ws ++ (", ".toList))
      | none => []) ++ X = wsflat (destSegPairs d) X := by
    intro X
    cases d with
    | none => rfl
    | some ws => exact destSeg_eq ws (hdne ws rfl) X
  unfold renderText renderPairs
  rw [lowers_append, lowers_append, lowers_append]
  rw [wsflat_append, wsflat_append, wsflat_append]
  rw [hmax, hmin, htyp, hdst]

-- ===== Keyword absence in the rendered text =====

theorem hasTok_nil_of_ne {pat : Chars} (h : pat ≠ []) :
    hasTok pat ([] : Chars) = false := by
  cases pat with
  | nil => exact absurd rfl h
  | cons p ps => rfl

theorem lowWordPairs_seps (ws : List DWord) :
    ∀ p ∈ lowWordPairs ws, p.2 ∈ sepChars := by
  induction ws with
  | nil => intro p hp; exact absurd hp (by simp [lowWordPairs])
  | cons w r ih =>
    cases r with
    | nil =>
      intro p hp
      rw [show lowWordPairs [w] = [(lowers w.chars, ',')] from rfl] at hp
      rw [List.mem_singleton] at hp
      rw [hp]
      show ',' ∈ sepChars
      decide
    | cons w2 r2 =>
      intro p hp
      rw [show lowWordPairs (w :: w2 :: r2) =
        (lowers w.chars, ' ') :: lowWordPairs (w2 :: r2) from rfl] at hp
      rcases List.mem_cons.mp hp with rfl | hp
      · show ' ' ∈ sepChars
        decide
      · exact ih p hp

theorem renderPairs_seps (d : Option (List DWord)) (t : Option Chars)
    (m M : Option ℕ) : ∀ p ∈ renderPairs d t m M, p.2 ∈ sepChars := by
  intro p hp
  unfold renderPairs at hp
  rcases List.mem_append.mp hp with hp | hp
  · cases d with
    | none => exact absurd hp (by simp [destSegPairs])
    | some ws =>
      rcases List.mem_cons.mp hp with rfl | hp
      · show ' ' ∈ sepChars
        decide
      · rcases List.mem_append.mp hp with hp | hp
        · exact lowWordPairs_seps ws p hp
        · rw [List.mem_singleton] at hp
          rw [hp]
          show ' ' ∈ sepChars
          decide
  rcases List.mem_append.mp hp with hp | hp
  · cases t with
    | none => exact absurd hp (by simp [typeSegPairs])
    | some T =>
      simp only [typeSegPairs, List.mem_cons, List.mem_singleton,
        List.not_mem_nil, or_false] at hp
      rcases hp with rfl | rfl | rfl
      · show ' ' ∈ sepChars
        decide
      · show ',' ∈ sepChars
        decide
      · show ' ' ∈ sepChars
        decide
  rcases List.mem_append.mp hp with hp | hp
  · cases m with
    | none => exact absurd hp (by simp [minSegPairs])
    | some x =>
      simp only [minSegPairs, List.mem_cons, List.mem_singleton,
        List.not_mem_nil, or_false] at hp
      rcases hp with rfl | rfl | rfl | rfl
      · show ' ' ∈ sepChars
        decide
      · show ' ' ∈ sepChars
        decide
      · show '$' ∈ sepChars
        decide
      · show ' ' ∈ sepChars
        decide
  · cases M with
    | none => exact absurd hp (by simp [maxSegPairs])
    | some y =>
      simp only [maxSegPairs, List.mem_cons, List.mem_singleton,
        List.not_mem_nil, or_false] at hp
      rcases hp with rfl | rfl | rfl
      · show ' ' ∈ sepChars
        decide
      · show ' ' ∈ sepChars
        decide
      · show '$' ∈ sepChars
        decide

theorem lowWordPairs_any {pat : Chars} (ws : List DWord)
    (h : ∀ w ∈ ws, hasTok pat (lowers w.chars) = false) :
    (lowWordPairs ws).any (fun p => hasTok pat p.1) = false := by
  induction ws with
  | nil => rfl
  | cons w r ih =>
    cases r with
    | nil =>
      rw [show lowWordPairs [w] = [(lowers w.chars, ',')] from rfl]
      rw [List.any_cons]
      show (hasTok pat (lowers w.chars) || List.any [] _) = false
      rw [h w (by simp)]
      rfl
    | cons w2 r2 =>
      rw [show lowWordPairs (w :: w2 :: r2) =
        (lowers w.chars, ' ') :: lowWordPairs (w2 :: r2) from rfl]
      rw [List.any_cons]
      show (hasTok pat (lowers w.chars) ||
        (lowWordPairs (w2 :: r2)).any fun p => hasTok pat p.1) = false
      rw [h w (by simp), ih (fun x hx => h x (by simp [hx]))]
      rfl

theorem destSegPairs_any {pat : Chars} (hne : pat ≠ [])
    (d : Option (List DWord))
    (hwords : ∀ ws, d = some ws →
      ∀ w ∈ ws, hasTok pat (lowers w.chars) = false)
    (hin : hasTok pat ("in".toList) = false) :
    (destSegPairs d).any (fun p => hasTok pat p.1) = false := by
  cases d with
  | none => rfl
  | some ws =>
    show ((("in".toList, ' ')) ::
      (lowWordPairs ws ++ [(([] : Chars), ' ')])).any
        (fun p => hasTok pat p.1) = false
    rw [List.any_cons, List.any_append]
    show (hasTok pat ("in".toList) ||
      (((lowWordPairs ws).any fun p => hasTok pat p.1) ||
        List.any [(([] : Chars), ' ')] fun p => hasTok pat p.1)) = false
    rw [hin, lowWordPairs_any ws (hwords ws rfl), List.any_cons]
    show (false || (false || (hasTok pat ([] : Chars) || List.any [] _))) =
      false
    rw [hasTok_nil_of_ne hne]
    rfl

theorem typeSegPairs_any {pat : Chars} (hne : pat ≠ []) (t : Option Chars)
    (hT : ∀ T, t = some T → hasTok pat T = false)
    (htype : hasTok pat ("type".toList) = false) :
    (typeSegPairs t).any (fun p => hasTok pat p.1) = false := by
  cases t with
  | none => rfl
  | some T =>
    show ([(T, ' '), ("type".toList, ','), (([] : Chars), ' ')]).any
      (fun p => hasTok pat p.1) = false
    rw [List.any_cons, List.any_cons, List.any_cons]
    show (hasTok pat T || (hasTok pat ("type".toList) ||
      (hasTok pat ([] : Chars) || List.any [] _))) = false
    rw [hT T rfl, htype, hasTok_nil_of_ne hne]
    rfl

theorem minSegPairs_any {pat : Chars} (hne : pat ≠ [])
    (hlc : ∀ c ∈ pat, c ∈ lcChars) (m : Option ℕ)
    (hbud : hasTok pat ("budget".toList) = false)
    (habove : hasTok pat ("above".toList) = false) :
    (minSegPairs m).any (fun p => hasTok pat p.1) = false := by
  cases m with
  | none => rfl
  | some x =>
    have hns : hasTok pat (natStr x) = false :=
      hasTok_sep_chunk hne hlc
        (fun c hc => (digit_facts c (natStr_mem x c hc)).2.2.2)
    show ([("budget".toList, ' '), ("above".toList, ' '),
      (([] : Chars), '$'), (natStr x, ' ')]).any
        (fun p => hasTok pat p.1) = false
    rw [List.any_cons, List.any_cons, List.any_cons, List.any_cons]
    show (hasTok pat ("budget".toList) || (hasTok pat ("above".toList) ||
      (hasTok pat ([] : Chars) || (hasTok pat (natStr x) ||
        List.any [] _)))) = false
    rw [hbud, habove, hns, hasTok_nil_of_ne hne]
    rfl

theorem maxSegPairs_any {pat : Chars} (hne : pat ≠ []) (M : Option ℕ)
    (hbud : hasTok pat ("budget".toList) = false)
    (hbelow : hasTok pat ("below".toList) = false) :
    (maxSegPairs M).any (fun p => hasTok pat p.1) = false := by
  cases M with
  | none => rfl
  | some y =>
    show ([("budget".toList, ' '), ("below".toList, ' '),
      (([] : Chars), '$')]).any (fun p => hasTok pat p.1) = false
    rw [List.any_cons, List.any_cons, List.any_cons]
    show (hasTok pat ("budget".toList) || (hasTok pat ("below".toList) ||
      (hasTok pat ([] : Chars) || List.any [] _))) = false
    rw [hbud, hbelow, hasTok_nil_of_ne hne]
    rfl

theorem maxTail_noTok {pat : Chars} (hne : pat ≠ [])
    (hlc : ∀ c ∈ pat, c ∈ lcChars) (M : Option ℕ) :
    hasTok pat (maxTail M) = false := by
  cases M with
  | none => exact hasTok_nil_of_ne hne
  | some y =>
    exact hasTok_sep_chunk hne hlc
      (fun c hc => (digit_facts c (natStr_mem y c hc)).2.2.2)

/-- A hazard keyword absent from the canonical field values never occurs in
the case-folded rendered text. -/
theorem renderText_noTok (d : Option (List DWord)) (t : Option Chars)
    (m M : Option ℕ)
    (hd : ∀ ws, d = some ws → (∀ w ∈ ws, wordOKB w = true) ∧ ws ≠ [])
    (htl : ∀ T, t = some T → lowers T = T)
    {pat : Chars} (hmem : pat ∈ hazardKws)
    (hT : ∀ T, t = some T → hasTok pat T = false)
    (hin : hasTok pat ("in".toList) = false)
    (htype : hasTok pat ("type".toList) = false)
    (hbud : hasTok pat ("budget".toList) = false)
    (habove : hasTok pat ("above".toList) = false)
    (hbelow : hasTok pat ("below".toList) = false) :
    hasTok pat (lowers (renderText d t m M)) = false := by
  obtain ⟨hne, hlc, _⟩ := hazard_kw_facts pat hmem
  rw [lowersRenderText d t m M (fun ws hws => (hd ws hws).2) htl]
  rw [hasTok_wsflat hlc _ (renderPairs_seps d t m M) _]
  unfold renderPairs
  rw [List.any_append, List.any_append, List.any_append]
  rw [destSegPairs_any hne d
    (fun ws hws w hw => word_low_noTok ((hd ws hws).1 w hw) pat hmem) hin]
  rw [typeSegPairs_any hne t hT htype]
  rw [minSegPairs_any hne hlc m hbud habove]
  rw [maxSegPairs_any hne M hbud hbelow]
  rw [maxTail_noTok hne hlc M]
  rfl

-- ===== Tour-type extraction from the rendered text =====

theorem renderText_hasT (d : Option (List DWord)) (T : Chars)
    (m M : Option ℕ) (hlow : lowers T = T) :
    hasTok T (lowers (renderText d (some T) m M)) = true := by
  have hshape : lowers (renderText d (some T) m M) =
      lowers (match d with
        | some ws => ("in ".toList) ++ (destChars ws ++ (", ".toList))
        | none => ([] : Chars)) ++
      (T ++ (lowers (" type, ".toList) ++ lowers ((match m with
        | some x => ("budget above $".toList) ++ (natStr x ++ [' '])
        | none => ([] : Chars)) ++ (match M with
        | some y => ("budget below $".toList) ++ natStr y
        | none => ([] : Chars))))) := by
    simp only [renderText, lowers_append, hlow, List.append_assoc]
  rw [hshape]
  exact hasTok_sandwich T _ _

theorem find?_unique {α : Type} [DecidableEq α] (p : α → Bool) (l : List α)
    (T : α) (hmem : T ∈ l) (hT : p T = true)
    (hothers : ∀ t ∈ l, t ≠ T → p t = false) : l.find? p = some T := by
  induction l with
  | nil => exact absurd hmem (by simp)
  | cons a r ih =>
    by_cases ha : a = T
    · subst ha
      rw [List.find?_cons_of_pos _ hT]
    · rw [List.find?_cons_of_neg _ (by
        rw [hothers a (by simp) ha]
        exact Bool.false_ne_true)]
      refine ih ?_ (fun t ht htn => hothers t (by simp [ht]) htn)
      rcases List.mem_cons.mp hmem with h | h
      · exact absurd h.symm ha
      · exact h

theorem ttype_pairwise : ∀ t1 ∈ tourTypesList, ∀ t2 ∈ tourTypesList,
    t1 = t2 ∨ hasTok t1 t2 = false := by decide

theorem trig_concrete : ∀ kw ∈ trigLits,
    hasTok kw ("in".toList) = false ∧ hasTok kw ("type".toList) = false ∧
    hasTok kw ("budget".toList) = false ∧
    hasTok kw ("above".toList) = false ∧
    hasTok kw ("below".toList) = false := by decide

theorem ttype_concrete : ∀ kw ∈ tourTypesList,
    hasTok kw ("in".toList) = false ∧ hasTok kw ("type".toList) = false ∧
    hasTok kw ("budget".toList) = false ∧
    hasTok kw ("above".toList) = false ∧
    hasTok kw ("below".toList) = false := by decide

theorem budget_concrete : ∀ kw ∈ budgetKws,
    hasTok kw ("in".toList) = false ∧
    hasTok kw ("type".toList) = false := by decide

theorem nontype_vs_ttype : ∀ kw ∈ hazardKws, kw ∉ tourTypesList →
    ∀ T ∈ tourTypesList, hasTok kw T = false := by decide

/-- The tour-type loop recovers the rendered type: it occurs in the text,
and no other supported type does. -/
theorem renderType_find (d : Option (List DWord)) (T : Chars)
    (m M : Option ℕ)
    (hd : ∀ ws, d = some ws → (∀ w ∈ ws, wordOKB w = true) ∧ ws ≠ [])
    (hTmem : T ∈ tourTypesList) :
    tourTypesList.find?
      (fun tt => hasTok tt (lowers (renderText d (some T) m M))) =
      some T := by
  have hTlow : lowers T = T :=
    (hazard_kw_facts T (ttype_sub_hazard T hTmem)).2.2
  apply find?_unique _ _ _ hTmem
  · exact renderText_hasT d T m M hTlow
  · intro t ht htn
    have htmem := ttype_sub_hazard t ht
    have hconc := ttype_concrete t ht
    show hasTok t (lowers (renderText d (some T) m M)) = false
    apply renderText_noTok d (some T) m M hd
      (by
        intro T0 h0
        injection h0 with h0
        rw [← h0]
        exact hTlow)
      htmem
      (by
        intro T0 h0
        injection h0 with h0
        subst h0
        rcases ttype_pairwise t ht T hTmem with he | hf
        · exact absurd he htn
        · exact hf)
      hconc.1 hconc.2.1 hconc.2.2.1 hconc.2.2.2.1 hconc.2.2.2.2

-- ===== Budget extraction from the rendered text =====

theorem lazyFind_cons_none {α : Type} (inner : Chars → Option α) {c : Char}
    (rest : Chars) (h : inner (c :: rest) = none) (hc : c ≠ '\n') :
    lazyFind inner (c :: rest) = lazyFind inner rest := by
  simp only [lazyFind, h]
  rw [if_neg hc]

theorem lazyFind_cons_some {α : Type} (inner : Chars → Option α) {c : Char}
    {rest : Chars} {v : α} (h : inner (c :: rest) = some v) :
    lazyFind inner (c :: rest) = some v := by
  simp only [lazyFind, h]

theorem altCont_head_hit {α : Type} (cont : Chars → Option α) (kw : Chars)
    (kws : List Chars) (s : Chars) (h : startsCI kw s = true) {v : α}
    (hc : cont (s.drop kw.length) = some v) :
    altCont cont (kw :: kws) s = some v := by
  simp only [altCont, h, if_true, hc]

theorem spanDigits_natStr_sep (x : ℕ) (S : Chars) :
    spanDigits (natStr x ++ ' ' :: S) = (natStr x, ' ' :: S) := by
  unfold spanDigits
  rw [List.takeWhile_append, takeWhile_all
    (fun c hc => (digit_facts c (natStr_mem x c hc)).1), if_pos rfl,
    List.takeWhile_cons_of_neg (by decide)]
  rw [List.dropWhile_append, dropWhile_all
    (fun c hc => (digit_facts c (natStr_mem x c hc)).1)]
  rw [List.dropWhile_cons_of_neg (by decide)]
  simp

theorem spanDigits_natStr_end (x : ℕ) :
    spanDigits (natStr x) = (natStr x, []) := by
  unfold spanDigits
  rw [takeWhile_all (fun c hc => (digit_facts c (natStr_mem x c hc)).1),
    dropWhile_all (fun c hc => (digit_facts c (natStr_mem x c hc)).1)]

theorem commaGroups_space (S : Chars) :
    commaGroups [] (' ' :: S) = ([], ' ' :: S) := by
  cases S with
  | nil => rfl
  | cons a as =>
    cases as with
    | nil => rfl
    | cons b bs =>
      cases bs with
      | nil => rfl
      | cons e es => rfl

theorem moneyTok_natStr (x : ℕ) (tail : Chars)
    (hspan : spanDigits (natStr x ++ tail) = (natStr x, tail))
    (hcg : commaGroups [] tail = ([], tail)) :
    moneyTok (natStr x ++ tail) = some ((x : ℚ)) := by
  rw [show moneyTok (natStr x ++ tail) =
    (match spanDigits (natStr x ++ tail) with
      | ([], _) => none
      | (ds, rest) =>
        some ((digitsVal (ds ++ (commaGroups [] rest).1) : ℕ) : ℚ))
    from rfl]
  rw [hspan]
  cases hn : natStr x with
  | nil => exact absurd hn (natStr_ne_nil x)
  | cons dc ds =>
    show some ((digitsVal ((dc :: ds) ++ (commaGroups [] tail).1) : ℕ) : ℚ)
      = some ((x : ℚ))
    rw [hcg]
    rw [List.append_nil, ← hn, natStr_val]

theorem moneyCont_dollar (x : ℕ) (tail : Chars)
    (hspan : spanDigits (natStr x ++ tail) = (natStr x, tail))
    (hcg : commaGroups [] tail = ([], tail)) :
    moneyCont (' ' :: '$' :: (natStr x ++ tail)) = some ((x : ℚ)) := by
  unfold moneyCont
  rw [List.dropWhile_cons_of_pos (by decide),
    List.dropWhile_cons_of_neg (by decide)]
  exact moneyTok_natStr x tail hspan hcg

/-- The minimum-budget regex step succeeds at the head of its rendered
segment. -/
theorem stepMin_pos (x : ℕ) (S : Chars) :
    altCont (fun r => lazyFind (fun r2 => altCont moneyCont minKws r2) r)
      budgetKws (("budget above $".toList) ++ (natStr x ++ ' ' :: S)) =
      some ((x : ℚ)) := by
  have hmoney : moneyCont (' ' :: '$' :: (natStr x ++ ' ' :: S)) =
      some ((x : ℚ)) :=
    moneyCont_dollar x (' ' :: S) (spanDigits_natStr_sep x S)
      (commaGroups_space S)
  have hinner1 : altCont moneyCont minKws
      ('a' :: 'b' :: 'o' :: 'v' :: 'e' :: ' ' :: '$' ::
        (natStr x ++ ' ' :: S)) = some ((x : ℚ)) := by
    apply altCont_head_hit moneyCont ("above".toList) _ _ (by rfl)
    exact hmoney
  apply altCont_head_hit _ ("budget".toList) _ _ (by rfl)
  rw [show ((("budget above $".toList) ++ (natStr x ++ ' ' :: S)).drop
      ("budget".toList).length) =
    ' ' :: 'a' :: 'b' :: 'o' :: 'v' :: 'e' :: ' ' :: '$' ::
      (natStr x ++ ' ' :: S) from rfl]
  rw [lazyFind_cons_none _ _ rfl (by decide)]
  exact lazyFind_cons_some _ hinner1

/-- The hunt for a budget keyword steps over a digit run. -/
theorem hunt_skip_digits (kws : List Chars)
    (hkws : ∀ kw ∈ kws, kw ≠ [] ∧ kw.headD 'a' ∈ lcChars) (x : ℕ)
    (X : Chars) :
    lazyFind (fun r2 => altCont moneyCont kws r2) (natStr x ++ X) =
      lazyFind (fun r2 => altCont moneyCont kws r2) X := by
  apply lazyFind_skip
  · intro i hi
    rw [List.drop_append_of_le_length (le_of_lt hi),
      List.drop_eq_getElem_cons hi]
    show altCont moneyCont kws
      ((natStr x)[i] :: ((natStr x).drop (i + 1) ++ X)) = none
    have hdig := digit_facts _ (natStr_mem x _ (List.getElem_mem hi))
    exact altCont_none_sep_head moneyCont kws
      (fun kw hkw => head_shape_of_facts (hkws kw hkw).1 (hkws kw hkw).2)
      hdig.2.2.2 hdig.2.1 _
  · intro c hc
    have := (digit_facts c (natStr_mem x c hc)).2.2.1
    intro hcn
    rw [hcn] at this
    simp at this

/-- The maximum-budget regex step succeeds at the head of its rendered
segment when no minimum segment intervenes. -/
theorem stepMax_direct (y : ℕ) :
    altCont (fun r => lazyFind (fun r2 => altCont moneyCont maxKws r2) r)
      budgetKws (("budget below $".toList) ++ natStr y) = some ((y : ℚ)) := by
  have hmoney : moneyCont (' ' :: '$' :: (natStr y ++ ([] : Chars))) =
      some ((y : ℚ)) := by
    apply moneyCont_dollar y []
    · rw [List.append_nil]
      exact spanDigits_natStr_end y
    · rfl
  rw [List.append_nil] at hmoney
  have hinner1 : altCont moneyCont maxKws
      ('b' :: 'e' :: 'l' :: 'o' :: 'w' :: ' ' :: '$' :: natStr y) =
      some ((y : ℚ)) := by
    apply altCont_head_hit moneyCont ("below".toList) _ _ (by rfl)
    exact hmoney
  apply altCont_head_hit _ ("budget".toList) _ _ (by rfl)
  rw [show ((("budget below $".toList) ++ natStr y).drop
      ("budget".toList).length) =
    ' ' :: 'b' :: 'e' :: 'l' :: 'o' :: 'w' :: ' ' :: '$' :: natStr y
    from rfl]
  rw [lazyFind_cons_none _ _ rfl (by decide)]
  exact lazyFind_cons_some _ hinner1

/-- The maximum-budget regex step also succeeds from the first `budget`
keyword when the minimum segment comes first: the lazy gap walks through
`above $x` to the `below` keyword. -/
theorem stepMax_after_min (x y : ℕ) :
    altCont (fun r => lazyFind (fun r2 => altCont moneyCont maxKws r2) r)
      budgetKws (("budget above $".toList) ++ (natStr x ++ ' ' ::
        (("budget below $".toList) ++ natStr y))) = some ((y : ℚ)) := by
  have hmoney : moneyCont (' ' :: '$' :: (natStr y ++ ([] : Chars))) =
      some ((y : ℚ)) := by
    apply moneyCont_dollar y []
    · rw [List.append_nil]
      exact spanDigits_natStr_end y
    · rfl
  rw [List.append_nil] at hmoney
  have hinner1 : altCont moneyCont maxKws
      ('b' :: 'e' :: 'l' :: 'o' :: 'w' :: ' ' :: '$' :: natStr y) =
      some ((y : ℚ)) := by
    apply altCont_head_hit moneyCont ("below".toList) _ _ (by rfl)
    exact hmoney
  have htail : lazyFind (fun r2 => altCont moneyCont maxKws r2)
      (("budget below $".toList) ++ natStr y) = some ((y : ℚ)) := by
    rw [show (("budget below $".toList) ++ natStr y : Chars) =
      'b' :: 'u' :: 'd' :: 'g' :: 'e' :: 't' :: ' ' ::
        ('b' :: 'e' :: 'l' :: 'o' :: 'w' :: ' ' :: '$' :: natStr y)
      from rfl]
    rw [lazyFind_cons_none _ _ rfl (by decide)]
    rw [lazyFind_cons_none _ _ rfl (by decide)]
    rw [lazyFind_cons_none _ _ rfl (by decide)]
    rw [lazyFind_cons_none _ _ rfl (by decide)]
    rw [lazyFind_cons_none _ _ rfl (by decide)]
    rw [lazyFind_cons_none _ _ rfl (by decide)]
    rw [lazyFind_cons_none _ _ rfl (by decide)]
    exact lazyFind_cons_some _ hinner1
  apply altCont_head_hit _ ("budget".toList) _ _ (by rfl)
  rw [show ((("budget above $".toList) ++ (natStr x ++ ' ' ::
      (("budget below $".toList) ++ natStr y))).drop
      ("budget".toList).length) =
    ' ' :: 'a' :: 'b' :: 'o' :: 'v' :: 'e' :: ' ' :: '$' ::
      (natStr x ++ ' ' :: (("budget below $".toList) ++ natStr y))
    from rfl]
  rw [lazyFind_cons_none _ _ rfl (by decide)]
  rw [lazyFind_cons_none _ _ rfl (by decide)]
  rw [lazyFind_cons_none _ _ rfl (by decide)]
  rw [lazyFind_cons_none _ _ rfl (by decide)]
  rw [lazyFind_cons_none _ _ rfl (by decide)]
  rw [lazyFind_cons_none _ _ rfl (by decide)]
  rw [lazyFind_cons_none _ _ rfl (by decide)]
  rw [lazyFind_cons_none _ _ rfl (by decide)]
  rw [hunt_skip_digits maxKws maxKws_heads x _]
  rw [lazyFind_cons_none _ _ rfl (by decide)]
  exact htail

-- ===== Assembling the budget scans over the whole rendered text =====

theorem lowers_self_left {A B : Chars} (h : lowers (A ++ B) = A ++ B) :
    lowers A = A := by
  rw [lowers_append] at h
  exact (List.append_inj h (by simp [lowers])).1

theorem budget_not_type : ∀ bk ∈ budgetKws, bk ∉ tourTypesList := by decide

/-- The leftmost budget-keyword occurrence is past the destination and
tour-type segments. -/
theorem budgetScan_skip (kws : List Chars) (P REST : Chars)
    (hlow : lowers P = P)
    (hP : ∀ bk ∈ budgetKws, hasTok bk P = false) :
    budgetScan kws (P ++ ' ' :: REST) = budgetScan kws REST := by
  unfold budgetScan
  rw [show (P ++ ' ' :: REST : Chars) = (P ++ [' ']) ++ REST from by simp]
  apply scanPos_skip
  intro i hi
  apply altCont_none_of_all
  intro bk hbk
  have hh := budget_sub_hazard bk hbk
  rw [startsCI_lowers, (hazard_kw_facts bk hh).2.2]
  rw [show ((P ++ [' ']) ++ REST : Chars) = P ++ ' ' :: REST from by simp]
  rw [lowers_drop, lowers_append, lowers_cons, toLower_space, hlow]
  have hi' : i ≤ P.length := by
    simp only [List.length_append, List.length_cons, List.length_nil] at hi
    omega
  rw [List.drop_append_of_le_length hi']
  rw [startsWithB_sep_frontier (hazard_kw_facts bk hh).2.1
    (show ' ' ∈ sepChars from by decide)]
  exact noStart_of_noTok (hP bk hbk) i

theorem pre_shape (d : Option (List DWord)) (t : Option Chars)
    (h : d ≠ none ∨ t ≠ none) :
    ∃ l, destSegPairs d ++ typeSegPairs t = l ++ [(([] : Chars), ' ')] := by
  cases t with
  | some T =>
    exact ⟨destSegPairs d ++ [(T, ' '), ("type".toList, ',')],
      by simp [typeSegPairs, List.append_assoc]⟩
  | none =>
    cases d with
    | none =>
      rcases h with h | h
      · exact absurd rfl h
      · exact absurd rfl h
    | some ws =>
      exact ⟨("in".toList, ' ') :: lowWordPairs ws,
        by simp [destSegPairs, typeSegPairs, List.append_assoc]⟩

/-- A budget scan over the rendered text starts the anchored match past the
destination and tour-type segments. -/
theorem budgetScan_pre (kws : List Chars) (d : Option (List DWord))
    (t : Option Chars) (REGION : Chars)
    (hd : ∀ ws, d = some ws → (∀ w ∈ ws, wordOKB w = true) ∧ ws ≠ [])
    (htmem : ∀ T, t = some T → T ∈ tourTypesList)
    (hidem : lowers (wsflat (destSegPairs d ++ typeSegPairs t) REGION) =
      wsflat (destSegPairs d ++ typeSegPairs t) REGION) :
    budgetScan kws (wsflat (destSegPairs d ++ typeSegPairs t) REGION) =
      budgetScan kws REGION := by
  by_cases hdt : d = none ∧ t = none
  · rw [hdt.1, hdt.2]
    rfl
  · have hor : d ≠ none ∨ t ≠ none := by tauto
    obtain ⟨l, hl⟩ := pre_shape d t hor
    have hstruct : wsflat (destSegPairs d ++ typeSegPairs t) REGION =
        wsflat l [] ++ ' ' :: REGION := by
      rw [hl, wsflat_append]
      rw [show wsflat [(([] : Chars), ' ')] REGION = ' ' :: REGION from rfl]
      rw [wsflat_tail_shift]
    have hseps : ∀ p ∈ destSegPairs d ++ typeSegPairs t,
        p.2 ∈ sepChars := by
      intro p hp
      apply renderPairs_seps d t none none
      unfold renderPairs
      have : p ∈ destSegPairs d ∨ p ∈ typeSegPairs t := by simpa using hp
      rcases this with h | h
      · simp [h]
      · simp [h]
    have hseps_l : ∀ p ∈ l, p.2 ∈ sepChars := fun p hp =>
      hseps p (by rw [hl]; exact List.mem_append_left _ hp)
    have hany : ∀ bk ∈ budgetKws,
        (destSegPairs d ++ typeSegPairs t).any
          (fun p => hasTok bk p.1) = false := by
      intro bk hbk
      have hh := budget_sub_hazard bk hbk
      have hcn := budget_concrete bk hbk
      rw [List.any_append]
      rw [destSegPairs_any (hazard_kw_facts bk hh).1 d
        (fun ws hws w hw => word_low_noTok ((hd ws hws).1 w hw) bk hh)
        hcn.1]
      rw [typeSegPairs_any (hazard_kw_facts bk hh).1 t
        (fun T h0 => nontype_vs_ttype bk hh (budget_not_type bk hbk) T
          (htmem T h0)) hcn.2]
      rfl
    have hpre_any : ∀ bk ∈ budgetKws, hasTok bk (wsflat l []) = false := by
      intro bk hbk
      have hh := budget_sub_hazard bk hbk
      have hl_any : l.any (fun p => hasTok bk p.1) = false := by
        have := hany bk hbk
        rw [hl, List.any_append] at this
        exact (Bool.or_eq_false_iff.mp this).1
      rw [hasTok_wsflat (hazard_kw_facts bk hh).2.1 l hseps_l []]
      rw [hl_any, hasTok_nil_of_ne (hazard_kw_facts bk hh).1]
      rfl
    rw [hstruct]
    rw [hstruct] at hidem
    exact budgetScan_skip kws _ REGION (lowers_self_left hidem) hpre_any

theorem minRegion_eq (x : ℕ) (Y : Chars) :
    wsflat (minSegPairs (some x)) Y =
      ("budget above $".toList) ++ (natStr x ++ ' ' :: Y) := rfl

theorem maxRegion_eq (y : ℕ) :
    wsflat (maxSegPairs (some y)) (maxTail (some y)) =
      ("budget below $".toList) ++ natStr y := rfl

theorem budgetScan_min_head (x : ℕ) (Y : Chars) :
    budgetScan minKws
      (("budget above $".toList) ++ (natStr x ++ ' ' :: Y)) =
      some ((x : ℚ)) := by
  show scanPos (fun s => altCont
      (fun r => lazyFind (fun r2 => altCont moneyCont minKws r2) r)
      budgetKws s)
    ('b' :: 'u' :: 'd' :: 'g' :: 'e' :: 't' :: ' ' :: 'a' :: 'b' :: 'o' ::
      'v' :: 'e' :: ' ' :: '$' :: (natStr x ++ ' ' :: Y)) = some ((x : ℚ))
  exact scanPos_cons_some _ _ _ (stepMin_pos x Y)

theorem budgetScan_max_head_direct (y : ℕ) :
    budgetScan maxKws (("budget below $".toList) ++ natStr y) =
      some ((y : ℚ)) := by
  show scanPos (fun s => altCont
      (fun r => lazyFind (fun r2 => altCont moneyCont maxKws r2) r)
      budgetKws s)
    ('b' :: 'u' :: 'd' :: 'g' :: 'e' :: 't' :: ' ' :: 'b' :: 'e' :: 'l' ::
      'o' :: 'w' :: ' ' :: '$' :: natStr y) = some ((y : ℚ))
  exact scanPos_cons_some _ _ _ (stepMax_direct y)

theorem budgetScan_max_head_after (x y : ℕ) :
    budgetScan maxKws (("budget above $".toList) ++ (natStr x ++ ' ' ::
      (("budget below $".toList) ++ natStr y))) = some ((y : ℚ)) := by
  show scanPos (fun s => altCont
      (fun r => lazyFind (fun r2 => altCont moneyCont maxKws r2) r)
      budgetKws s)
    ('b' :: 'u' :: 'd' :: 'g' :: 'e' :: 't' :: ' ' :: 'a' :: 'b' :: 'o' ::
      'v' :: 'e' :: ' ' :: '$' ::
        (natStr x ++ ' ' :: (("budget below $".toList) ++ natStr y))) =
      some ((y : ℚ))
  exact scanPos_cons_some _ _ _ (stepMax_after_min x y)

/-- The minimum budget written by the renderer is re-extracted. -/
theorem minScan_render (d : Option (List DWord)) (t : Option Chars)
    (M : Option ℕ) (x : ℕ)
    (hd : ∀ ws, d = some ws → (∀ w ∈ ws, wordOKB w = true) ∧ ws ≠ [])
    (htmem : ∀ T, t = some T → T ∈ tourTypesList) :
    minScan (lowers (renderText d t (some x) M)) = some ((x : ℚ)) := by
  have htl : ∀ T, t = some T → lowers T = T := fun T h =>
    (hazard_kw_facts T (ttype_sub_hazard T (htmem T h))).2.2
  have hL := lowersRenderText d t (some x) M (fun ws h => (hd ws h).2) htl
  have hregion : wsflat (renderPairs d t (some x) M) (maxTail M) =
      wsflat (destSegPairs d ++ typeSegPairs t)
        (("budget above $".toList) ++ (natStr x ++ ' ' ::
          wsflat (maxSegPairs M) (maxTail M))) := by
    unfold renderPairs
    rw [wsflat_append, wsflat_append, wsflat_append, minRegion_eq]
    rw [← wsflat_append]
  have hidem := lowers_lowers (renderText d t (some x) M)
  rw [hL, hregion] at hidem
  show minScan (lowers (renderText d t (some x) M)) = some ((x : ℚ))
  rw [hL, hregion]
  show budgetScan minKws _ = _
  rw [budgetScan_pre minKws d t _ hd htmem hidem]
  exact budgetScan_min_head x _

/-- The maximum budget written by the renderer is re-extracted. -/
theorem maxScan_render (d : Option (List DWord)) (t : Option Chars)
    (m : Option ℕ) (y : ℕ)
    (hd : ∀ ws, d = some ws → (∀ w ∈ ws, wordOKB w = true) ∧ ws ≠ [])
    (htmem : ∀ T, t = some T → T ∈ tourTypesList) :
    maxScan (lowers (renderText d t m (some y))) = some ((y : ℚ)) := by
  have htl : ∀ T, t = some T → lowers T = T := fun T h =>
    (hazard_kw_facts T (ttype_sub_hazard T (htmem T h))).2.2
  have hL := lowersRenderText d t m (some y) (fun ws h => (hd ws h).2) htl
  cases m with
  | none =>
    have hregion : wsflat (renderPairs d t none (some y))
        (maxTail (some y)) =
        wsflat (destSegPairs d ++ typeSegPairs t)
          (("budget below $".toList) ++ natStr y) := by
      unfold renderPairs
      rw [wsflat_append, wsflat_append, wsflat_append]
      rw [show wsflat (minSegPairs none)
        (wsflat (maxSegPairs (some y)) (maxTail (some y))) =
        wsflat (maxSegPairs (some y)) (maxTail (some y)) from rfl]
      rw [maxRegion_eq]
      rw [← wsflat_append]
    have hidem := lowers_lowers (renderText d t none (some y))
    rw [hL, hregion] at hidem
    rw [hL, hregion]
    show budgetScan maxKws _ = _
    rw [budgetScan_pre maxKws d t _ hd htmem hidem]
    exact budgetScan_max_head_direct y
  | some x =>
    have hregion : wsflat (renderPairs d t (some x) (some y))
        (maxTail (some y)) =
        wsflat (destSegPairs d ++ typeSegPairs t)
          (("budget above $".toList) ++ (natStr x ++ ' ' ::
            (("budget below $".toList) ++ natStr y))) := by
      unfold renderPairs
      rw [wsflat_append, wsflat_append, wsflat_append, maxRegion_eq,
        minRegion_eq]
      rw [← wsflat_append]
    have hidem := lowers_lowers (renderText d t (some x) (some y))
    rw [hL, hregion] at hidem
    rw [hL, hregion]
    show budgetScan maxKws _ = _
    rw [budgetScan_pre maxKws d t _ hd htmem hidem]
    exact budgetScan_max_head_after x y

-- ===== The round trip on canonical filter sets =====

theorem trig_not_type : ∀ lit ∈ trigLits, lit ∉ tourTypesList := by decide

theorem renderText_dest_shape (ws : List DWord) (t : Option Chars)
    (m M : Option ℕ) :
    renderText (some ws) t m M =
      ("in ".toList) ++ (destChars ws ++ ',' :: (' ' ::
        ((match t with
          | some T => T ++ (" type, ".toList)
          | none => ([] : Chars)) ++
        ((match m with
          | some x => ("budget above $".toList) ++ (natStr x ++ [' '])
          | none => ([] : Chars)) ++
        (match M with
          | some y => ("budget below $".toList) ++ natStr y
          | none => ([] : Chars)))))) := by
  show (("in ".toList) ++ (destChars ws ++ (", ".toList))) ++ _ = _
  rw [show (", ".toList : Chars) = [',', ' '] from rfl]
  simp [List.append_assoc]

/-- The rendered destination is re-extracted. -/
theorem extract_render_dest (ws : List DWord) (t : Option Chars)
    (m M : Option ℕ)
    (hws : ∀ w ∈ ws, wordOKB w = true) (hwne : ws ≠ [])
    (hwlen : 3 ≤ (destChars ws).length)
    (htmem : ∀ T, t = some T → T ∈ tourTypesList) :
    (extractDestination (renderText (some ws) t m M)).map Prod.fst =
      some (destChars ws) := by
  have hd : ∀ ws0, (some ws : Option (List DWord)) = some ws0 →
      (∀ w ∈ ws0, wordOKB w = true) ∧ ws0 ≠ [] := by
    intro ws0 h0
    injection h0 with h0
    subst h0
    exact ⟨hws, hwne⟩
  have htrig : ∀ lit ∈ trigLits, hasTok lit
      (lowers (renderText (some ws) t m M)) = false := by
    intro lit hlit
    have hh := trig_sub_hazard lit hlit
    have hcn := trig_concrete lit hlit
    exact renderText_noTok (some ws) t m M hd
      (fun T h0 => (hazard_kw_facts T
        (ttype_sub_hazard T (htmem T h0))).2.2)
      hh
      (fun T h0 => nontype_vs_ttype lit hh (trig_not_type lit hlit) T
        (htmem T h0))
      hcn.1 hcn.2.1 hcn.2.2.1 hcn.2.2.2.1 hcn.2.2.2.2
  rw [renderText_dest_shape] at htrig ⊢
  rw [extractDestination_dest hws hwne hwlen _ htrig]
  rfl

/-- Core of the amended claim: the four canonical fields survive the
render-and-reparse round trip. -/
theorem roundtrip_core (d : Option (List DWord)) (t : Option Chars)
    (m M : Option ℕ)
    (hd : ∀ ws, d = some ws → (∀ w ∈ ws, wordOKB w = true) ∧ ws ≠ [] ∧
      3 ≤ (destChars ws).length)
    (htmem : ∀ T, t = some T → T ∈ tourTypesList) (srch : Option Chars) :
    subsumesB (parse_browse_query (renderText d t m M))
      { destination := d.map destChars, search := srch, tourType := t,
        minBudget := m.map (fun x : ℕ => ((x : ℚ))),
        maxBudget := M.map (fun y : ℕ => ((y : ℚ))) } = true := by
  have hd2 : ∀ ws, d = some ws →
      (∀ w ∈ ws, wordOKB w = true) ∧ ws ≠ [] :=
    fun ws h => ⟨(hd ws h).1, (hd ws h).2.1⟩
  have hdst : optLeB (d.map destChars)
      (parse_browse_query (renderText d t m M)).destination = true := by
    cases d with
    | none => rfl
    | some ws =>
      obtain ⟨hws, hwne, hwlen⟩ := hd ws rfl
      show optLeB (some (destChars ws))
        ((extractDestination (renderText (some ws) t m M)).map Prod.fst) =
        true
      rw [extract_render_dest ws t m M hws hwne hwlen htmem]
      simp [optLeB]
  have htt : optLeB t
      (parse_browse_query (renderText d t m M)).tourType = true := by
    cases t with
    | none => rfl
    | some T =>
      show optLeB (some T) (tourTypesList.find?
        (fun tt => hasTok tt (lowers (renderText d (some T) m M)))) = true
      rw [renderType_find d T m M hd2 (htmem T rfl)]
      simp [optLeB]
  have hmn : optLeB (m.map (fun x : ℕ => ((x : ℚ))))
      (parse_browse_query (renderText d t m M)).minBudget = true := by
    cases m with
    | none => rfl
    | some x =>
      have h1 : minScan (lowers (renderText d t (some x) M)) =
          some ((x : ℚ)) := minScan_render d t M x hd2 htmem
      have h2 : (parse_browse_query (renderText d t (some x) M)).minBudget
          = some ((x : ℚ)) := by
        show (if (minScan (lowers (renderText d t (some x) M))).isNone ∧
            (maxScan (lowers (renderText d t (some x) M))).isNone then
            (match rangeScan (lowers (renderText d t (some x) M)) with
              | some ab => (some ab.1, some ab.2)
              | none => (none, none))
          else (minScan (lowers (renderText d t (some x) M)),
            maxScan (lowers (renderText d t (some x) M)))).1 =
          some ((x : ℚ))
        rw [h1]
        rw [if_neg (by simp)]
      rw [h2]
      simp [optLeB]
  have hmx : optLeB (M.map (fun y : ℕ => ((y : ℚ))))
      (parse_browse_query (renderText d t m M)).maxBudget = true := by
    cases M with
    | none => rfl
    | some y =>
      have h1 : maxScan (lowers (renderText d t m (some y))) =
          some ((y : ℚ)) := maxScan_render d t m y hd2 htmem
      have h2 : (parse_browse_query (renderText d t m (some y))).maxBudget
          = some ((y : ℚ)) := by
        show (if (minScan (lowers (renderText d t m (some y)))).isNone ∧
            (maxScan (lowers (renderText d t m (some y)))).isNone then
            (match rangeScan (lowers (renderText d t m (some y))) with
              | some ab => (some ab.1, some ab.2)
              | none => (none, none))
          else (minScan (lowers (renderText d t m (some y))),
            maxScan (lowers (renderText d t m (some y))))).2 =
          some ((y : ℚ))
        rw [h1]
        rw [if_neg (by simp)]
      rw [h2]
      simp [optLeB]
  show (optLeB (d.map destChars) _ && optLeB t _ &&
    optLeB (m.map (fun x : ℕ => ((x : ℚ)))) _ &&
    optLeB (M.map (fun y : ℕ => ((y : ℚ)))) _) = true
  rw [hdst, htt, hmn, hmx]
  rfl

/-- The renderer applied to the canonical record form. -/
theorem render_eq_renderText (d : Option (List DWord)) (t : Option Chars)
    (m M : Option ℕ) (srch : Option Chars) :
    render_filters_as_text
      { destination := d.map destChars, search := srch, tourType := t,
        minBudget := m.map (fun x : ℕ => ((x : ℚ))),
        maxBudget := M.map (fun y : ℕ => ((y : ℚ))) } =
      renderText d t m M := by
  unfold render_filters_as_text renderText
  cases d <;> cases t <;> cases m <;> cases M <;>
    simp [renderMoney, List.append_assoc]

theorem roundtrip_canonical_form (d : Option (List DWord))
    (t : Option Chars) (m M : Option ℕ)
    (hd : ∀ ws, d = some ws → (∀ w ∈ ws, wordOKB w = true) ∧ ws ≠ [] ∧
      3 ≤ (destChars ws).length)
    (htmem : ∀ T, t = some T → T ∈ tourTypesList) (srch : Option Chars) :
    subsumesB (parse_browse_query (render_filters_as_text
      { destination := d.map destChars, search := srch, tourType := t,
        minBudget := m.map (fun x : ℕ => ((x : ℚ))),
        maxBudget := M.map (fun y : ℕ => ((y : ℚ))) }))
      { destination := d.map destChars, search := srch, tourType := t,
        minBudget := m.map (fun x : ℕ => ((x : ℚ))),
        maxBudget := M.map (fun y : ℕ => ((y : ℚ))) } = true := by
  rw [render_eq_renderText]
  exact roundtrip_core d t m M hd htmem srch

/-- C10 (amended): for every filter set composed only of the supported
fields whose values are canonical for the parser — the destination a
space-separated sequence of capitalized keyword-free alphabetic words of
total length at least 3, the tour type one of the supported types, and the
budgets whole-dollar amounts — rendering the set as natural-language text
and re-extracting filters with the browse-query parser yields a filter set
containing it. -/
theorem browse_roundtrip_canonical (f : Filters)
    (hdest : f.destination = none ∨ ∃ ws : List DWord,
      (∀ w ∈ ws, wordOKB w = true) ∧ ws ≠ [] ∧
      3 ≤ (destChars ws).length ∧ f.destination = some (destChars ws))
    (htype : f.tourType = none ∨ ∃ T ∈ tourTypesList, f.tourType = some T)
    (hmin : f.minBudget = none ∨ ∃ x : ℕ, f.minBudget = some ((x : ℚ)))
    (hmax : f.maxBudget = none ∨ ∃ y : ℕ, f.maxBudget = some ((y : ℚ))) :
    subsumesB (parse_browse_query (render_filters_as_text f)) f = true := by
  obtain ⟨fd, fs, ft, fm, fM⟩ := f
  simp only at hdest htype hmin hmax
  rcases hdest with hd0 | ⟨ws, hws, hwne, hwlen, hd1⟩ <;>
    rcases htype with ht0 | ⟨T, hTmem, ht1⟩ <;>
    rcases hmin with hm0 | ⟨x, hm1⟩ <;>
    rcases hmax with hM0 | ⟨y, hM1⟩ <;>
    subst_vars
  ·
    exact roundtrip_canonical_form none none none none
      (fun _ h => Option.noConfusion h) (fun _ h => Option.noConfusion h) fs
  ·
    exact roundtrip_canonical_form none none none (some y)
      (fun _ h => Option.noConfusion h) (fun _ h => Option.noConfusion h) fs
  ·
    exact roundtrip_canonical_form none none (some x) none
      (fun _ h => Option.noConfusion h) (fun _ h => Option.noConfusion h) fs
  ·
    exact roundtrip_canonical_form none none (some x) (some y)
      (fun _ h => Option.noConfusion h) (fun _ h => Option.noConfusion h) fs
  ·
    exact roundtrip_canonical_form none (some T) none none
      (fun _ h => Option.noConfusion h)
      (fun T0 h0 => by injection h0 with h0; subst h0; exact hTmem) fs
  ·
    exact roundtrip_canonical_form none (some T) none (some y)
      (fun _ h => Option.noConfusion h)
      (fun T0 h0 => by injection h0 with h0; subst h0; exact hTmem) fs
  ·
    exact roundtrip_canonical_form none (some T) (some x) none
      (fun _ h => Option.noConfusion h)
      (fun T0 h0 => by injection h0 with h0; subst h0; exact hTmem) fs
  ·
    exact roundtrip_canonical_form none (some T) (some x) (some y)
      (fun _ h => Option.noConfusion h)
      (fun T0 h0 => by injection h0 with h0; subst h0; exact hTmem) fs
  ·
    exact roundtrip_canonical_form (some ws) none none none
      (fun ws0 h0 => by
        injection h0 with h0
        subst h0
        exact ⟨hws, hwne, hwlen⟩)
      (fun _ h => Option.noConfusion h) fs
  ·
    exact roundtrip_canonical_form (some ws) none none (some y)
      (fun ws0 h0 => by
        injection h0 with h0
        subst h0
        exact ⟨hws, hwne, hwlen⟩)
      (fun _ h => Option.noConfusion h) fs
  ·
    exact roundtrip_canonical_form (some ws) none (some x) none
      (fun ws0 h0 => by
        injection h0 with h0
        subst h0
        exact ⟨hws, hwne, hwlen⟩)
      (fun _ h => Option.noConfusion h) fs
  ·
    exact roundtrip_canonical_form (some ws) none (some x) (some y)
      (fun ws0 h0 => by
        injection h0 with h0
        subst h0
        exact ⟨hws, hwne, hwlen⟩)
      (fun _ h => Option.noConfusion h) fs
  ·
    exact roundtrip_canonical_form (some ws) (some T) none none
      (fun ws0 h0 => by
        injection h0 with h0
        subst h0
        exact ⟨hws, hwne, hwlen⟩)
      (fun T0 h0 => by injection h0 with h0; subst h0; exact hTmem) fs
  ·
    exact roundtrip_canonical_form (some ws) (some T) none (some y)
      (fun ws0 h0 => by
        injection h0 with h0
        subst h0
        exact ⟨hws, hwne, hwlen⟩)
      (fun T0 h0 => by injection h0 with h0; subst h0; exact hTmem) fs
  ·
    exact roundtrip_canonical_form (some ws) (some T) (some x) none
      (fun ws0 h0 => by
        injection h0 with h0
        subst h0
        exact ⟨hws, hwne, hwlen⟩)
      (fun T0 h0 => by injection h0 with h0; subst h0; exact hTmem) fs
  ·
    exact roundtrip_canonical_form (some ws) (some T) (some x) (some y)
      (fun ws0 h0 => by
        injection h0 with h0
        subst h0
        exact ⟨hws, hwne, hwlen⟩)
      (fun T0 h0 => by injection h0 with h0; subst h0; exact hTmem) fs

/-- The amended round trip at a concrete canonical filter set. -/
theorem browse_roundtrip_witness :
    subsumesB (parse_browse_query (render_filters_as_text
      { destination := some ("Kandy".toList),
        tourType := some ("beach".toList),
        minBudget := some ((500 : ℚ)), maxBudget := some ((2000 : ℚ)) }))
      { destination := some ("Kandy".toList),
        tourType := some ("beach".toList),
        minBudget := some ((500 : ℚ)), maxBudget := some ((2000 : ℚ)) } =
      true :=
  browse_roundtrip_canonical
    { destination := some ("Kandy".toList),
      tourType := some ("beach".toList),
      minBudget := some ((500 : ℚ)), maxBudget := some ((2000 : ℚ)) }
    (Or.inr ⟨[⟨'K', "andy".toList⟩], by decide, by decide, by decide, rfl⟩)
    (Or.inr ⟨"beach".toList, by decide, rfl⟩)
    (Or.inr ⟨500, rfl⟩)
    (Or.inr ⟨2000, rfl⟩)

end TourGuide
